import Mathlib

/-! Image size fitting and size probing (es-core/src/ImageIO.cpp)

A shallow embedding of the size computations and of the cheap size probe of
`ImageIO.cpp`, followed by the properties checked against the design document.

Modelling conventions
* `int` values are unbounded integers (`Int`); the size computations are assumed to stay
  inside the 32-bit range. Where a value changes type between `int` and `unsigned int`
  the conversion is explicit (`toUInt32`, `toInt32`).
* `double` and `float` values are rationals (`ℚ`). The two size computations are embedded
  twice. `getPictureMinSize` and `adjustPictureSize` take every floating-point operation
  as the exact operation. `getPictureMinSizeRounded` and `adjustPictureSizeRounded` round
  the result of each operation to the nearest value of its type, a tie to the even one
  (`toDouble`: 53 significant bits, `toFloat`: 24), as the machine does when it evaluates
  each operation in its own type; there a product such as `480 * (123.0 / 480)` falls just
  below an integer, and the truncated axis with it by one pixel. The exponent range is
  not modelled, so the rounded forms describe the code where no operation overflows or
  underflows. The properties that depend on the last pixel are stated on the rounded forms.
* the conversion `(int)d` of a floating-point value truncates toward zero.
* the static variables of `ImageIO.cpp` are passed and returned explicitly (`State`); the
  mutex is not modelled, each function runs alone.
* a file is its list of bytes; the calls the probe makes to the file system are recorded
  in order (`FileOp`).
-/

set_option autoImplicit false

namespace ImageIO

/-! ## Vectors -/

/-- The class `Vector2i`: a pair of `int`. -/
structure Vector2i where
  x : Int
  y : Int
deriving DecidableEq, Repr

/-- The class `Vector2f`: a pair of `float`. -/
structure Vector2f where
  x : ℚ
  y : ℚ
deriving DecidableEq, Repr

/-- The conversion of a floating-point value to `int`: truncation toward zero. -/
def truncToInt (q : ℚ) : Int :=
  if 0 ≤ q then ⌊q⌋ else ⌈q⌉

/-! ## ImageIO::getPictureMinSize and ImageIO::adjustPictureSize -/

/-- The function `ImageIO::getPictureMinSize(Vector2f imageSize, Vector2f maxSize)`, every
`float` operation taken as the exact operation. -/
def getPictureMinSize (imageSize maxSize : Vector2f) : Vector2f :=
  if imageSize.x = 0 ∨ imageSize.y = 0 then
    imageSize
  else
    let cxDIB := maxSize.x
    let cyDIB := maxSize.y
    let xCoef := maxSize.x / imageSize.x
    let yCoef := maxSize.y / imageSize.y
    if imageSize.x * yCoef < maxSize.x then
      ⟨cxDIB, imageSize.y * xCoef⟩
    else
      ⟨imageSize.x * yCoef, cyDIB⟩

/-- The function
`ImageIO::adjustPictureSize(Vector2i imageSize, Vector2i maxSize, bool externSize)`, every
`double` operation and every conversion taken as the exact operation. -/
def adjustPictureSize (imageSize maxSize : Vector2i) (externSize : Bool) : Vector2i :=
  if externSize then
    let szf := getPictureMinSize ⟨imageSize.x, imageSize.y⟩ ⟨maxSize.x, maxSize.y⟩
    ⟨truncToInt szf.x, truncToInt szf.y⟩
  else
    let cxDIB := imageSize.x
    let cyDIB := imageSize.y
    if cxDIB = 0 ∨ cyDIB = 0 then
      imageSize
    else
      let iMaxX := maxSize.x
      let iMaxY := maxSize.y
      let xCoef : ℚ := (iMaxX : ℚ) / (cxDIB : ℚ)
      let yCoef : ℚ := (iMaxY : ℚ) / (cyDIB : ℚ)
      let cyDIB1 := truncToInt ((cyDIB : ℚ) * max xCoef yCoef)
      let cxDIB1 := truncToInt ((cxDIB : ℚ) * max xCoef yCoef)
      let cyDIB2 := if cxDIB1 > iMaxX then truncToInt ((cyDIB1 : ℚ) * (iMaxX : ℚ) / (cxDIB1 : ℚ)) else cyDIB1
      let cxDIB2 := if cxDIB1 > iMaxX then iMaxX else cxDIB1
      let cxDIB3 := if cyDIB2 > iMaxY then truncToInt ((cxDIB2 : ℚ) * (iMaxY : ℚ) / (cyDIB2 : ℚ)) else cxDIB2
      let cyDIB3 := if cyDIB2 > iMaxY then iMaxY else cyDIB2
      ⟨cxDIB3, cyDIB3⟩

/-- Integer form of the fit branch of `adjustPictureSize` on positive sizes; it is
proved equal to the embedding in `adjustPictureSize_eq_fitInt` and only used in proofs. -/
def fitInt (w h bw bh : Int) : Vector2i :=
  if bh * w ≤ bw * h then
    let cy1 := h * bw / w
    if cy1 > bh then ⟨bw * bh / cy1, bh⟩ else ⟨bw, cy1⟩
  else
    let cx1 := w * bh / h
    if cx1 > bw then ⟨bw, bh * bw / cx1⟩ else ⟨cx1, bh⟩

/-! ## The size computations with each floating-point operation rounded -/

/-- The integer nearest to `s`, a tie going to the even neighbour. -/
def roundHalfEven (s : ℚ) : Int :=
  if s - ⌊s⌋ < 1 / 2 then ⌊s⌋
  else if 1 / 2 < s - ⌊s⌋ then ⌊s⌋ + 1
  else if ⌊s⌋ % 2 = 0 then ⌊s⌋ else ⌊s⌋ + 1

/-- The binary floating-point value with `p` significant bits nearest to `q`, a tie going
to the value whose last bit is 0 (the rounding mode in which the program runs). The
exponent range is not bounded: no overflow, no subnormal values. -/
def roundNE (p : Nat) (q : ℚ) : ℚ :=
  if q = 0 then 0
  else (roundHalfEven (q / (2 : ℚ) ^ (Int.log 2 |q| - ((p : Int) - 1))) : ℚ) *
    (2 : ℚ) ^ (Int.log 2 |q| - ((p : Int) - 1))

/-- The result of an operation of type `double`: 53 significant bits. -/
def toDouble (q : ℚ) : ℚ := roundNE 53 q

/-- The result of an operation of type `float`, and the conversion of an `int` to
`float`: 24 significant bits. -/
def toFloat (q : ℚ) : ℚ := roundNE 24 q

/-- The function `ImageIO::getPictureMinSize(Vector2f imageSize, Vector2f maxSize)`, the
result of each `float` operation rounded to `float`. -/
def getPictureMinSizeRounded (imageSize maxSize : Vector2f) : Vector2f :=
  if imageSize.x = 0 ∨ imageSize.y = 0 then
    imageSize
  else
    let cxDIB := maxSize.x
    let cyDIB := maxSize.y
    let xCoef := toFloat (maxSize.x / imageSize.x)
    let yCoef := toFloat (maxSize.y / imageSize.y)
    if toFloat (imageSize.x * yCoef) < maxSize.x then
      ⟨cxDIB, toFloat (imageSize.y * xCoef)⟩
    else
      ⟨toFloat (imageSize.x * yCoef), cyDIB⟩

/-- The function
`ImageIO::adjustPictureSize(Vector2i imageSize, Vector2i maxSize, bool externSize)`, the
result of each `double` operation rounded to `double`; the product and the quotient of
`(double)cyDIB * (double)iMaxX / (double)cxDIB` are two operations. The conversion of an
`int` to `double` is exact, the conversion of an `int` to `float` in the construction of
the `Vector2f` arguments rounds. -/
def adjustPictureSizeRounded (imageSize maxSize : Vector2i) (externSize : Bool) : Vector2i :=
  if externSize then
    let szf := getPictureMinSizeRounded ⟨toFloat imageSize.x, toFloat imageSize.y⟩
      ⟨toFloat maxSize.x, toFloat maxSize.y⟩
    ⟨truncToInt szf.x, truncToInt szf.y⟩
  else
    let cxDIB := imageSize.x
    let cyDIB := imageSize.y
    if cxDIB = 0 ∨ cyDIB = 0 then
      imageSize
    else
      let iMaxX := maxSize.x
      let iMaxY := maxSize.y
      let xCoef : ℚ := toDouble ((iMaxX : ℚ) / (cxDIB : ℚ))
      let yCoef : ℚ := toDouble ((iMaxY : ℚ) / (cyDIB : ℚ))
      let cyDIB1 := truncToInt (toDouble ((cyDIB : ℚ) * max xCoef yCoef))
      let cxDIB1 := truncToInt (toDouble ((cxDIB : ℚ) * max xCoef yCoef))
      let cyDIB2 := if cxDIB1 > iMaxX then
          truncToInt (toDouble (toDouble ((cyDIB1 : ℚ) * (iMaxX : ℚ)) / (cxDIB1 : ℚ)))
        else cyDIB1
      let cxDIB2 := if cxDIB1 > iMaxX then iMaxX else cxDIB1
      let cxDIB3 := if cyDIB2 > iMaxY then
          truncToInt (toDouble (toDouble ((cxDIB2 : ℚ) * (iMaxY : ℚ)) / (cyDIB2 : ℚ)))
        else cxDIB2
      let cyDIB3 := if cyDIB2 > iMaxY then iMaxY else cyDIB2
      ⟨cxDIB3, cyDIB3⟩

/-- The two clamping steps of the fit branch of `adjustPictureSize` with integer
division; on sizes up to 32768 they are proved equal to the steps of
`adjustPictureSizeRounded` in `adjustPictureSizeRounded_eq_clampInt`, and only used in
proofs. -/
def clampInt (cx1 cy1 bw bh : Int) : Vector2i :=
  let cy2 := if cx1 > bw then cy1 * bw / cx1 else cy1
  let cx2 := if cx1 > bw then bw else cx1
  let cx3 := if cy2 > bh then cx2 * bh / cy2 else cx2
  let cy3 := if cy2 > bh then bh else cy2
  ⟨cx3, cy3⟩

/-- The `float` sizes for which no operation of `getPictureMinSize` overflows or
underflows: those between `2 ^ -40` and `2 ^ 40`. -/
def inFloatRange (q : ℚ) : Prop := 1 / 2 ^ 40 ≤ q ∧ q ≤ 2 ^ 40

instance (q : ℚ) : Decidable (inFloatRange q) :=
  inferInstanceAs (Decidable (1 / 2 ^ 40 ≤ q ∧ q ≤ 2 ^ 40))

/-! ## The size cache (static variables of ImageIO.cpp) -/

/-- The struct `CachedFileInfo`: three `int` fields. -/
structure CachedFileInfo where
  size : Int
  x : Int
  y : Int
deriving DecidableEq, Repr

/-- The type `std::map<std::string, CachedFileInfo>`: an association list kept in key
order, at most one pair for a key. -/
abbrev SizeCache := List (String × CachedFileInfo)

/-- The lookup `sizeCache.find(fn)`; `none` stands for `sizeCache.cend()`. -/
def cacheFind (c : SizeCache) (fn : String) : Option CachedFileInfo :=
  match c with
  | [] => none
  | (k, v) :: rest => if fn = k then some v else cacheFind rest fn

/-- The assignment `sizeCache[fn] = fi`: overwrite the pair of `fn`, or insert a new
pair at its place in key order. -/
def cacheSet (c : SizeCache) (fn : String) (fi : CachedFileInfo) : SizeCache :=
  match c with
  | [] => [(fn, fi)]
  | (k, v) :: rest =>
    if fn = k then (k, fi) :: rest
    else if fn < k then (fn, fi) :: (k, v) :: rest
    else (k, v) :: cacheSet rest fn fi

/-- The static variables `sizeCache` and `sizeCacheDirty`. -/
structure State where
  sizeCache : SizeCache
  sizeCacheDirty : Bool
deriving DecidableEq, Repr

/-- Whether `pat` occurs in the character list, as `std::string::find` decides it. -/
def hasSubstr (pat : List Char) : List Char → Bool
  | [] => pat.isEmpty
  | c :: cs => pat.isPrefixOf (c :: cs) || hasSubstr pat cs

/-- The test `path.find(pat) != std::string::npos`. -/
def found (path pat : String) : Bool :=
  hasSubstr pat.data path.data

/-- The static function `_isCachablePath(const std::string& path)`. -/
def _isCachablePath (path : String) : Bool :=
  !found path "/themes/" &&
  found path "/tmp/" &&
  found path "/emulationstation.tmp/" &&
  !found path "/pdftmp/" &&
  found path "/saves/"

/-- The function `ImageIO::updateImageCache(const std::string fn, int sz, int x, int y)`. -/
def updateImageCache (st : State) (fn : String) (sz x y : Int) : State :=
  match cacheFind st.sizeCache fn with
  | some it =>
    if x ≠ it.x ∨ y ≠ it.y ∨ sz ≠ it.size then
      { sizeCache := cacheSet st.sizeCache fn ⟨sz, x, y⟩
        sizeCacheDirty :=
          if sz > 0 ∧ x > 0 ∧ _isCachablePath fn = true then true else st.sizeCacheDirty }
    else
      st
  | none =>
    { sizeCache := cacheSet st.sizeCache fn ⟨sz, x, y⟩
      sizeCacheDirty :=
        if sz > 0 ∧ x > 0 ∧ _isCachablePath fn = true then true else st.sizeCacheDirty }

/-! ## Files and the read buffer -/

/-- An `unsigned char`. -/
abbrev Byte := Fin 256

/-- The byte of an ASCII character literal such as `'J'`. -/
def ch (c : Char) : Byte := Fin.ofNat c.toNat

/-- A file that `fopen` can open: its content and, for each offset, whether
`fseek(f, pos, SEEK_SET)` succeeds (returns 0). -/
structure FileData where
  bytes : List Byte
  seekOk : Nat → Bool

/-- The file system as `loadImageSize` sees it. The helpers of `Utils` are outside
the sources and are taken as parameters:
* `lowerExtension fn` is `Utils::String::toLower(Utils::FileSystem::getExtension(fn))`;
* `getFileSize fn` is `Utils::FileSystem::getFileSize(fn)` as the `int` handed to
  `updateImageCache`;
* `fopen fn` is the file opened for reading, `none` when `fopen` returns 0. -/
structure FileSystem where
  lowerExtension : String → String
  getFileSize : String → Int
  fopen : String → Option FileData

/-- The calls made to the file system, in order. -/
inductive FileOp where
  | getExtension (fn : String)
  | getFileSize (fn : String)
  | fopen (fn : String)
  | fread (count : Nat)
  | fseek (pos : Nat)
  | fclose
deriving DecidableEq, Repr

/-- The array `unsigned char buf[24]`, by index. -/
abbrev Buf := Nat → Byte

/-- The byte at an offset of a file. -/
def byteAt (bytes : List Byte) (i : Nat) : Byte := bytes.getD i 0

/-- The bytes that `fread(dst, 1, count, f)` delivers at file position `pos`. -/
def freadBytes (f : FileData) (pos count : Nat) : List Byte :=
  (f.bytes.drop pos).take count

/-- The buffer after `fread` has stored `data` from index `off` on. -/
def store (buf : Buf) (off : Nat) (data : List Byte) : Buf :=
  fun i => if off ≤ i ∧ i < off + data.length then data.getD (i - off) 0 else buf i

/-- Conversion of an `int` to `unsigned int`. -/
def toUInt32 (i : Int) : Nat := (i % 2 ^ 32).toNat

/-- Conversion of an `unsigned int` to `int`. -/
def toInt32 (n : Nat) : Int :=
  if n % 2 ^ 32 < 2 ^ 31 then ((n % 2 ^ 32 : Nat) : Int) else ((n % 2 ^ 32 : Nat) : Int) - 2 ^ 32

/-! ## ImageIO::loadImageSize -/

/-- The Start-Of-Frame test of line 582 on the marker byte `buf[3]`. -/
def isSOF (m : Byte) : Bool :=
  m == 0xC0 || m == 0xC1 || m == 0xC2 || m == 0xC3 || m == 0xC9 || m == 0xCA || m == 0xCB

/-- The condition of lines 574-575: a JFIF or an Exif header in the buffer. -/
def isJfifHeader (buf : Buf) : Bool :=
  (buf 0 == 0xFF && buf 1 == 0xD8 && buf 2 == 0xFF && buf 3 == 0xE0 &&
    buf 6 == ch 'J' && buf 7 == ch 'F' && buf 8 == ch 'I' && buf 9 == ch 'F') ||
  (buf 0 == 0xFF && buf 1 == 0xD8 && buf 2 == 0xFF && buf 3 == 0xE1 &&
    buf 6 == ch 'E' && buf 7 == ch 'x' && buf 8 == ch 'i' && buf 9 == ch 'f')

/-- The loop `while (buf[2] == 0xFF)` of lines 580-592, one iteration for a unit of
fuel; `none` when the fuel runs out before the loop ends. The result is the buffer
and the file operations made. -/
def scanLoop (f : FileData) : Nat → Buf → Nat → List FileOp → Option (Buf × List FileOp)
  | 0, _, _, _ => none
  | fuel + 1, buf, pos, ops =>
    if buf 2 == 0xFF then
      if isSOF (buf 3) then
        some (buf, ops)
      else
        let pos1 := pos + (2 + ((buf 4).val <<< 8) + (buf 5).val)
        if f.seekOk pos1 = false then
          some (buf, ops ++ [FileOp.fseek pos1])
        else
          let data := freadBytes f pos1 12
          let buf1 := store buf 2 data
          if data.length ≠ 12 then
            some (buf1, ops ++ [FileOp.fseek pos1, FileOp.fread 12])
          else
            scanLoop f fuel buf1 pos1 (ops ++ [FileOp.fseek pos1, FileOp.fread 12])
    else
      some (buf, ops)

/-- Lines 572-593: the flag `jfif`, the buffer and the file operations after the
marker scan. The loop gets the file length as fuel. -/
def jpegScan (f : FileData) (buf : Buf) : Option (Bool × Buf × List FileOp) :=
  if isJfifHeader buf then
    match scanLoop f f.bytes.length buf 2 [] with
    | none => none
    | some (buf1, ops) => some (true, buf1, ops)
  else
    some (false, buf, [])

/-- What one call of `loadImageSize` leaves: the value returned, the contents of `*x`
and `*y`, the static variables and the file operations made. -/
structure LoadResult where
  ret : Bool
  x : Nat
  y : Nat
  state : State
  ops : List FileOp
deriving DecidableEq, Repr

/-- Lines 597-641: the dimensions read from the scanned buffer. -/
def extractSize (st : State) (fn : String) (size : Int) (jfif : Bool) (buf : Buf)
    (x y : Nat) (ops : List FileOp) : LoadResult :=
  if jfif && buf 0 == 0xFF && buf 1 == 0xD8 && buf 2 == 0xFF then
    let y1 := ((buf 7).val <<< 8) + (buf 8).val
    let x1 := ((buf 9).val <<< 8) + (buf 10).val
    if x1 > 5000 then
      ⟨false, x1, y1, updateImageCache st fn (-1) (-1) (-1), ops⟩
    else
      ⟨true, x1, y1, updateImageCache st fn size (toInt32 x1) (toInt32 y1), ops⟩
  else if buf 0 == ch 'G' && buf 1 == ch 'I' && buf 2 == ch 'F' then
    let x1 := (buf 6).val + ((buf 7).val <<< 8)
    let y1 := (buf 8).val + ((buf 9).val <<< 8)
    ⟨true, x1, y1, updateImageCache st fn size (toInt32 x1) (toInt32 y1), ops⟩
  else if buf 0 == 0x89 && buf 1 == ch 'P' && buf 2 == ch 'N' && buf 3 == ch 'G' &&
      buf 4 == 0x0D && buf 5 == 0x0A && buf 6 == 0x1A && buf 7 == 0x0A &&
      buf 12 == ch 'I' && buf 13 == ch 'H' && buf 14 == ch 'D' && buf 15 == ch 'R' then
    let x1 := (((buf 16).val <<< 24) + ((buf 17).val <<< 16) + ((buf 18).val <<< 8) +
      ((buf 19).val <<< 0)) % 2 ^ 32
    let y1 := (((buf 20).val <<< 24) + ((buf 21).val <<< 16) + ((buf 22).val <<< 8) +
      ((buf 23).val <<< 0)) % 2 ^ 32
    ⟨true, x1, y1, updateImageCache st fn size (toInt32 x1) (toInt32 y1), ops⟩
  else
    ⟨false, x, y, updateImageCache st fn (-1) (-1) (-1), ops⟩

/-- The buffer after the first `fread(buf, 1, 24, f)`. -/
def firstRead (f : FileData) : Buf :=
  store (fun _ => 0) 0 (freadBytes f 0 24)

/-- The function `ImageIO::loadImageSize(const char *fn, unsigned int *x, unsigned int *y)`.
The arguments `x` and `y` are the contents of `*x` and `*y` before the call; the
result is `none` only if the marker scan runs out of fuel. -/
def loadImageSize (fs : FileSystem) (st : State) (fn : String) (x y : Nat) :
    Option LoadResult :=
  match cacheFind st.sizeCache fn with
  | some it =>
    if it.size < 0 then
      some ⟨false, x, y, st, []⟩
    else
      some ⟨true, toUInt32 it.x, toUInt32 it.y, st, []⟩
  | none =>
    let ext := fs.lowerExtension fn
    if ext ≠ ".jpg" ∧ ext ≠ ".png" ∧ ext ≠ ".jpeg" ∧ ext ≠ ".gif" then
      some ⟨false, x, y, st, [FileOp.getExtension fn]⟩
    else
      let size := fs.getFileSize fn
      let ops0 := [FileOp.getExtension fn, FileOp.getFileSize fn, FileOp.fopen fn]
      match fs.fopen fn with
      | none =>
        some ⟨false, x, y, updateImageCache st fn (-1) (-1) (-1), ops0⟩
      | some f =>
        if (freadBytes f 0 24).length ≠ 24 then
          some ⟨false, x, y, updateImageCache st fn (-1) (-1) (-1), ops0 ++ [FileOp.fread 24]⟩
        else
          match jpegScan f (firstRead f) with
          | none => none
          | some (jfif, buf, ops) =>
            some (extractSize st fn size jfif buf x y
              (ops0 ++ [FileOp.fread 24] ++ ops ++ [FileOp.fclose]))

/-! ## ImageIO::loadImageCache and ImageIO::saveImageCache -/

/-- The store file `imagecache.db` as the two functions see it: `content` is what a
`std::ifstream` reads, `none` when it fails to open; `writable` tells whether a
`std::ofstream` on the file opens. -/
structure StoreFile where
  content : Option (List Char)
  writable : Bool
deriving DecidableEq, Repr

/-- The helpers that the two functions call and that are outside the sources, taken as
parameters:
* `createRelativePath p` is `Utils::FileSystem::createRelativePath(p, Paths::getRootPath(), true)`;
* `resolveRelativePath p` is `Utils::FileSystem::resolveRelativePath(p, Paths::getRootPath(), true)`;
* `toInteger s` is `Utils::String::toInteger(s)`. -/
structure PathEnv where
  createRelativePath : String → String
  resolveRelativePath : String → String
  toInteger : String → Int

/-- The character of a decimal digit. -/
def digitChar (d : Nat) : Char := Char.ofNat (48 + d)

/-- The decimal digits of `n`, most significant first; the first argument bounds their
number. -/
def natDigits : Nat → Nat → List Char
  | 0, _ => []
  | fuel + 1, n =>
    if n < 10 then [digitChar n] else natDigits fuel (n / 10) ++ [digitChar (n % 10)]

/-- The function `std::to_string(int)`. -/
def to_string (n : Int) : String :=
  String.mk (if n < 0 then '-' :: natDigits (n.natAbs + 1) n.natAbs
    else natDigits (n.natAbs + 1) n.natAbs)

/-- What the body of the loop of `saveImageCache` (lines 454-472) streams to the file
for one pair of the map. -/
def saveEntry (env : PathEnv) (it : String × CachedFileInfo) : List Char :=
  if it.2.size < 0 then
    []
  else if _isCachablePath it.1 = false then
    []
  else
    (env.createRelativePath it.1).data ++ ['|'] ++ (to_string it.2.size).data ++ ['|'] ++
      (to_string it.2.x).data ++ ['|'] ++ (to_string it.2.y).data ++ ['\n']

/-- The function `ImageIO::saveImageCache()`: the store file after the call. The static
variables are not changed. -/
def saveImageCache (env : PathEnv) (st : State) (file : StoreFile) : StoreFile :=
  if st.sizeCacheDirty = false then
    file
  else if file.writable = false then
    file
  else
    { file with content := some ((st.sizeCache.map (saveEntry env)).flatten) }

/-- The lines that the loop `while (std::getline(f, line))` delivers: `cur` holds the
characters of the line being read. A last line without newline is delivered if it is
not empty. -/
def getlinesFrom (cur : List Char) : List Char → List (List Char)
  | [] => if cur.isEmpty then [] else [cur]
  | c :: cs => if c = '\n' then cur :: getlinesFrom [] cs else getlinesFrom (cur ++ [c]) cs

/-- The lines of a file. -/
def getlines (text : List Char) : List (List Char) := getlinesFrom [] text

/-- The C string `line.c_str()` as `strchr` and `strlen` see it: the characters before
the first NUL. -/
def c_str (line : List Char) : List Char := line.takeWhile (fun c => c != '\x00')

/-- The loop of lines 405-414: the tokens between the '|' characters, an empty token
being dropped; `cur` holds the characters of the token being read. -/
def splitFrom (cur : List Char) : List Char → List (List Char)
  | [] => if cur.isEmpty then [] else [cur]
  | c :: cs =>
    if c = '|' then
      (if cur.isEmpty then splitFrom [] cs else cur :: splitFrom [] cs)
    else
      splitFrom (cur ++ [c]) cs

/-- The vector `splits` of a line. -/
def splits (line : List Char) : List (List Char) := splitFrom [] (c_str line)

/-- The body of the loop of `loadImageCache` (lines 401-426) for one line. -/
def loadLine (env : PathEnv) (cache : SizeCache) (line : List Char) : SizeCache :=
  match splits line with
  | [s0, s1, s2, s3] =>
    cacheSet cache (env.resolveRelativePath (String.mk s0))
      ⟨env.toInteger (String.mk s1), env.toInteger (String.mk s2), env.toInteger (String.mk s3)⟩
  | _ => cache

/-- The function `ImageIO::loadImageCache()`: the static variables after the call. -/
def loadImageCache (env : PathEnv) (st : State) (file : StoreFile) : State :=
  match file.content with
  | none => st
  | some text => { st with sizeCache := (getlines text).foldl (loadLine env) [] }

/-! ## ImageIO::loadFromMemoryRGBA32 and ImageIO::loadFromMemoryRGB24 -/

/-- The class `MaxSizeInfo`: the size `x()`, `y()` and the flag `externalZoom()`. -/
structure MaxSizeInfo where
  x : ℚ
  y : ℚ
  externalZoom : Bool
deriving DecidableEq, Repr

/-- Modelled from the spec: `MaxSizeInfo::empty()`, which is declared outside the sources.
The design document: an empty budget is width = 0 and height = 0. -/
def MaxSizeInfo.empty (m : MaxSizeInfo) : Bool :=
  m.x == 0 && m.y == 0

/-- The libraries that the decoding functions call and that are outside the sources
(stb_image, libyuv, the allocator) and the screen size of the renderer:
* `stbi_info_from_memory data` is `none` when the call does not return 1;
* `stbi_load_from_memory data` is the address of the bitmap with the width and height it
  reports, `none` for `nullptr`;
* `aligned_alloc size` is the address of a new block (an allocation succeeds);
* `ARGBScale` and `ARGBToRGB24` tell whether the call returns non-zero (a failure);
* `getScreenWidth`, `getScreenHeight` are `Renderer::getScreenWidth()`, `getScreenHeight()`. -/
structure Codec where
  stbi_info_from_memory : List Byte → Option (Nat × Nat × Int)
  stbi_load_from_memory : List Byte → Option (Nat × Nat × Nat)
  aligned_alloc : Nat → Nat
  ARGBScale : Nat → Nat → Nat → Nat → Nat → Bool
  ARGBToRGB24 : Nat → Nat → Nat → Bool
  getScreenWidth : Int
  getScreenHeight : Int

/-- What a call of `loadFromMemoryRGBA32` or `loadFromMemoryRGB24` leaves: the pointer
returned (`none` for `nullptr`) and the contents of `width`, `height`, `*baseSize` and
`*packedSize`. The three pointer arguments are never null in the callers. -/
structure Decoded where
  bitmap : Option Nat
  width : Nat
  height : Nat
  baseSize : Vector2i
  packedSize : Vector2i
deriving DecidableEq, Repr

/-- Lines 138-143 and 216-221: the size the decoded image is scaled to. -/
def targetSize (c : Codec) (width height : Nat) (maxSize : MaxSizeInfo) : Vector2i :=
  let sz := adjustPictureSize ⟨width, height⟩ ⟨truncToInt maxSize.x, truncToInt maxSize.y⟩
    maxSize.externalZoom
  if sz.x > c.getScreenWidth ∨ sz.y > c.getScreenHeight then
    adjustPictureSize sz ⟨c.getScreenWidth, c.getScreenHeight⟩ false
  else
    sz

/-- The function `ImageIO::loadFromMemoryRGBA32`. The bitmaps that the function frees
itself are not recorded. -/
def loadFromMemoryRGBA32 (c : Codec) (data : List Byte) (maxSize : MaxSizeInfo) : Decoded :=
  match c.stbi_info_from_memory data with
  | none => ⟨none, 0, 0, ⟨0, 0⟩, ⟨0, 0⟩⟩
  | some _ =>
    match c.stbi_load_from_memory data with
    | none => ⟨none, 0, 0, ⟨0, 0⟩, ⟨0, 0⟩⟩
    | some (stbiBitmap, width, height) =>
      if maxSize.x > 0 ∧ maxSize.y > 0 ∧
          ((width : ℚ) > maxSize.x ∨ (height : ℚ) > maxSize.y) then
        let sz := targetSize c width height maxSize
        if sz.x ≠ (width : Int) ∨ sz.y ≠ (height : Int) then
          let stbiResizedBitmap := c.aligned_alloc (sz.x * sz.y * 4).toNat
          if c.ARGBScale stbiBitmap width height sz.x.toNat sz.y.toNat then
            ⟨none, width, height, ⟨width, height⟩, ⟨0, 0⟩⟩
          else
            ⟨some stbiResizedBitmap, sz.x.toNat, sz.y.toNat, ⟨width, height⟩,
              ⟨(sz.x.toNat : Int), (sz.y.toNat : Int)⟩⟩
        else
          ⟨some stbiBitmap, width, height, ⟨width, height⟩, ⟨0, 0⟩⟩
      else
        ⟨some stbiBitmap, width, height, ⟨width, height⟩, ⟨0, 0⟩⟩

/-- The function `ImageIO::loadFromMemoryRGB24`. The bitmaps that the function frees
itself are not recorded. -/
def loadFromMemoryRGB24 (c : Codec) (data : List Byte) (maxSize : MaxSizeInfo) : Decoded :=
  match c.stbi_info_from_memory data with
  | none => ⟨none, 0, 0, ⟨0, 0⟩, ⟨0, 0⟩⟩
  | some _ =>
    match c.stbi_load_from_memory data with
    | none => ⟨none, 0, 0, ⟨0, 0⟩, ⟨0, 0⟩⟩
    | some (stbiBitmap, width, height) =>
      if maxSize.x > 0 ∧ maxSize.y > 0 ∧
          ((width : ℚ) > maxSize.x ∨ (height : ℚ) > maxSize.y) then
        let sz := targetSize c width height maxSize
        if sz.x ≠ (width : Int) ∨ sz.y ≠ (height : Int) then
          let stbiResizedBitmap := c.aligned_alloc (sz.x * sz.y * 4).toNat
          if c.ARGBScale stbiBitmap width height sz.x.toNat sz.y.toNat then
            ⟨none, width, height, ⟨width, height⟩, ⟨0, 0⟩⟩
          else
            let stbiResizedBitmap24 := c.aligned_alloc (sz.x * sz.y * 3).toNat
            if c.ARGBToRGB24 stbiResizedBitmap sz.x.toNat sz.y.toNat then
              ⟨none, width, height, ⟨width, height⟩, ⟨0, 0⟩⟩
            else
              ⟨some stbiResizedBitmap24, sz.x.toNat, sz.y.toNat, ⟨width, height⟩,
                ⟨(sz.x.toNat : Int), (sz.y.toNat : Int)⟩⟩
        else
          ⟨some stbiBitmap, width, height, ⟨width, height⟩, ⟨0, 0⟩⟩
      else
        let stbiBitmap24 := c.aligned_alloc (width * height * 3)
        if c.ARGBToRGB24 stbiBitmap width height then
          ⟨none, width, height, ⟨width, height⟩, ⟨0, 0⟩⟩
        else
          ⟨some stbiBitmap24, width, height, ⟨width, height⟩, ⟨0, 0⟩⟩

/-- The function `ImageIO::getChannelsFromImageMemory`. -/
def getChannelsFromImageMemory (c : Codec) (data : List Byte) : Int :=
  match c.stbi_info_from_memory data with
  | none => 0
  | some (_, _, imgChannels) => imgChannels

/-- A field that can be written to the store file and read back: not empty, without
'|', newline or NUL. -/
abbrev plainField (s : List Char) : Prop :=
  s ≠ [] ∧ ∀ c ∈ s, c ≠ '|' ∧ c ≠ '\n' ∧ c ≠ '\x00'

/-- The entries that `saveImageCache` writes: byteSize not negative, path cachable. -/
def isSaved (it : String × CachedFileInfo) : Bool :=
  decide (0 ≤ it.2.size) && _isCachablePath it.1

/-- The record `path|byteSize|width|height` of an entry, the path in its relative form. -/
def recordFields (env : PathEnv) (it : String × CachedFileInfo) : List Char :=
  (env.createRelativePath it.1).data ++ ['|'] ++ (to_string it.2.size).data ++ ['|'] ++
    (to_string it.2.x).data ++ ['|'] ++ (to_string it.2.y).data

/-- The record of an entry with its newline. -/
def recordLine (env : PathEnv) (it : String × CachedFileInfo) : List Char :=
  recordFields env it ++ ['\n']

/-- Whether `pat` occurs in `path`: some characters, then `pat`, then some characters. -/
def occursIn (pat path : String) : Prop :=
  ∃ before after : List Char, path.data = before ++ pat.data ++ after

/-! ## The marker walk in the words of the design document -/

/-- The big-endian 16-bit value of two bytes. -/
def be16 (hi lo : Byte) : Nat := hi.val * 256 + lo.val

/-- The big-endian 32-bit value of four bytes. -/
def be32 (b3 b2 b1 b0 : Byte) : Nat :=
  b3.val * 2 ^ 24 + b2.val * 2 ^ 16 + b1.val * 2 ^ 8 + b0.val

/-- The little-endian 16-bit value of two bytes. -/
def le16 (lo hi : Byte) : Nat := lo.val + hi.val * 256

/-- The walk over the marker segments of a file as the design document words it: a
segment starts with FF; from offset `pos`, the walk has reached a Start-Of-Frame segment
if the marker byte of the segment at `pos` is one of C0-C3, C9-CB, and otherwise goes on
at `pos` plus 2 plus the big-endian 16-bit length of the segment. The first argument
bounds the number of segments visited. -/
def walkToSOF (bytes : List Byte) : Nat → Nat → Option Nat
  | 0, _ => none
  | n + 1, pos =>
    if byteAt bytes pos = 0xFF then
      if isSOF (byteAt bytes (pos + 1)) then
        some pos
      else
        walkToSOF bytes n (pos + 2 + be16 (byteAt bytes (pos + 2)) (byteAt bytes (pos + 3)))
    else
      none

/-! ## Test fixtures -/

/-- A file system holding one regular file with the given lower-cased extension. -/
def oneFile (ext : String) (content : List Byte) : FileSystem :=
  { lowerExtension := fun _ => ext
    getFileSize := fun _ => content.length
    fopen := fun _ => some ⟨content, fun _ => true⟩ }

/-- The empty cache, not dirty. -/
def emptyState : State := ⟨[], false⟩

/-- A truncated file of 9 bytes. -/
def nineBytes : List Byte := [0x89, 0x50, 0x4E, 0x47, 0x0D, 0x0A, 0x1A, 0x0A, 0x00]

/-- A JFIF file of 19 bytes whose second segment, at offset 10, is a Start-Of-Frame
segment with height 16 and width 32. -/
def shortJfif : List Byte :=
  [0xFF, 0xD8, 0xFF, 0xE0, 0x00, 0x06, 0x4A, 0x46, 0x49, 0x46,
   0xFF, 0xC0, 0x00, 0x0B, 0x08, 0x00, 0x10, 0x00, 0x20]

/-- A JFIF file of 32 bytes whose second segment, at offset 10, is a Start-Of-Frame
segment with the given height and width bytes. -/
def jfifWith (h1 h0 w1 w0 : Byte) : List Byte :=
  [0xFF, 0xD8, 0xFF, 0xE0, 0x00, 0x06, 0x4A, 0x46, 0x49, 0x46,
   0xFF, 0xC0, 0x00, 0x0B, 0x08, h1, h0, w1, w0,
   0x01, 0x01, 0x11, 0x00, 0xFF, 0xD9, 0, 0, 0, 0, 0, 0, 0]

/-- A PNG header of 24 bytes: width 0x80000001, height 3. -/
def pngHeader : List Byte :=
  [0x89, 0x50, 0x4E, 0x47, 0x0D, 0x0A, 0x1A, 0x0A, 0x00, 0x00, 0x00, 0x0D,
   0x49, 0x48, 0x44, 0x52, 0x80, 0x00, 0x00, 0x01, 0x00, 0x00, 0x00, 0x03]

/-- A GIF header of 24 bytes: width 0x0102, height 0x0304. -/
def gifHeader : List Byte :=
  [0x47, 0x49, 0x46, 0x38, 0x39, 0x61, 0x02, 0x01, 0x04, 0x03,
   0, 0, 0, 0, 0, 0, 0, 0, 0, 0, 0, 0, 0, 0]

/-- A reading of decimal digits after an optional minus sign, used as `toInteger` in the
examples. -/
def readInteger (s : String) : Int :=
  match s.data with
  | '-' :: cs => - (((cs.takeWhile Char.isDigit).foldl (fun v c => v * 10 + (c.toNat - 48)) 0 : Nat) : Int)
  | cs => (((cs.takeWhile Char.isDigit).foldl (fun v c => v * 10 + (c.toNat - 48)) 0 : Nat) : Int)

/-- Paths kept as they are, integers read in decimal. -/
def plainEnv : PathEnv :=
  { createRelativePath := fun p => p
    resolveRelativePath := fun p => p
    toInteger := readInteger }

/-- A cachable path. -/
def savesPath : String := "/userdata/saves/tmp/emulationstation.tmp/a.png"

/-- A dirty cache with a cachable entry, a failed probe under a cachable path and an
entry under a path that is not cachable. -/
def mixedState : State :=
  ⟨[("/userdata/roms/b.png", ⟨7, 3, 4⟩),
    ("/userdata/saves/tmp/emulationstation.tmp/a.png", ⟨120, 64, 48⟩),
    ("/userdata/saves/tmp/emulationstation.tmp/c.png", ⟨-1, -1, -1⟩)], true⟩

/-- A floating-point division that tells whether its divisor is zero: `none` when it is,
otherwise the quotient rounded by `rd`. -/
def divChecked (rd : ℚ → ℚ) (a b : ℚ) : Option ℚ :=
  if b = 0 then none else some (rd (a / b))

/-- The function `ImageIO::getPictureMinSize`, each division of the source checked: the
result is `none` when a division by zero is evaluated. -/
def getPictureMinSizeChecked (imageSize maxSize : Vector2f) : Option Vector2f :=
  if imageSize.x = 0 ∨ imageSize.y = 0 then
    some imageSize
  else
    match divChecked toFloat maxSize.x imageSize.x, divChecked toFloat maxSize.y imageSize.y with
    | some xCoef, some yCoef =>
      if toFloat (imageSize.x * yCoef) < maxSize.x then
        some ⟨maxSize.x, toFloat (imageSize.y * xCoef)⟩
      else
        some ⟨toFloat (imageSize.x * yCoef), maxSize.y⟩
    | _, _ => none

/-- The function `ImageIO::adjustPictureSize`, each division of the source checked: the
result is `none` when a division by zero is evaluated. -/
def adjustPictureSizeChecked (imageSize maxSize : Vector2i) (externSize : Bool) :
    Option Vector2i :=
  if externSize then
    match getPictureMinSizeChecked ⟨toFloat imageSize.x, toFloat imageSize.y⟩
        ⟨toFloat maxSize.x, toFloat maxSize.y⟩ with
    | some szf => some ⟨truncToInt szf.x, truncToInt szf.y⟩
    | none => none
  else
    let cxDIB := imageSize.x
    let cyDIB := imageSize.y
    if cxDIB = 0 ∨ cyDIB = 0 then
      some imageSize
    else
      let iMaxX := maxSize.x
      let iMaxY := maxSize.y
      match divChecked toDouble (iMaxX : ℚ) (cxDIB : ℚ),
          divChecked toDouble (iMaxY : ℚ) (cyDIB : ℚ) with
      | some xCoef, some yCoef =>
        let cyDIB1 := truncToInt (toDouble ((cyDIB : ℚ) * max xCoef yCoef))
        let cxDIB1 := truncToInt (toDouble ((cxDIB : ℚ) * max xCoef yCoef))
        let step1 : Option (Int × Int) :=
          if cxDIB1 > iMaxX then
            match divChecked toDouble (toDouble ((cyDIB1 : ℚ) * (iMaxX : ℚ))) (cxDIB1 : ℚ) with
            | some q => some (iMaxX, truncToInt q)
            | none => none
          else some (cxDIB1, cyDIB1)
        match step1 with
        | some (cxDIB2, cyDIB2) =>
          if cyDIB2 > iMaxY then
            match divChecked toDouble (toDouble ((cxDIB2 : ℚ) * (iMaxY : ℚ))) (cyDIB2 : ℚ) with
            | some q => some ⟨truncToInt q, iMaxY⟩
            | none => none
          else some ⟨cxDIB2, cyDIB2⟩
        | none => none
      | _, _ => none

/-- The positions of the `fseek` calls of a trace, in order. -/
def seekPositions : List FileOp → List Nat
  | [] => []
  | FileOp.fseek pos :: rest => pos :: seekPositions rest
  | FileOp.getExtension _ :: rest => seekPositions rest
  | FileOp.getFileSize _ :: rest => seekPositions rest
  | FileOp.fopen _ :: rest => seekPositions rest
  | FileOp.fread _ :: rest => seekPositions rest
  | FileOp.fclose :: rest => seekPositions rest

/-- A JFIF file cut off after 32 bytes: the APP0 segment at offset 2 and the first 12
bytes of a quantization-table segment (marker DB, length 67) at offset 20. It holds no
Start-Of-Frame segment. -/
def truncatedJfif : List Byte :=
  [0xFF, 0xD8, 0xFF, 0xE0, 0x00, 0x10, 0x4A, 0x46, 0x49, 0x46,
   0x00, 0x01, 0x01, 0x00, 0x00, 0x01, 0x00, 0x01, 0x00, 0x00,
   0xFF, 0xDB, 0x00, 0x43, 0x00, 0x10, 0x0B, 0x0C, 0x0E, 0x0C, 0x0A, 0x10]

end ImageIO

/-! # The texture resource (es-core/src/resources/TextureData.cpp)

Modelling conventions
* a pointer is `none` for `nullptr` or the address of a block; the pointer held in
  `mTextureData` also carries who supplied the block (`Origin`), which is not a field of
  the source and serves to state which blocks are freed;
* an `SDL_Texture*` handle is `none` for 0;
* `size_t` values are natural numbers, `float` values rationals;
* the mutexes are not modelled, each function runs alone; an allocation succeeds;
* the calls to the renderer and to `free` on the pixel buffer are recorded in order
  (`Effect`), the static variables of `ImageIO.cpp` and of the renderer are passed and
  returned explicitly (`World`).
-/

open ImageIO

namespace TextureData

/-- Who supplied the block that `mTextureData` points to: the resource itself (a decoded
or copied image, or a block handed over to `initFromRGBA` / `initFromRGB24`), or the
caller of `updateFromExternalRGBA`, who keeps the block. -/
inductive Origin where
  | own
  | external
deriving DecidableEq, Repr

/-- A non-null pointer to a pixel block. -/
structure Block where
  addr : Nat
  origin : Origin
deriving DecidableEq, Repr

/-- The enum of `mTextureFormat`. -/
inductive Format where
  | RGBA32
  | RGB24
  | RGB565
deriving DecidableEq, Repr

/-- The enum `Renderer::Texture::Type` as `TextureData.cpp` uses it. -/
inductive TextureType where
  | RGBA
  | RGB
deriving DecidableEq, Repr

/-- The calls to the renderer and the calls of `free` on the pixel buffer. -/
inductive Effect where
  | createTexture (type : TextureType) (linear tile : Bool) (width height : Nat)
      (data : Option Nat)
  | destroyTexture (texture : Option Nat)
  | updateTexture (texture : Option Nat) (type : TextureType) (x y width height : Nat)
      (data : Option Nat)
  | bindTexture (texture : Option Nat)
  | free (block : Block)
deriving DecidableEq, Repr

/-- An entry of `zipFile.infolist()`. -/
structure ZipInfo where
  filename : String
  file_size : Nat
deriving DecidableEq, Repr

/-- What is outside `TextureData.cpp` and read by it, taken as parameters:
* `codec`: the libraries of the decoding functions and the screen size;
* `OptimizeVRAM` is `Settings::getInstance()->getBool("OptimizeVRAM")`;
* `getFileData path` is the content that `ResourceManager::getFileData` delivers;
* `getFileSize path` is `Utils::FileSystem::getFileSize(path)` as `int`;
* `createTexture` is the handle that `Renderer::createTexture` returns, `none` for 0; it
  may depend on the calls made before;
* `nsvgParse data` is the width and height of the parsed image, `none` for a null image;
* `round` is `Math::round`;
* `zipLoad path` is the list `zipFile.infolist()`, `none` when `zipFile.load` fails, and
  `zipRead path name` the bytes of an entry;
* `lowerExtension name` is `Utils::String::toLower(Utils::FileSystem::getExtension(name))`,
  `toLower` is `Utils::String::toLower`, `startsWith` is `Utils::String::startsWith`;
* `loadDefault` is the default value of the argument `updateCache` of `load`, and
  `externSizeDefault` that of the argument `externSize` of `ImageIO::adjustPictureSize`. -/
structure Env where
  codec : Codec
  OptimizeVRAM : Bool
  getFileData : String → List Byte
  getFileSize : String → Int
  createTexture : List Effect → TextureType → Bool → Bool → Nat → Nat → Option Nat →
    Option Nat
  nsvgParse : List Byte → Option (ℚ × ℚ)
  round : ℚ → ℚ
  zipLoad : String → Option (List ZipInfo)
  zipRead : String → String → List Byte
  lowerExtension : String → String
  toLower : String → String
  startsWith : String → String → Bool
  loadDefault : Bool
  externSizeDefault : Bool

/-- The state outside the resource: the texture bound in the renderer (the static
`boundTexture`), the static variables of `ImageIO.cpp`, and the calls made so far. -/
structure World where
  boundTexture : Option Nat
  cache : State
  effects : List Effect
deriving DecidableEq, Repr

end TextureData

/-- The class `TextureData`. -/
structure TextureData where
  mTile : Bool
  mLinear : Bool
  mTextureID : Option Nat
  mTextureData : Option TextureData.Block
  mTextureFormat : TextureData.Format
  mScalable : Bool
  mWidth : Nat
  mHeight : Nat
  mSourceWidth : ℚ
  mSourceHeight : ℚ
  mPackedSize : Vector2i
  mBaseSize : Vector2i
  mIsExternalDataRGBA : Bool
  mRequired : Bool
  mPath : String
  mReloadable : Bool
  mMaxSize : MaxSizeInfo
deriving DecidableEq, Repr

namespace TextureData

/-- The constructor `TextureData(bool tile, bool linear)`; `mReloadable`, which it leaves
unset, is taken as false. -/
def new (tile linear : Bool) : TextureData :=
  { mTile := tile, mLinear := linear, mTextureID := none, mTextureData := none,
    mTextureFormat := Format.RGBA32, mScalable := false, mWidth := 0, mHeight := 0,
    mSourceWidth := 0, mSourceHeight := 0, mPackedSize := ⟨0, 0⟩, mBaseSize := ⟨0, 0⟩,
    mIsExternalDataRGBA := false, mRequired := false, mPath := "", mReloadable := false,
    mMaxSize := ⟨0, 0, false⟩ }

/-- The conversion of a `float` to `size_t`. -/
def toSizeT (q : ℚ) : Nat := (truncToInt q).toNat

/-- The function `Renderer::bindTexture`. -/
def bindTexture (w : World) (texture : Option Nat) : World :=
  { w with boundTexture := texture, effects := w.effects ++ [Effect.bindTexture texture] }

/-- The function `TextureData::initFromPath`. -/
def initFromPath (t : TextureData) (path : String) : TextureData :=
  { t with mPath := path, mReloadable := true }

/-- The function `TextureData::initFromRGBA`. -/
def initFromRGBA (env : Env) (t : TextureData) (dataRGBA : Option Nat) (width height : Nat)
    (copyData : Bool) : Bool × TextureData :=
  let t1 := if t.mIsExternalDataRGBA then
      { t with mIsExternalDataRGBA := false, mTextureData := none }
    else t
  if t1.mTextureData.isSome then
    (true, t1)
  else
    let data : Option Block :=
      if copyData then some ⟨env.codec.aligned_alloc (width * height * 4), Origin.own⟩
      else dataRGBA.map (fun a => ⟨a, Origin.own⟩)
    (true, { t1 with mTextureData := data, mTextureFormat := Format.RGBA32,
                     mWidth := width, mHeight := height })

/-- The function `TextureData::initFromRGB24`. -/
def initFromRGB24 (env : Env) (t : TextureData) (dataRGB : Option Nat) (width height : Nat)
    (copyData : Bool) : Bool × TextureData :=
  let t1 := if t.mIsExternalDataRGBA then
      { t with mIsExternalDataRGBA := false, mTextureData := none }
    else t
  if t1.mTextureData.isSome then
    (true, t1)
  else
    let data : Option Block :=
      if copyData then some ⟨env.codec.aligned_alloc (width * height * 3), Origin.own⟩
      else dataRGB.map (fun a => ⟨a, Origin.own⟩)
    (true, { t1 with mTextureData := data, mTextureFormat := Format.RGB24,
                     mWidth := width, mHeight := height })

/-- The switch of lines 308-323: the texture type of an update; the case `RGB24` falls
through to the `break` of `RGB565`. -/
def updateType : Format → TextureType
  | Format.RGBA32 => TextureType.RGBA
  | Format.RGB24 => TextureType.RGB
  | Format.RGB565 => TextureType.RGBA

/-- Lines 443-447: the texture type of an upload. -/
def uploadType : Format → TextureType
  | Format.RGBA32 => TextureType.RGBA
  | Format.RGB24 => TextureType.RGB
  | Format.RGB565 => TextureType.RGB

/-- The function `TextureData::updateFromExternalRGBA`. -/
def updateFromExternalRGBA (t : TextureData) (w : World) (dataRGBA : Option Nat)
    (width height : Nat) : Bool × TextureData × World :=
  let w1 := match t.mTextureData with
    | some block =>
      if t.mIsExternalDataRGBA = false then { w with effects := w.effects ++ [Effect.free block] }
      else w
    | none => w
  let t1 := { t with mIsExternalDataRGBA := true,
                     mTextureData := dataRGBA.map (fun a => ⟨a, Origin.external⟩),
                     mWidth := width, mHeight := height }
  let type := updateType t1.mTextureFormat
  if t1.mTextureID.isSome ∧ t1.mWidth ≠ 0 ∧ t1.mHeight ≠ 0 ∧ t1.mTextureData.isSome then
    (true, t1, { w1 with effects := w1.effects ++
      [Effect.updateTexture t1.mTextureID type 0 0 t1.mWidth t1.mHeight dataRGBA] })
  else
    (true, t1, w1)

/-- The function `TextureData::uploadAndBind`. -/
def uploadAndBind (env : Env) (t : TextureData) (w : World) : Bool × TextureData × World :=
  if t.mTextureID.isSome then
    (true, t, bindTexture w t.mTextureID)
  else
    match t.mTextureData with
    | none => (false, t, bindTexture w t.mTextureID)
    | some block =>
      if t.mWidth = 0 ∨ t.mHeight = 0 then
        (false, t, bindTexture w t.mTextureID)
      else
        let format := uploadType t.mTextureFormat
        let texture := env.createTexture w.effects format t.mLinear t.mTile t.mWidth t.mHeight
          (some block.addr)
        let w1 := { w with effects := w.effects ++
          [Effect.createTexture format t.mLinear t.mTile t.mWidth t.mHeight (some block.addr)] }
        match texture with
        | none => (false, { t with mTextureID := none }, w1)
        | some id =>
          let w2 := if t.mIsExternalDataRGBA = false then
              { w1 with effects := w1.effects ++ [Effect.free block] }
            else w1
          (true, { t with mTextureID := some id, mTextureData := none }, w2)

/-- The function `TextureData::releaseVRAM`. -/
def releaseVRAM (t : TextureData) (w : World) : TextureData × World :=
  if t.mTextureID.isSome then
    ({ t with mTextureID := none },
      { w with effects := w.effects ++ [Effect.destroyTexture t.mTextureID] })
  else
    (t, w)

/-- The function `TextureData::releaseRAM`. -/
def releaseRAM (t : TextureData) (w : World) : TextureData × World :=
  match t.mTextureData with
  | some block =>
    if t.mIsExternalDataRGBA = false then
      ({ t with mTextureData := none }, { w with effects := w.effects ++ [Effect.free block] })
    else
      ({ t with mTextureData := none }, w)
  | none => ({ t with mTextureData := none }, w)

/-- Lines 72-88 of `initSVGFromMemory`: the source size for a parsed image of width
`svgWidth` and height `svgHeight`. -/
def svgSourceSize (env : Env) (t : TextureData) (svgWidth svgHeight : ℚ) : TextureData :=
  if t.mSourceWidth = 0 ∧ t.mSourceHeight = 0 then
    if t.mMaxSize.empty = false ∧ svgWidth < t.mMaxSize.x ∧ svgHeight < t.mMaxSize.y then
      let sz := adjustPictureSize ⟨truncToInt svgWidth, truncToInt svgHeight⟩
        ⟨truncToInt t.mMaxSize.x, truncToInt t.mMaxSize.y⟩ env.externSizeDefault
      { t with mSourceWidth := sz.x, mSourceHeight := sz.y }
    else
      { t with mSourceWidth := svgWidth, mSourceHeight := svgHeight }
  else
    { t with mSourceWidth := (t.mSourceHeight * svgWidth) / svgHeight }

/-- Lines 91-105 of `initSVGFromMemory`: the width, the height and the base size. -/
def svgBaseSize (env : Env) (t : TextureData) (svgWidth svgHeight : ℚ) : TextureData :=
  let mWidth0 := toSizeT (env.round t.mSourceWidth)
  let mHeight0 := toSizeT (env.round t.mSourceHeight)
  let mWidth1 :=
    if mWidth0 = 0 then toSizeT (env.round (((mHeight0 : ℚ) / svgHeight) * svgWidth))
    else mWidth0
  let mHeight1 :=
    if mWidth0 = 0 then mHeight0
    else if mHeight0 = 0 then toSizeT (env.round (((mWidth0 : ℚ) / svgWidth) * svgHeight))
    else mHeight0
  { t with mWidth := mWidth1, mHeight := mHeight1, mBaseSize := ⟨mWidth1, mHeight1⟩ }

/-- Lines 109-114 of `initSVGFromMemory`: an image below the budget is enlarged. -/
def svgEnlarge (env : Env) (t : TextureData) (svgWidth svgHeight : ℚ) : TextureData :=
  if (t.mHeight : ℚ) < t.mMaxSize.y ∧ (t.mWidth : ℚ) < t.mMaxSize.x then
    let sz := adjustPictureSize ⟨t.mWidth, t.mHeight⟩
      ⟨truncToInt t.mMaxSize.x, truncToInt t.mMaxSize.y⟩ t.mMaxSize.externalZoom
    { t with mHeight := sz.y.toNat,
             mWidth := toSizeT (env.round (((sz.y.toNat : ℚ) * svgWidth) / svgHeight)) }
  else t

/-- Lines 116-125 of `initSVGFromMemory`: an image above the budget is reduced and its
packed size recorded. -/
def svgReduce (env : Env) (t : TextureData) (svgWidth svgHeight : ℚ) : TextureData :=
  if t.mMaxSize.empty = false ∧
      ((t.mWidth : ℚ) > t.mMaxSize.x ∨ (t.mHeight : ℚ) > t.mMaxSize.y) then
    let sz := adjustPictureSize ⟨t.mWidth, t.mHeight⟩
      ⟨truncToInt t.mMaxSize.x, truncToInt t.mMaxSize.y⟩ t.mMaxSize.externalZoom
    let mHeight4 := sz.y.toNat
    let mWidth4 := toSizeT (env.round (((mHeight4 : ℚ) * svgWidth) / svgHeight))
    { t with mHeight := mHeight4, mWidth := mWidth4, mPackedSize := ⟨mWidth4, mHeight4⟩ }
  else
    { t with mPackedSize := ⟨0, 0⟩ }

/-- Lines 72-128 of `initSVGFromMemory`: the sizes of the resource for a parsed image of
width `svgWidth` and height `svgHeight`. -/
def svgGeometry (env : Env) (t : TextureData) (svgWidth svgHeight : ℚ) : TextureData :=
  let t2 := svgBaseSize env (svgSourceSize env t svgWidth svgHeight) svgWidth svgHeight
  if env.OptimizeVRAM = true ∧ t2.mMaxSize.empty = false then
    svgReduce env (svgEnlarge env t2 svgWidth svgHeight) svgWidth svgHeight
  else
    { t2 with mPackedSize := ⟨0, 0⟩ }

/-- The function `TextureData::initSVGFromMemory`. -/
def initSVGFromMemory (env : Env) (t : TextureData) (fileData : List Byte) :
    Bool × TextureData :=
  if t.mTextureData.isSome ∨ t.mTextureID.isSome then
    (true, t)
  else
    match env.nsvgParse fileData with
    | none => (false, t)
    | some (svgWidth, svgHeight) =>
      if svgWidth = 0 ∨ svgHeight = 0 then
        (false, t)
      else
        let t1 := svgGeometry env t svgWidth svgHeight
        if t1.mWidth * t1.mHeight = 0 then
          (false, t1)
        else
          let dataRGBA := env.codec.aligned_alloc (t1.mWidth * t1.mHeight * 4)
          (true, { t1 with mTextureData := some ⟨dataRGBA, Origin.own⟩,
                           mTextureFormat := Format.RGBA32 })

/-- Lines 170-172 and 216-218: the budget handed to the decoding function. -/
def decodeBudget (env : Env) (t : TextureData) : MaxSizeInfo :=
  if t.mMaxSize.empty = false then t.mMaxSize
  else ⟨env.codec.getScreenWidth, env.codec.getScreenHeight, false⟩

/-- The function `TextureData::initJPGFromMemory`. -/
def initJPGFromMemory (env : Env) (t : TextureData) (fileData : List Byte) :
    Bool × TextureData :=
  if t.mTextureData.isSome ∨ t.mTextureID.isSome then
    (true, t)
  else
    let d := loadFromMemoryRGB24 env.codec fileData (decodeBudget env t)
    let t1 := { t with mBaseSize := d.baseSize, mPackedSize := d.packedSize }
    match d.bitmap with
    | none => (false, t1)
    | some imageRGB =>
      initFromRGB24 env
        { t1 with mSourceWidth := d.width, mSourceHeight := d.height, mScalable := false }
        (some imageRGB) d.width d.height false

/-- The function `TextureData::initImageFromMemory`. -/
def initImageFromMemory (env : Env) (t : TextureData) (fileData : List Byte) :
    Bool × TextureData :=
  if t.mTextureData.isSome ∨ t.mTextureID.isSome then
    (true, t)
  else if getChannelsFromImageMemory env.codec fileData = 3 then
    let d := loadFromMemoryRGB24 env.codec fileData (decodeBudget env t)
    let t1 := { t with mBaseSize := d.baseSize, mPackedSize := d.packedSize }
    match d.bitmap with
    | none => (false, t1)
    | some imageRGB =>
      initFromRGB24 env
        { t1 with mSourceWidth := d.width, mSourceHeight := d.height, mScalable := false }
        (some imageRGB) d.width d.height false
  else
    let d := loadFromMemoryRGBA32 env.codec fileData (decodeBudget env t)
    let t1 := { t with mBaseSize := d.baseSize, mPackedSize := d.packedSize }
    match d.bitmap with
    | none => (false, t1)
    | some imageRGBA =>
      initFromRGBA env
        { t1 with mSourceWidth := d.width, mSourceHeight := d.height, mScalable := false }
        (some imageRGBA) d.width d.height false

/-- The insertion of an entry at its place by lower-cased name. -/
def insertFile (env : Env) (file : ZipInfo) : List ZipInfo → List ZipInfo
  | [] => [file]
  | g :: rest =>
    if env.toLower file.filename < env.toLower g.filename then file :: g :: rest
    else g :: insertFile env file rest

/-- The call of `std::sort` of line 355: the entries in the order of their lower-cased
names; entries of equal lower-cased name, whose order `std::sort` leaves open, keep the
order of the archive. -/
def sortFiles (env : Env) (files : List ZipInfo) : List ZipInfo :=
  files.foldr (insertFile env) []

/-- Lines 343-353 of `loadFromCbz`: the entries that are kept. -/
def eligibleFiles (env : Env) (infolist : List ZipInfo) : List ZipInfo :=
  infolist.filter (fun file =>
    env.lowerExtension file.filename == ".jpg" && !env.startsWith file.filename "__")

/-- The function `TextureData::loadFromCbz`. -/
def loadFromCbz (env : Env) (t : TextureData) (w : World) : Bool × TextureData × World :=
  let files := match env.zipLoad t.mPath with
    | some infolist => sortFiles env (eligibleFiles env infolist)
    | none => []
  match files with
  | file :: _ =>
    if file.file_size > 0 then
      let buffer := env.zipRead t.mPath file.filename
      let r := initImageFromMemory env t buffer
      if r.1 then
        (r.1, r.2, { w with cache := updateImageCache w.cache t.mPath (env.getFileSize t.mPath)
                                        r.2.mBaseSize.x r.2.mBaseSize.y })
      else
        (r.1, r.2, w)
    else
      (false, t, w)
  | [] => (false, t, w)

/-- How a call ends: it returns a value, or `mPath.substr(mPath.size() - 4, ...)` throws
`std::out_of_range` because the path has fewer than four characters. -/
inductive Outcome where
  | returned (value : Bool)
  | threw
deriving DecidableEq, Repr

/-- The function `TextureData::load`. -/
def load (env : Env) (t : TextureData) (w : World) (updateCache : Bool) :
    Outcome × TextureData × World :=
  if t.mPath.data.isEmpty then
    (Outcome.returned false, t, w)
  else if t.mPath.data.length < 4 then
    (Outcome.threw, t, w)
  else
    let suffix := String.mk (t.mPath.data.drop (t.mPath.data.length - 4))
    if suffix = ".cbz" then
      let r := loadFromCbz env t w
      (Outcome.returned r.1, r.2.1, r.2.2)
    else
      let data := env.getFileData t.mPath
      let r :=
        if suffix = ".svg" then initSVGFromMemory env { t with mScalable := true } data
        else if suffix = ".jpg" then initJPGFromMemory env t data
        else initImageFromMemory env t data
      if updateCache = true ∧ r.1 = true then
        (Outcome.returned r.1, r.2,
          { w with cache := updateImageCache w.cache r.2.mPath data.length
                              r.2.mBaseSize.x r.2.mBaseSize.y })
      else
        (Outcome.returned r.1, r.2, w)

/-- The function `TextureData::setSourceSize`; the first component tells whether the call
of `load` threw. -/
def setSourceSize (env : Env) (t : TextureData) (w : World) (width height : ℚ) :
    Bool × TextureData × World :=
  if t.mScalable then
    if truncToInt t.mSourceHeight < truncToInt height ∧
        truncToInt t.mSourceWidth ≠ truncToInt width then
      let t1 := { t with mSourceWidth := width, mSourceHeight := height }
      let r2 := releaseVRAM t1 w
      let r3 := releaseRAM r2.1 r2.2
      let r4 := load env r3.1 r3.2 env.loadDefault
      (decide (r4.1 = Outcome.threw), r4.2.1, r4.2.2)
    else
      (false, t, w)
  else
    (false, t, w)

/-- The destructor `TextureData::~TextureData`. -/
def destructor (t : TextureData) (w : World) : TextureData × World :=
  let r := releaseVRAM t w
  releaseRAM r.1 r.2

/-- The function `TextureData::width`; the first component is `none` when the call of
`load` threw. -/
def width (env : Env) (t : TextureData) (w : World) : Option Nat × TextureData × World :=
  if t.mWidth = 0 then
    let r := load env t w env.loadDefault
    (if r.1 = Outcome.threw then none else some r.2.1.mWidth, r.2.1, r.2.2)
  else
    (some t.mWidth, t, w)

/-- The function `TextureData::height`; the first component is `none` when the call of
`load` threw. -/
def height (env : Env) (t : TextureData) (w : World) : Option Nat × TextureData × World :=
  if t.mHeight = 0 then
    let r := load env t w env.loadDefault
    (if r.1 = Outcome.threw then none else some r.2.1.mHeight, r.2.1, r.2.2)
  else
    (some t.mHeight, t, w)

/-- The function `TextureData::sourceWidth`; the first component is `none` when the call
of `load` threw. -/
def sourceWidth (env : Env) (t : TextureData) (w : World) : Option ℚ × TextureData × World :=
  if t.mSourceWidth = 0 then
    let r := load env t w env.loadDefault
    (if r.1 = Outcome.threw then none else some r.2.1.mSourceWidth, r.2.1, r.2.2)
  else
    (some t.mSourceWidth, t, w)

/-- The function `TextureData::sourceHeight`; the first component is `none` when the call
of `load` threw. -/
def sourceHeight (env : Env) (t : TextureData) (w : World) :
    Option ℚ × TextureData × World :=
  if t.mSourceHeight = 0 then
    let r := load env t w env.loadDefault
    (if r.1 = Outcome.threw then none else some r.2.1.mSourceHeight, r.2.1, r.2.2)
  else
    (some t.mSourceHeight, t, w)

/-- The function `TextureData::setTemporarySize`. -/
def setTemporarySize (t : TextureData) (width height : ℚ) : TextureData :=
  { t with mWidth := toSizeT width, mHeight := toSizeT height,
           mSourceWidth := width, mSourceHeight := height }

/-- Lines 550 and 551 of `setMaxSize`: the source size fitted to a budget by
`ImageIO::adjustPictureSize`, in the mode (`externalZoom`) of the stored budget. The
comparison that follows depends on the last pixel of the two results, so the
floating-point operations are the rounded ones. -/
def fittedTo (t : TextureData) (budget : MaxSizeInfo) : Vector2i :=
  adjustPictureSizeRounded ⟨truncToInt t.mSourceWidth, truncToInt t.mSourceHeight⟩
    ⟨truncToInt budget.x, truncToInt budget.y⟩ t.mMaxSize.externalZoom

/-- The function `TextureData::setMaxSize`. -/
def setMaxSize (env : Env) (t : TextureData) (maxSize : MaxSizeInfo) : TextureData :=
  if env.OptimizeVRAM = false then
    t
  else if t.mSourceWidth = 0 ∨ t.mSourceHeight = 0 then
    { t with mMaxSize := maxSize }
  else
    let value := fittedTo t t.mMaxSize
    let newVal := fittedTo t maxSize
    if newVal.x > value.x ∨ newVal.y > value.y then { t with mMaxSize := maxSize }
    else t

/-- The public operations of a texture resource that write to it, the destructor among
them. -/
inductive Op where
  | initFromPath (path : String)
  | load (updateCache : Bool)
  | initFromRGBA (dataRGBA : Option Nat) (width height : Nat) (copyData : Bool)
  | initFromRGB24 (dataRGB : Option Nat) (width height : Nat) (copyData : Bool)
  | updateFromExternalRGBA (dataRGBA : Option Nat) (width height : Nat)
  | uploadAndBind
  | releaseRAM
  | releaseVRAM
  | setSourceSize (width height : ℚ)
  | width
  | height
  | sourceWidth
  | sourceHeight
  | setTemporarySize (width height : ℚ)
  | setMaxSize (maxSize : MaxSizeInfo)
  | destructor

/-- One public operation on a resource. An exception that leaves `load` leaves the
resource as it is at that point. -/
def step (env : Env) (s : TextureData × World) : Op → TextureData × World
  | Op.initFromPath path => (initFromPath s.1 path, s.2)
  | Op.load updateCache => (load env s.1 s.2 updateCache).2
  | Op.initFromRGBA dataRGBA width height copyData =>
    ((initFromRGBA env s.1 dataRGBA width height copyData).2, s.2)
  | Op.initFromRGB24 dataRGB width height copyData =>
    ((initFromRGB24 env s.1 dataRGB width height copyData).2, s.2)
  | Op.updateFromExternalRGBA dataRGBA width height =>
    (updateFromExternalRGBA s.1 s.2 dataRGBA width height).2
  | Op.uploadAndBind => (uploadAndBind env s.1 s.2).2
  | Op.releaseRAM => releaseRAM s.1 s.2
  | Op.releaseVRAM => releaseVRAM s.1 s.2
  | Op.setSourceSize width height => (setSourceSize env s.1 s.2 width height).2
  | Op.width => (TextureData.width env s.1 s.2).2
  | Op.height => (TextureData.height env s.1 s.2).2
  | Op.sourceWidth => (TextureData.sourceWidth env s.1 s.2).2
  | Op.sourceHeight => (TextureData.sourceHeight env s.1 s.2).2
  | Op.setTemporarySize width height => (TextureData.setTemporarySize s.1 width height, s.2)
  | Op.setMaxSize maxSize => (TextureData.setMaxSize env s.1 maxSize, s.2)
  | Op.destructor => TextureData.destructor s.1 s.2

/-- A sequence of public operations on a resource. -/
def run (env : Env) (s : TextureData × World) (ops : List Op) : TextureData × World :=
  ops.foldl (step env) s

/-- The operations that hand a pixel buffer to the resource directly. -/
def Op.handsBuffer : Op → Bool
  | Op.initFromRGBA _ _ _ _ => true
  | Op.initFromRGB24 _ _ _ _ => true
  | Op.updateFromExternalRGBA _ _ _ => true
  | _ => false

/-- Every operation of the sequence that hands a pixel buffer to the resource is called
while the resource holds no GPU handle. -/
def withoutHandle (env : Env) : TextureData × World → List Op → Bool
  | _, [] => true
  | s, op :: rest =>
    (!op.handsBuffer || s.1.mTextureID.isNone) && withoutHandle env (step env s op) rest

/-- At most one pixel-storage form is live: not both a RAM buffer and a GPU handle. -/
def oneForm (t : TextureData) : Prop :=
  ¬ (t.mTextureData.isSome = true ∧ t.mTextureID.isSome = true)

/-- The flag `mIsExternalDataRGBA` is set whenever the RAM buffer was supplied through
`updateFromExternalRGBA`. -/
def flagSound (t : TextureData) : Prop :=
  ∀ b, t.mTextureData = some b → b.origin = Origin.external → t.mIsExternalDataRGBA = true

/-! ## Test fixtures -/

/-- An environment without files and decoders in which `createTexture` returns the given
handle. -/
def plainWorld (handle : Option Nat) : Env :=
  { codec := ⟨fun _ => none, fun _ => none, fun n => n + 1, fun _ _ _ _ _ => false,
      fun _ _ _ => false, 1280, 720⟩
    OptimizeVRAM := false
    getFileData := fun _ => []
    getFileSize := fun _ => 0
    createTexture := fun _ _ _ _ _ _ _ => handle
    nsvgParse := fun _ => none
    round := fun q => q
    zipLoad := fun _ => none
    zipRead := fun _ _ => []
    lowerExtension := fun name => name
    toLower := fun name => name
    startsWith := fun _ _ => false
    loadDefault := false
    externSizeDefault := false }

/-- A world in which nothing is bound and nothing was called. -/
def quietWorld : World := ⟨none, emptyState, []⟩

/-- A resource holding a 2x2 RGBA buffer of its own at address 1. -/
def decoded : TextureData :=
  { new false false with mTextureData := some ⟨1, Origin.own⟩, mWidth := 2, mHeight := 2 }

/-- A scalable resource of source size 100x100 that holds a 100x100 RAM buffer of its own
and has no path. -/
def scalable : TextureData :=
  { new false false with mScalable := true, mSourceWidth := 100, mSourceHeight := 100,
                         mWidth := 100, mHeight := 100,
                         mTextureData := some ⟨1, Origin.own⟩ }

/-- The lower-cased form of an ASCII name. -/
def lowerName (s : String) : String := String.mk (s.data.map Char.toLower)

/-- An environment whose archive holds the entries page002.jpg, page001.jpg and
__meta.jpg, of 5, 4 and 3 bytes; the bytes of an entry are the characters of its name,
and the decoder reads any buffer as a 2x2 image that it stores at the address given by
the length of the buffer. -/
def comicWorld : Env :=
  { plainWorld none with
    codec := ⟨fun _ => some (2, 2, 4), fun d => some (d.length, 2, 2), fun n => n + 1,
      fun _ _ _ _ _ => false, fun _ _ _ => false, 1280, 720⟩
    zipLoad := fun _ => some [⟨"page002.jpg", 5⟩, ⟨"page001.jpg", 4⟩, ⟨"__meta.jpg", 3⟩]
    zipRead := fun _ name => name.data.map ch
    lowerExtension := fun name => lowerName (String.mk (name.data.drop (name.data.length - 4)))
    toLower := lowerName
    startsWith := fun s p => p.data.isPrefixOf s.data }

/-- An environment without files and decoders in which `OptimizeVRAM` is set. -/
def optimizing : Env := { plainWorld none with OptimizeVRAM := true }

/-- A resource of source size 128x256 whose budget is 128x512 in fit mode. -/
def portrait : TextureData :=
  { new false false with mSourceWidth := 128, mSourceHeight := 256,
                         mMaxSize := ⟨128, 512, false⟩ }

end TextureData

namespace ImageIO

/-! # Properties -/

/-! ## Truncation and the integer form of the fit computation -/

theorem truncToInt_of_nonneg {q : ℚ} (hq : 0 ≤ q) : truncToInt q = ⌊q⌋ := by
  simp [truncToInt, hq]

theorem truncToInt_div (a b : Int) (ha : 0 ≤ a) (hb : 0 < b) :
    truncToInt ((a : ℚ) / (b : ℚ)) = a / b := by
  have hq : (0 : ℚ) ≤ (a : ℚ) / (b : ℚ) := by positivity
  rw [truncToInt_of_nonneg hq]
  obtain ⟨n, rfl⟩ := Int.eq_ofNat_of_zero_le hb.le
  exact_mod_cast Rat.floor_intCast_div_natCast a n

theorem adjustPictureSize_eq_fitInt (w h bw bh : Int) (hw : 0 < w) (hh : 0 < h)
    (hbw : 0 < bw) (hbh : 0 < bh) :
    adjustPictureSize ⟨w, h⟩ ⟨bw, bh⟩ false = fitInt w h bw bh := by
  have hwq : (0 : ℚ) < w := by exact_mod_cast hw
  have hhq : (0 : ℚ) < h := by exact_mod_cast hh
  have hbwq : (0 : ℚ) < bw := by exact_mod_cast hbw
  have hbhq : (0 : ℚ) < bh := by exact_mod_cast hbh
  have hcmp : ((bh : ℚ) / h ≤ (bw : ℚ) / w) ↔ bh * w ≤ bw * h := by
    rw [div_le_div_iff₀ hhq hwq]
    exact_mod_cast Iff.rfl
  simp only [adjustPictureSize, fitInt, Bool.false_eq_true, if_false, hw.ne', hh.ne', or_self]
  by_cases hc : bh * w ≤ bw * h
  · have hmax : max ((bw : ℚ) / w) ((bh : ℚ) / h) = (bw : ℚ) / w := max_eq_left (hcmp.mpr hc)
    have e1 : (w : ℚ) * ((bw : ℚ) / w) = ((bw : Int) : ℚ) / ((1 : Int) : ℚ) := by
      field_simp
    have e2 : (h : ℚ) * ((bw : ℚ) / w) = (((h * bw : Int)) : ℚ) / ((w : Int) : ℚ) := by
      push_cast; field_simp
    simp only [hmax, if_pos hc]
    rw [e1, e2, truncToInt_div _ _ hbw.le one_pos, truncToInt_div _ _ (by positivity) hw]
    simp only [Int.ediv_one, gt_iff_lt, lt_irrefl, if_false]
    have hge : bh ≤ h * bw / w := by
      rw [Int.le_ediv_iff_mul_le hw]; linarith
    by_cases h2 : bh < h * bw / w
    · simp only [if_pos h2]
      have e3 : ((bw : ℚ) * (bh : ℚ) / ((h * bw / w : Int) : ℚ)) = (((bw * bh : Int)) : ℚ) / ((h * bw / w : Int) : ℚ) := by
        push_cast; rfl
      rw [e3, truncToInt_div _ _ (by positivity) (by omega)]
    · simp only [if_neg h2]
  · have hlt : (bw : ℚ) / w < (bh : ℚ) / h := lt_of_not_le (fun hle => hc (hcmp.mp hle))
    have hmax : max ((bw : ℚ) / w) ((bh : ℚ) / h) = (bh : ℚ) / h := max_eq_right hlt.le
    have e1 : (h : ℚ) * ((bh : ℚ) / h) = ((bh : Int) : ℚ) / ((1 : Int) : ℚ) := by
      field_simp
    have e2 : (w : ℚ) * ((bh : ℚ) / h) = (((w * bh : Int)) : ℚ) / ((h : Int) : ℚ) := by
      push_cast; field_simp
    simp only [hmax, if_neg hc]
    rw [e1, e2, truncToInt_div _ _ hbh.le one_pos, truncToInt_div _ _ (by positivity) hh]
    simp only [Int.ediv_one, gt_iff_lt]
    have hge : bw ≤ w * bh / h := by
      rw [Int.le_ediv_iff_mul_le hh]; linarith
    by_cases h2 : bw < w * bh / h
    · simp only [if_pos h2]
      have e3 : ((bh : ℚ) * (bw : ℚ) / ((w * bh / h : Int) : ℚ)) = (((bh * bw : Int)) : ℚ) / ((w * bh / h : Int) : ℚ) := by
        push_cast; rfl
      rw [e3, truncToInt_div _ _ (by positivity) (by omega)]
      have hle : bh * bw / (w * bh / h) ≤ bh := by
        apply Int.ediv_le_of_le_mul (by omega)
        nlinarith
      simp only [not_lt.mpr hle, if_false]
    · simp only [if_neg h2, lt_irrefl, if_false]

theorem ediv_bounds (a b : Int) (hb : 0 < b) : b * (a / b) ≤ a ∧ a < b * (a / b) + b := by
  have h1 := Int.ediv_add_emod a b
  have h2 := Int.emod_nonneg a hb.ne'
  have h3 := Int.emod_lt_of_pos a hb
  constructor <;> linarith

theorem fitInt_facts (w h bw bh : Int) (hw : 0 < w) (hh : 0 < h)
    (hbw : 0 < bw) (hbh : 0 < bh) :
    (0 ≤ (fitInt w h bw bh).x ∧ (fitInt w h bw bh).x ≤ bw) ∧
    (0 ≤ (fitInt w h bw bh).y ∧ (fitInt w h bw bh).y ≤ bh) ∧
    ((bw < w ∨ bh < h) → (fitInt w h bw bh).x ≤ w ∧ (fitInt w h bw bh).y ≤ h) ∧
    |(fitInt w h bw bh).x * h - (fitInt w h bw bh).y * w| < max w h := by
  unfold fitInt
  by_cases hc : bh * w ≤ bw * h
  · simp only [if_pos hc]
    obtain ⟨b1, b2⟩ := ediv_bounds (h * bw) w hw
    have hge : bh ≤ h * bw / w := by
      rw [Int.le_ediv_iff_mul_le hw]; linarith
    by_cases h2 : bh < h * bw / w
    · simp only [gt_iff_lt, if_pos h2]
      generalize hcy : h * bw / w = cy at *
      have hcy0 : 0 < cy := by omega
      obtain ⟨c1, c2⟩ := ediv_bounds (bw * bh) cy hcy0
      generalize hx : bw * bh / cy = x at *
      have hx0 : 0 ≤ x := by
        by_contra hneg
        push_neg at hneg
        nlinarith
      have hxb : x ≤ bw := by
        by_contra hneg
        push_neg at hneg
        nlinarith
      refine ⟨⟨hx0, hxb⟩, ⟨hbh.le, le_refl _⟩, ?_, ?_⟩
      · intro hor
        have hbhh : bh ≤ h := by
          rcases hor with hor | hor
          · by_contra hneg
            push_neg at hneg
            nlinarith
          · exact hor.le
        refine ⟨?_, hbhh⟩
        by_cases hbww : bw ≤ w
        · exact hxb.trans hbww
        · push_neg at hbww
          have hbh1 : bh < h := by
            rcases hor with hor | hor
            · omega
            · exact hor
          by_contra hneg
          push_neg at hneg
          have k1 : cy * (w + 1) ≤ cy * x := by
            apply mul_le_mul_of_nonneg_left _ hcy0.le
            omega
          have k2 : bw * bh ≤ bw * (h - 1) := by
            apply mul_le_mul_of_nonneg_left _ hbw.le
            omega
          nlinarith
      · have d1 : x * h - bh * w < w := by
          have k1 : cy * x * h ≤ bw * bh * h := mul_le_mul_of_nonneg_right c1 hh.le
          have k2 : bh * (h * bw) < bh * (w * cy + w) := mul_lt_mul_of_pos_left b2 hbh
          have k3 : bh * w < cy * w := mul_lt_mul_of_pos_right h2 hw
          have k4 : (x * h) * cy < (bh * w + w) * cy := by nlinarith
          have := lt_of_mul_lt_mul_right k4 hcy0.le
          linarith
        have d2 : -h < x * h - bh * w := by
          have k1 : bh * (w * cy) ≤ bh * (h * bw) := mul_le_mul_of_nonneg_left b1 hbh.le
          have k2 : bw * bh * h < (cy * x + cy) * h := mul_lt_mul_of_pos_right c2 hh
          have k4 : (bh * w) * cy < ((x + 1) * h) * cy := by nlinarith
          have := lt_of_mul_lt_mul_right k4 hcy0.le
          linarith
        rw [abs_lt]
        constructor
        · have := le_max_right w h
          linarith
        · have := le_max_left w h
          linarith
    · simp only [gt_iff_lt, if_neg h2]
      have hcy : h * bw / w = bh := by omega
      rw [hcy] at b1 b2
      rw [hcy]
      refine ⟨⟨hbw.le, le_refl _⟩, ⟨hbh.le, le_refl _⟩, ?_, ?_⟩
      · intro hor
        have hbhh : bh ≤ h := by
          rcases hor with hor | hor
          · by_contra hneg
            push_neg at hneg
            nlinarith
          · exact hor.le
        refine ⟨?_, hbhh⟩
        by_contra hneg
        push_neg at hneg
        have hbh1 : bh < h := by
          rcases hor with hor | hor
          · omega
          · exact hor
        have k2 : w * (bh + 1) ≤ w * h := by
          apply mul_le_mul_of_nonneg_left _ hw.le
          omega
        have k3 : h * w < h * bw := mul_lt_mul_of_pos_left hneg hh
        nlinarith
      · rw [abs_lt]
        constructor
        · have := le_max_right w h
          nlinarith
        · have := le_max_left w h
          nlinarith
  · simp only [if_neg hc]
    push_neg at hc
    obtain ⟨b1, b2⟩ := ediv_bounds (w * bh) h hh
    have hge : bw ≤ w * bh / h := by
      rw [Int.le_ediv_iff_mul_le hh]; linarith
    by_cases h2 : bw < w * bh / h
    · simp only [gt_iff_lt, if_pos h2]
      generalize hcx : w * bh / h = cx at *
      have hcx0 : 0 < cx := by omega
      obtain ⟨c1, c2⟩ := ediv_bounds (bh * bw) cx hcx0
      generalize hy : bh * bw / cx = y at *
      have hy0 : 0 ≤ y := by
        by_contra hneg
        push_neg at hneg
        nlinarith
      have hyb : y ≤ bh := by
        by_contra hneg
        push_neg at hneg
        nlinarith
      refine ⟨⟨hbw.le, le_refl _⟩, ⟨hy0, hyb⟩, ?_, ?_⟩
      · intro hor
        have hbww : bw ≤ w := by
          rcases hor with hor | hor
          · exact hor.le
          · by_contra hneg
            push_neg at hneg
            nlinarith
        refine ⟨hbww, ?_⟩
        by_cases hbhh : bh ≤ h
        · exact hyb.trans hbhh
        · push_neg at hbhh
          have hbw1 : bw < w := by
            rcases hor with hor | hor
            · exact hor
            · omega
          by_contra hneg
          push_neg at hneg
          have k1 : cx * (h + 1) ≤ cx * y := by
            apply mul_le_mul_of_nonneg_left _ hcx0.le
            omega
          have k2 : bh * bw ≤ bh * (w - 1) := by
            apply mul_le_mul_of_nonneg_left _ hbh.le
            omega
          nlinarith
      · have d1 : bw * h - y * w < w := by
          have k1 : bw * (h * cx) ≤ bw * (w * bh) := mul_le_mul_of_nonneg_left b1 hbw.le
          have k2 : bh * bw * w < (cx * y + cx) * w := mul_lt_mul_of_pos_right c2 hw
          have k4 : (bw * h) * cx < ((y + 1) * w) * cx := by nlinarith
          have := lt_of_mul_lt_mul_right k4 hcx0.le
          linarith
        have d2 : -h < bw * h - y * w := by
          have k1 : cx * y * w ≤ bh * bw * w := mul_le_mul_of_nonneg_right c1 hw.le
          have k2 : bw * (w * bh) < bw * (h * cx + h) := mul_lt_mul_of_pos_left b2 hbw
          have k3 : bw * h < cx * h := mul_lt_mul_of_pos_right h2 hh
          have k4 : (y * w) * cx < (bw * h + h) * cx := by nlinarith
          have := lt_of_mul_lt_mul_right k4 hcx0.le
          linarith
        rw [abs_lt]
        constructor
        · have := le_max_right w h
          linarith
        · have := le_max_left w h
          linarith
    · simp only [gt_iff_lt, if_neg h2]
      have hcx : w * bh / h = bw := by omega
      rw [hcx] at b1 b2
      rw [hcx]
      refine ⟨⟨hbw.le, le_refl _⟩, ⟨hbh.le, le_refl _⟩, ?_, ?_⟩
      · intro hor
        have hbww : bw ≤ w := by
          rcases hor with hor | hor
          · exact hor.le
          · by_contra hneg
            push_neg at hneg
            nlinarith
        refine ⟨hbww, ?_⟩
        by_contra hneg
        push_neg at hneg
        have hbw1 : bw < w := by
          rcases hor with hor | hor
          · exact hor
          · omega
        have k2 : h * (bw + 1) ≤ h * w := by
          apply mul_le_mul_of_nonneg_left _ hh.le
          omega
        have k3 : w * h < w * bh := mul_lt_mul_of_pos_left hneg hw
        nlinarith
      · rw [abs_lt]
        constructor
        · have := le_max_right w h
          nlinarith
        · have := le_max_left w h
          nlinarith



/-! ## C1 - C2: fitting a box -/

/-- C1. For every image size (w,h) and box (bw,bh) with all four integers positive,
`adjustPictureSize` with `externSize = false` returns a size that is at most the box
on both axes. -/
theorem adjustPictureSize_within_box (w h bw bh : Int) (hw : 0 < w) (hh : 0 < h)
    (hbw : 0 < bw) (hbh : 0 < bh) :
    (adjustPictureSize ⟨w, h⟩ ⟨bw, bh⟩ false).x ≤ bw ∧
    (adjustPictureSize ⟨w, h⟩ ⟨bw, bh⟩ false).y ≤ bh := by
  rw [adjustPictureSize_eq_fitInt w h bw bh hw hh hbw hbh]
  obtain ⟨hx, hy, -, -⟩ := fitInt_facts w h bw bh hw hh hbw hbh
  exact ⟨hx.2, hy.2⟩

/-- C1, the scenario of the design document: a 100x50 image with box 50x50 yields exactly
(50,25), which is within the box. -/
theorem adjustPictureSize_within_box_witness :
    adjustPictureSize ⟨100, 50⟩ ⟨50, 50⟩ false = ⟨50, 25⟩ ∧
    ((adjustPictureSize ⟨100, 50⟩ ⟨50, 50⟩ false).x ≤ 50 ∧
     (adjustPictureSize ⟨100, 50⟩ ⟨50, 50⟩ false).y ≤ 50) :=
  ⟨by norm_num [adjustPictureSize, truncToInt],
   adjustPictureSize_within_box 100 50 50 50 (by decide) (by decide) (by decide) (by decide)⟩

/-- C2 as stated fails: a 10x10 image with box 100x100 is scaled up to 100x100. -/
theorem adjustPictureSize_scales_up :
    adjustPictureSize ⟨10, 10⟩ ⟨100, 100⟩ false = ⟨100, 100⟩ ∧
    ¬ ((adjustPictureSize ⟨10, 10⟩ ⟨100, 100⟩ false).x ≤ 10 ∧
       (adjustPictureSize ⟨10, 10⟩ ⟨100, 100⟩ false).y ≤ 10) := by
  have e : adjustPictureSize ⟨10, 10⟩ ⟨100, 100⟩ false = ⟨100, 100⟩ := by
    norm_num [adjustPictureSize, truncToInt]
  rw [e]
  decide

/-- C2, amended. For every positive image size (w,h) and positive box (bw,bh) such that
the image exceeds the box on at least one axis (bw < w or bh < h), `adjustPictureSize`
with `externSize = false` scales down: the result is at most (w,h) on both axes. -/
theorem adjustPictureSize_scales_down (w h bw bh : Int) (hw : 0 < w) (hh : 0 < h)
    (hbw : 0 < bw) (hbh : 0 < bh) (hexceeds : bw < w ∨ bh < h) :
    (adjustPictureSize ⟨w, h⟩ ⟨bw, bh⟩ false).x ≤ w ∧
    (adjustPictureSize ⟨w, h⟩ ⟨bw, bh⟩ false).y ≤ h := by
  rw [adjustPictureSize_eq_fitInt w h bw bh hw hh hbw hbh]
  obtain ⟨-, -, hdown, -⟩ := fitInt_facts w h bw bh hw hh hbw hbh
  exact hdown hexceeds

/-- C2, amended, at a 100x10 image with box 50x50: the result is (50,5). -/
theorem adjustPictureSize_scales_down_witness :
    adjustPictureSize ⟨100, 10⟩ ⟨50, 50⟩ false = ⟨50, 5⟩ ∧
    ((adjustPictureSize ⟨100, 10⟩ ⟨50, 50⟩ false).x ≤ 100 ∧
     (adjustPictureSize ⟨100, 10⟩ ⟨50, 50⟩ false).y ≤ 10) :=
  ⟨by norm_num [adjustPictureSize, truncToInt],
   adjustPictureSize_scales_down 100 10 50 50 (by decide) (by decide) (by decide) (by decide)
     (Or.inl (by decide))⟩

/-! ## Rounding to nearest -/

theorem roundHalfEven_near (s : ℚ) : |(roundHalfEven s : ℚ) - s| ≤ 1 / 2 := by
  unfold roundHalfEven
  have h1 := Int.floor_le s
  have h2 := Int.lt_floor_add_one s
  split_ifs with a b c
  · rw [abs_le]; constructor <;> linarith
  · push_cast
    rw [abs_le]; constructor <;> linarith
  · push_neg at a b
    rw [abs_le]; constructor <;> linarith
  · push_neg at a b
    push_cast
    rw [abs_le]; constructor <;> linarith

theorem roundHalfEven_intCast (n : Int) : roundHalfEven (n : ℚ) = n := by
  unfold roundHalfEven
  simp

theorem roundHalfEven_eq (s : ℚ) (n : Int) (h : |s - n| < 1 / 2) : roundHalfEven s = n := by
  have h0 := roundHalfEven_near s
  rw [abs_lt] at h
  rw [abs_le] at h0
  have h3 : ((roundHalfEven s - n : Int) : ℚ) < 1 := by push_cast; linarith
  have h4 : (-1 : ℚ) < ((roundHalfEven s - n : Int) : ℚ) := by push_cast; linarith
  have h5 : roundHalfEven s - n < 1 := by exact_mod_cast h3
  have h6 : -1 < roundHalfEven s - n := by exact_mod_cast h4
  omega

theorem log2_eq (r : ℚ) (e : Int) (h1 : (2 : ℚ) ^ e ≤ r) (h2 : r < (2 : ℚ) ^ (e + 1)) :
    Int.log 2 r = e := by
  have hr : 0 < r := lt_of_lt_of_le (by positivity) h1
  have a : e ≤ Int.log 2 r := (Int.zpow_le_iff_le_log (by norm_num) hr).mp (by exact_mod_cast h1)
  have b : Int.log 2 r < e + 1 := (Int.lt_zpow_iff_log_lt (by norm_num) hr).mp (by exact_mod_cast h2)
  omega

theorem roundNE_error (p : Nat) (q : ℚ) : |roundNE p q - q| ≤ |q| / 2 ^ p := by
  unfold roundNE
  by_cases hq : q = 0
  · simp [hq]
  · rw [if_neg hq]
    have habs : 0 < |q| := abs_pos.mpr hq
    have hlog : (2 : ℚ) ^ Int.log 2 |q| ≤ |q| := by
      have := Int.zpow_log_le_self (R := ℚ) (b := 2) (by norm_num) habs
      exact_mod_cast this
    generalize Int.log 2 |q| = L at hlog
    have hpos : (0 : ℚ) < (2 : ℚ) ^ (L - ((p : Int) - 1)) := by positivity
    have hnear := roundHalfEven_near (q / (2 : ℚ) ^ (L - ((p : Int) - 1)))
    generalize roundHalfEven (q / (2 : ℚ) ^ (L - ((p : Int) - 1))) = R at hnear
    have e1 : (R : ℚ) * (2 : ℚ) ^ (L - ((p : Int) - 1)) - q =
        ((R : ℚ) - q / (2 : ℚ) ^ (L - ((p : Int) - 1))) * (2 : ℚ) ^ (L - ((p : Int) - 1)) := by
      field_simp
    rw [e1, abs_mul, abs_of_pos hpos]
    have e2 : (2 : ℚ) ^ (L - ((p : Int) - 1)) = (2 : ℚ) ^ L / 2 ^ p * 2 := by
      rw [zpow_sub₀ (by norm_num : (2 : ℚ) ≠ 0), zpow_sub₀ (by norm_num : (2 : ℚ) ≠ 0)]
      simp only [zpow_natCast, zpow_one]
      field_simp
    have h2p : (0 : ℚ) < 2 ^ p := by positivity
    have hL : (0 : ℚ) < (2 : ℚ) ^ L := by positivity
    calc |(R : ℚ) - q / (2 : ℚ) ^ (L - ((p : Int) - 1))| * (2 : ℚ) ^ (L - ((p : Int) - 1))
        ≤ 1 / 2 * (2 : ℚ) ^ (L - ((p : Int) - 1)) :=
          mul_le_mul_of_nonneg_right hnear hpos.le
      _ = (2 : ℚ) ^ L / 2 ^ p := by rw [e2]; ring
      _ ≤ |q| / 2 ^ p := div_le_div_of_nonneg_right hlog h2p.le

theorem roundNE_bounds (p : Nat) (q : ℚ) (hq : 0 ≤ q) :
    q * (1 - 1 / 2 ^ p) ≤ roundNE p q ∧ roundNE p q ≤ q * (1 + 1 / 2 ^ p) := by
  have h := roundNE_error p q
  rw [abs_of_nonneg hq, abs_le] at h
  constructor
  · have : q * (1 - 1 / 2 ^ p) = q - q / 2 ^ p := by ring
    linarith
  · have : q * (1 + 1 / 2 ^ p) = q + q / 2 ^ p := by ring
    linarith

theorem roundNE_dyadic (p : Nat) (n k : Int) (hp : 1 ≤ p) (hn : |n| ≤ 2 ^ p) :
    roundNE p ((n : ℚ) * (2 : ℚ) ^ k) = (n : ℚ) * (2 : ℚ) ^ k := by
  by_cases hn0 : n = 0
  · simp [roundNE, hn0]
  have h2k : (0 : ℚ) < (2 : ℚ) ^ k := by positivity
  have hq : (n : ℚ) * (2 : ℚ) ^ k ≠ 0 := by
    have : (n : ℚ) ≠ 0 := by exact_mod_cast hn0
    positivity
  unfold roundNE
  rw [if_neg hq]
  have habs : |(n : ℚ) * (2 : ℚ) ^ k| = (|n| : Int) * (2 : ℚ) ^ k := by
    rw [abs_mul, abs_of_pos h2k]
    push_cast
    rfl
  have hn1 : (1 : ℚ) ≤ ((|n| : Int) : ℚ) := by
    have : 1 ≤ |n| := Int.one_le_abs hn0
    exact_mod_cast this
  have hnq : ((|n| : Int) : ℚ) ≤ 2 ^ p := by exact_mod_cast hn
  by_cases hlt : |n| < 2 ^ p
  · -- the exponent of the last place is at most k
    have hltq : |(n : ℚ)| < 2 ^ p := by exact_mod_cast hlt
    have hL : Int.log 2 |(n : ℚ) * (2 : ℚ) ^ k| < k + p := by
      apply (Int.lt_zpow_iff_log_lt (by norm_num) (abs_pos.mpr hq)).mp
      rw [habs]
      push_cast
      rw [zpow_add₀ (by norm_num : (2 : ℚ) ≠ 0), mul_comm ((2 : ℚ) ^ k)]
      simp only [zpow_natCast]
      exact mul_lt_mul_of_pos_right hltq h2k
    generalize Int.log 2 |(n : ℚ) * (2 : ℚ) ^ k| = L at hL
    obtain ⟨j, hj⟩ : ∃ j : Nat, k - (L - ((p : Int) - 1)) = j :=
      ⟨(k - (L - ((p : Int) - 1))).toNat, (Int.toNat_of_nonneg (by omega)).symm⟩
    have hs : (n : ℚ) * (2 : ℚ) ^ k / (2 : ℚ) ^ (L - ((p : Int) - 1)) =
        ((n * 2 ^ j : Int) : ℚ) := by
      rw [mul_div_assoc, ← zpow_sub₀ (by norm_num : (2 : ℚ) ≠ 0), hj]
      push_cast
      simp only [zpow_natCast]
    rw [hs, roundHalfEven_intCast]
    push_cast
    rw [mul_assoc]
    congr 1
    have : (2 : ℚ) ^ j = (2 : ℚ) ^ (j : Int) := by simp only [zpow_natCast]
    rw [this, ← hj, ← zpow_add₀ (by norm_num : (2 : ℚ) ≠ 0)]
    congr 1
    ring
  · have heq : |n| = 2 ^ p := le_antisymm hn (not_lt.mp hlt)
    have heqq : ((|n| : Int) : ℚ) = 2 ^ p := by exact_mod_cast heq
    have hL : Int.log 2 |(n : ℚ) * (2 : ℚ) ^ k| = k + p := by
      rw [habs, heqq]
      have : (2 : ℚ) ^ p * (2 : ℚ) ^ k = (2 : ℚ) ^ (k + p) := by
        rw [zpow_add₀ (by norm_num : (2 : ℚ) ≠ 0), mul_comm]
        simp only [zpow_natCast]
      rw [this]
      exact_mod_cast Int.log_zpow (R := ℚ) (b := 2) (by norm_num) (k + p)
    rw [hL]
    have he : k + (p : Int) - ((p : Int) - 1) = k + 1 := by ring
    rw [he]
    -- n is even: n = ± 2 ^ p
    obtain ⟨m, hm⟩ : ∃ m : Int, n = 2 * m := by
      have h2 : (2 : Int) ∣ 2 ^ p := dvd_pow_self 2 (by omega)
      rw [← heq] at h2
      exact (dvd_abs 2 n).mp h2
    have hs : (n : ℚ) * (2 : ℚ) ^ k / (2 : ℚ) ^ (k + 1) = ((m : Int) : ℚ) := by
      rw [hm, zpow_add₀ (by norm_num : (2 : ℚ) ≠ 0)]
      push_cast
      field_simp
      ring
    rw [hs, roundHalfEven_intCast, hm, zpow_add₀ (by norm_num : (2 : ℚ) ≠ 0)]
    push_cast
    ring

theorem roundNE_intCast (p : Nat) (n : Int) (hp : 1 ≤ p) (hn : |n| ≤ 2 ^ p) :
    roundNE p (n : ℚ) = n := by
  have := roundNE_dyadic p n 0 hp hn
  simpa using this

theorem roundNE_eval (p : Nat) (q : ℚ) (e n : Int)
    (h1 : (2 : ℚ) ^ (e + (p : Int) - 1) ≤ |q|) (h2 : |q| < (2 : ℚ) ^ (e + (p : Int)))
    (hn : roundHalfEven (q / (2 : ℚ) ^ e) = n) : roundNE p q = (n : ℚ) * (2 : ℚ) ^ e := by
  have hpos : 0 < |q| := lt_of_lt_of_le (by positivity) h1
  have hq : q ≠ 0 := abs_pos.mp hpos
  have hlog : Int.log 2 |q| = e + (p : Int) - 1 :=
    log2_eq |q| _ h1 (by rw [show e + (p : Int) - 1 + 1 = e + (p : Int) by ring]; exact h2)
  unfold roundNE
  rw [if_neg hq, hlog, show e + (p : Int) - 1 - ((p : Int) - 1) = e by ring, hn]

theorem roundHalfEven_tie (n : Int) (heven : n % 2 = 0) :
    roundHalfEven ((n : ℚ) + 1 / 2) = n := by
  have hfloor : ⌊(n : ℚ) + 1 / 2⌋ = n := by
    rw [Int.floor_eq_iff]
    constructor <;> norm_num
  unfold roundHalfEven
  rw [hfloor]
  norm_num [heven]


theorem roundHalfEven_tie_up (n : Int) (hodd : n % 2 = 1) :
    roundHalfEven ((n : ℚ) + 1 / 2) = n + 1 := by
  have hfloor : ⌊(n : ℚ) + 1 / 2⌋ = n := by
    rw [Int.floor_eq_iff]
    constructor <;> norm_num
  unfold roundHalfEven
  rw [hfloor]
  norm_num [hodd]

theorem toFloat_intCast (n : Int) (hn : |n| ≤ 2 ^ 24) : toFloat (n : ℚ) = n :=
  roundNE_intCast 24 n (by norm_num) hn

/-! ## The fit computation on rounded values, in integers -/

theorem roundNE_nonneg (p : Nat) (q : ℚ) (hq : 0 ≤ q) : 0 ≤ roundNE p q := by
  have h := (roundNE_bounds p q hq).1
  have h1 : (1 : ℚ) / 2 ^ p ≤ 1 := by
    rw [div_le_one (by positivity)]
    exact one_le_pow₀ (by norm_num)
  have h2 : 0 ≤ q * (1 - 1 / 2 ^ p) := mul_nonneg hq (by linarith)
  linarith

theorem truncToInt_near_div (a b : Int) (y : ℚ) (hb : 0 < b) (hy0 : 0 ≤ y)
    (hy : |y - (a : ℚ) / (b : ℚ)| < 1 / (b : ℚ)) :
    truncToInt y = a / b ∨ (truncToInt y = a / b - 1 ∧ a / b * b = a) := by
  have hbq : (0 : ℚ) < b := by exact_mod_cast hb
  rw [abs_lt] at hy
  have hdiv := Int.ediv_add_emod a b
  have hr0 := Int.emod_nonneg a hb.ne'
  have hr1 := Int.emod_lt_of_pos a hb
  have hq : (a : ℚ) / b = ((a / b : Int) : ℚ) + ((a % b : Int) : ℚ) / b := by
    have hcast : ((b * (a / b) + a % b : Int) : ℚ) = a := by rw [hdiv]
    push_cast at hcast
    field_simp
    linarith
  have hb1 : (1 : ℚ) / b ≤ 1 := by
    rw [div_le_one hbq]
    exact_mod_cast hb
  unfold truncToInt
  rw [if_pos hy0]
  by_cases hr : a % b = 0
  · have hq0 : (a : ℚ) / b = ((a / b : Int) : ℚ) := by
      rw [hq, hr]
      simp
    have hexact : a / b * b = a := by
      have := hdiv
      rw [hr] at this
      linarith
    rw [hq0] at hy
    by_cases hge : ((a / b : Int) : ℚ) ≤ y
    · left
      rw [Int.floor_eq_iff]
      exact ⟨hge, by linarith⟩
    · right
      refine ⟨?_, hexact⟩
      rw [Int.floor_eq_iff]
      push_neg at hge
      push_cast
      exact ⟨by linarith, by linarith⟩
  · left
    have hr2 : 1 ≤ a % b := by omega
    have hr3 : a % b + 1 ≤ b := by omega
    have hr2q : (1 : ℚ) ≤ ((a % b : Int) : ℚ) := by exact_mod_cast hr2
    have hr3q : ((a % b : Int) : ℚ) + 1 ≤ b := by exact_mod_cast hr3
    have e1 : (1 : ℚ) / b ≤ ((a % b : Int) : ℚ) / b :=
      div_le_div_of_nonneg_right hr2q hbq.le
    have e2 : ((a % b : Int) : ℚ) / b + 1 / b ≤ 1 := by
      rw [← add_div, div_le_one hbq]
      exact hr3q
    rw [Int.floor_eq_iff]
    rw [hq] at hy
    exact ⟨by linarith, by linarith⟩

theorem truncToInt_intCast (n : Int) : truncToInt (n : ℚ) = n := by
  unfold truncToInt
  split_ifs <;> simp

/-- The quotient of the clamping steps: for integers `0 ≤ P < 2 ^ 53` and `0 < d`, the
double quotient `(double)P / (double)d` truncates to the integer quotient. -/
theorem truncToInt_toDouble_div (P d : Int) (hP : 0 ≤ P) (hP53 : P < 2 ^ 53) (hd : 0 < d) :
    truncToInt (toDouble (toDouble (P : ℚ) / (d : ℚ))) = P / d := by
  have hPabs : |P| ≤ 2 ^ 53 := by
    rw [abs_of_nonneg hP]
    exact hP53.le
  have hPP : toDouble (P : ℚ) = P := roundNE_intCast 53 P (by norm_num) hPabs
  rw [hPP]
  have hdq : (0 : ℚ) < d := by exact_mod_cast hd
  have hPq : (0 : ℚ) ≤ P := by exact_mod_cast hP
  by_cases hdvd : d ∣ P
  · obtain ⟨k, hk⟩ := hdvd
    have hk0 : 0 ≤ k := by
      by_contra hneg
      push_neg at hneg
      have : d * k < 0 := mul_neg_of_pos_of_neg hd hneg
      omega
    have hkP : k ≤ P := by
      have : k * 1 ≤ k * d := mul_le_mul_of_nonneg_left hd hk0
      rw [hk]
      linarith
    have hq : (P : ℚ) / d = (k : ℚ) := by
      rw [hk]
      push_cast
      field_simp
    have hkk : toDouble (k : ℚ) = k :=
      roundNE_intCast 53 k (by norm_num) (by rw [abs_of_nonneg hk0]; omega)
    rw [hq, hkk, truncToInt_intCast, hk, Int.mul_ediv_cancel_left _ hd.ne']
  · have hquot : (0 : ℚ) ≤ (P : ℚ) / d := div_nonneg hPq hdq.le
    have herr := roundNE_error 53 ((P : ℚ) / d)
    have hy0 : 0 ≤ toDouble ((P : ℚ) / d) := roundNE_nonneg 53 _ hquot
    have hlt : |(P : ℚ) / d| / 2 ^ 53 < 1 / (d : ℚ) := by
      rw [abs_of_nonneg hquot, div_div, div_lt_div_iff₀ (by positivity) hdq]
      have hP53q : (P : ℚ) < 2 ^ 53 := by exact_mod_cast hP53
      nlinarith
    rcases truncToInt_near_div P d _ hd hy0 (lt_of_le_of_lt herr hlt) with h | ⟨-, h⟩
    · exact h
    · exact absurd ⟨P / d, by linarith⟩ hdvd

theorem scaled_max (w h bw bh : Int) (hw : 0 < w) (hh : 0 < h) :
    (w : ℚ) * max ((bw : ℚ) / w) ((bh : ℚ) / h) =
      ((max (bw * h) (bh * w) : Int) : ℚ) / h ∧
    (h : ℚ) * max ((bw : ℚ) / w) ((bh : ℚ) / h) =
      ((max (bw * h) (bh * w) : Int) : ℚ) / w := by
  have hwq : (0 : ℚ) < w := by exact_mod_cast hw
  have hhq : (0 : ℚ) < h := by exact_mod_cast hh
  rcases le_total (bw * h) (bh * w) with hle | hle
  · have hleq : (bw : ℚ) * h ≤ bh * w := by exact_mod_cast hle
    have hq : (bw : ℚ) / w ≤ (bh : ℚ) / h := by
      rw [div_le_div_iff₀ hwq hhq]
      exact hleq
    rw [max_eq_right hle, max_eq_right hq]
    push_cast
    constructor <;> first | (field_simp; ring) | field_simp
  · have hleq : (bh : ℚ) * w ≤ bw * h := by exact_mod_cast hle
    have hq : (bh : ℚ) / h ≤ (bw : ℚ) / w := by
      rw [div_le_div_iff₀ hhq hwq]
      exact hleq
    rw [max_eq_left hle, max_eq_left hq]
    push_cast
    constructor <;> first | (field_simp; ring) | field_simp

theorem max_toDouble_bounds (X Y : ℚ) (hX : 0 ≤ X) (hY : 0 ≤ Y) :
    max X Y * (1 - 1 / 2 ^ 53) ≤ max (toDouble X) (toDouble Y) ∧
    max (toDouble X) (toDouble Y) ≤ max X Y * (1 + 1 / 2 ^ 53) := by
  have hx := roundNE_bounds 53 X hX
  have hy := roundNE_bounds 53 Y hY
  unfold toDouble
  constructor
  · rcases le_total X Y with h | h
    · rw [max_eq_right h]
      exact le_trans hy.1 (le_max_right _ _)
    · rw [max_eq_left h]
      exact le_trans hx.1 (le_max_left _ _)
  · apply max_le
    · exact le_trans hx.2 (mul_le_mul_of_nonneg_right (le_max_left _ _) (by norm_num))
    · exact le_trans hy.2 (mul_le_mul_of_nonneg_right (le_max_right _ _) (by norm_num))

theorem toDouble_mul_near (c m M : ℚ) (hc : 0 ≤ c) (hM : 0 ≤ M)
    (hlo : M * (1 - 1 / 2 ^ 53) ≤ m) (hhi : m ≤ M * (1 + 1 / 2 ^ 53)) :
    0 ≤ toDouble (c * m) ∧ |toDouble (c * m) - c * M| ≤ c * M * (3 / 2 ^ 53) := by
  have hm : 0 ≤ m := le_trans (mul_nonneg hM (by norm_num)) hlo
  have hcm : 0 ≤ c * m := mul_nonneg hc hm
  have hb := roundNE_bounds 53 (c * m) hcm
  have ht : 0 ≤ c * M := mul_nonneg hc hM
  have h1 : c * M * (1 - 1 / 2 ^ 53) ≤ c * m := by
    have := mul_le_mul_of_nonneg_left hlo hc
    linarith
  have h2 : c * m ≤ c * M * (1 + 1 / 2 ^ 53) := by
    have := mul_le_mul_of_nonneg_left hhi hc
    linarith
  have h3 : c * M * (1 - 1 / 2 ^ 53) * (1 - 1 / 2 ^ 53) ≤ c * m * (1 - 1 / 2 ^ 53) :=
    mul_le_mul_of_nonneg_right h1 (by norm_num)
  have h4 : c * m * (1 + 1 / 2 ^ 53) ≤ c * M * (1 + 1 / 2 ^ 53) * (1 + 1 / 2 ^ 53) :=
    mul_le_mul_of_nonneg_right h2 (by norm_num)
  refine ⟨roundNE_nonneg 53 _ hcm, ?_⟩
  unfold toDouble
  rw [abs_le]
  constructor
  · have e : c * M * (1 - 1 / 2 ^ 53) * (1 - 1 / 2 ^ 53) =
        c * M - c * M * (2 / 2 ^ 53) + c * M * (1 / 2 ^ 53 * (1 / 2 ^ 53)) := by ring
    have e2 : 0 ≤ c * M * (1 / 2 ^ 53 * (1 / 2 ^ 53)) := mul_nonneg ht (by norm_num)
    have e3 : c * M * (2 / 2 ^ 53) ≤ c * M * (3 / 2 ^ 53) :=
      mul_le_mul_of_nonneg_left (by norm_num) ht
    linarith [hb.1]
  · have e : c * M * (1 + 1 / 2 ^ 53) * (1 + 1 / 2 ^ 53) =
        c * M + c * M * (2 / 2 ^ 53 + 1 / 2 ^ 53 * (1 / 2 ^ 53)) := by ring
    have e3 : c * M * (2 / 2 ^ 53 + 1 / 2 ^ 53 * (1 / 2 ^ 53)) ≤ c * M * (3 / 2 ^ 53) :=
      mul_le_mul_of_nonneg_left (by norm_num) ht
    linarith [hb.2]

/-- The first two assignments of the fit branch on sizes between 1 and 32768: each axis is
the integer quotient of `A = max (bw * h) (bh * w)` by the other image axis, or one less
than it when the quotient is exact. -/
theorem fit_first_stage (w h bw bh : Int) (hw : 1 ≤ w) (hh : 1 ≤ h) (hbw : 1 ≤ bw)
    (hbh : 1 ≤ bh) (hw2 : w ≤ 32768) (hh2 : h ≤ 32768) (hbw2 : bw ≤ 32768)
    (hbh2 : bh ≤ 32768) :
    (truncToInt (toDouble ((w : ℚ) * max (toDouble ((bw : ℚ) / w)) (toDouble ((bh : ℚ) / h))))
        = max (bw * h) (bh * w) / h ∨
      (truncToInt (toDouble ((w : ℚ) * max (toDouble ((bw : ℚ) / w))
          (toDouble ((bh : ℚ) / h)))) = max (bw * h) (bh * w) / h - 1 ∧
        max (bw * h) (bh * w) / h * h = max (bw * h) (bh * w))) ∧
    (truncToInt (toDouble ((h : ℚ) * max (toDouble ((bw : ℚ) / w)) (toDouble ((bh : ℚ) / h))))
        = max (bw * h) (bh * w) / w ∨
      (truncToInt (toDouble ((h : ℚ) * max (toDouble ((bw : ℚ) / w))
          (toDouble ((bh : ℚ) / h)))) = max (bw * h) (bh * w) / w - 1 ∧
        max (bw * h) (bh * w) / w * w = max (bw * h) (bh * w))) := by
  have hwq : (0 : ℚ) < w := by exact_mod_cast (by omega : 0 < w)
  have hhq : (0 : ℚ) < h := by exact_mod_cast (by omega : 0 < h)
  have hbwq : (0 : ℚ) < bw := by exact_mod_cast (by omega : 0 < bw)
  have hbhq : (0 : ℚ) < bh := by exact_mod_cast (by omega : 0 < bh)
  have hX : (0 : ℚ) ≤ (bw : ℚ) / w := (div_pos hbwq hwq).le
  have hY : (0 : ℚ) ≤ (bh : ℚ) / h := (div_pos hbhq hhq).le
  have hM : (0 : ℚ) ≤ max ((bw : ℚ) / w) ((bh : ℚ) / h) := le_trans hX (le_max_left _ _)
  obtain ⟨hlo, hhi⟩ := max_toDouble_bounds _ _ hX hY
  obtain ⟨ex, ey⟩ := scaled_max w h bw bh (by omega) (by omega)
  have hA0 : 0 ≤ max (bw * h) (bh * w) :=
    le_trans (mul_nonneg (by omega) (by omega)) (le_max_left _ _)
  have hA : max (bw * h) (bh * w) ≤ 2 ^ 30 := by
    apply max_le
    · calc bw * h ≤ 32768 * 32768 := mul_le_mul hbw2 hh2 (by omega) (by norm_num)
        _ = 2 ^ 30 := by norm_num
    · calc bh * w ≤ 32768 * 32768 := mul_le_mul hbh2 hw2 (by omega) (by norm_num)
        _ = 2 ^ 30 := by norm_num
  have hAq0 : (0 : ℚ) ≤ ((max (bw * h) (bh * w) : Int) : ℚ) := by exact_mod_cast hA0
  have hAq : ((max (bw * h) (bh * w) : Int) : ℚ) ≤ 2 ^ 30 := by exact_mod_cast hA
  constructor
  · obtain ⟨h0, hnear⟩ := toDouble_mul_near (w : ℚ) _ _ hwq.le hM hlo hhi
    rw [ex] at hnear
    apply truncToInt_near_div _ _ _ (by omega) h0
    apply lt_of_le_of_lt hnear
    rw [div_mul_eq_mul_div, div_lt_div_iff₀ hhq hhq]
    have : ((max (bw * h) (bh * w) : Int) : ℚ) * (3 / 2 ^ 53) < 1 := by
      calc ((max (bw * h) (bh * w) : Int) : ℚ) * (3 / 2 ^ 53) ≤ 2 ^ 30 * (3 / 2 ^ 53) :=
            mul_le_mul_of_nonneg_right hAq (by norm_num)
        _ < 1 := by norm_num
    nlinarith
  · obtain ⟨h0, hnear⟩ := toDouble_mul_near (h : ℚ) _ _ hhq.le hM hlo hhi
    rw [ey] at hnear
    apply truncToInt_near_div _ _ _ (by omega) h0
    apply lt_of_le_of_lt hnear
    rw [div_mul_eq_mul_div, div_lt_div_iff₀ hwq hwq]
    have : ((max (bw * h) (bh * w) : Int) : ℚ) * (3 / 2 ^ 53) < 1 := by
      calc ((max (bw * h) (bh * w) : Int) : ℚ) * (3 / 2 ^ 53) ≤ 2 ^ 30 * (3 / 2 ^ 53) :=
            mul_le_mul_of_nonneg_right hAq (by norm_num)
        _ < 1 := by norm_num
    nlinarith

/-- The fit branch of `adjustPictureSizeRounded` in integers: when the two first-stage
axes `cx1`, `cy1` lie between 0 and `2 ^ 30` and the box between 1 and 32768, the two
clamping steps are integer divisions. -/
theorem adjustPictureSizeRounded_eq_clampInt (w h bw bh cx1 cy1 : Int) (hw : w ≠ 0)
    (hh : h ≠ 0)
    (hcx : truncToInt (toDouble ((w : ℚ) *
      max (toDouble ((bw : ℚ) / w)) (toDouble ((bh : ℚ) / h)))) = cx1)
    (hcy : truncToInt (toDouble ((h : ℚ) *
      max (toDouble ((bw : ℚ) / w)) (toDouble ((bh : ℚ) / h)))) = cy1)
    (hx0 : 0 ≤ cx1) (hy0 : 0 ≤ cy1) (hx1 : cx1 ≤ 2 ^ 30) (hy1 : cy1 ≤ 2 ^ 30)
    (hbw : 1 ≤ bw) (hbh : 1 ≤ bh) (hbw2 : bw ≤ 32768) (hbh2 : bh ≤ 32768) :
    adjustPictureSizeRounded ⟨w, h⟩ ⟨bw, bh⟩ false = clampInt cx1 cy1 bw bh := by
  have hz : ¬ (w = 0 ∨ h = 0) := by
    push_neg
    exact ⟨hw, hh⟩
  have hprod (a b : Int) (hb : 0 ≤ b) (ha2 : a ≤ 2 ^ 30) (hb2 : b ≤ 32768) :
      a * b < 2 ^ 53 := by
    calc a * b ≤ 2 ^ 30 * 32768 := mul_le_mul ha2 hb2 hb (by norm_num)
      _ < 2 ^ 53 := by norm_num
  have hstep (a b d : Int) (ha : 0 ≤ a) (hb : 0 ≤ b) (ha2 : a ≤ 2 ^ 30) (hb2 : b ≤ 32768)
      (hd : 0 < d) :
      truncToInt (toDouble (toDouble ((a : ℚ) * (b : ℚ)) / (d : ℚ))) = a * b / d := by
    have := truncToInt_toDouble_div (a * b) d (mul_nonneg ha hb) (hprod a b hb ha2 hb2) hd
    push_cast at this
    exact this
  simp only [adjustPictureSizeRounded, Bool.false_eq_true, if_false, if_neg hz, hcx, hcy]
  unfold clampInt
  by_cases hgx : cx1 > bw
  · have e1 := hstep cy1 bw cx1 hy0 (by omega) hy1 hbw2 (by omega)
    simp only [if_pos hgx, e1]
    by_cases hgy : cy1 * bw / cx1 > bh
    · have e2 := hstep bw bh (cy1 * bw / cx1) (by omega) (by omega) (by norm_num; omega) hbh2
        (by omega)
      simp only [if_pos hgy, e2]
    · simp only [if_neg hgy]
  · simp only [if_neg hgx]
    by_cases hgy : cy1 > bh
    · have e2 := hstep cx1 bh cy1 hx0 (by omega) hx1 hbh2 (by omega)
      simp only [if_pos hgy, e2]
    · simp only [if_neg hgy]

/-- The fit branch of `adjustPictureSizeRounded` on sizes between 1 and 32768: the result
is that of the two clamping steps in integers on first-stage axes `cx1`, `cy1` that are
not negative, keep the aspect ratio up to one truncation, and of which one is within the
box. -/
theorem fit_stage_facts (w h bw bh : Int) (hw : 1 ≤ w) (hh : 1 ≤ h)
    (hbw : 1 ≤ bw) (hbh : 1 ≤ bh) (hw2 : w ≤ 32768) (hh2 : h ≤ 32768) (hbw2 : bw ≤ 32768)
    (hbh2 : bh ≤ 32768) :
    ∃ cx1 cy1 : Int, adjustPictureSizeRounded ⟨w, h⟩ ⟨bw, bh⟩ false = clampInt cx1 cy1 bw bh ∧
      0 ≤ cx1 ∧ 0 ≤ cy1 ∧ -h ≤ cx1 * h - cy1 * w ∧ cx1 * h - cy1 * w ≤ w ∧
      (cx1 ≤ bw ∨ cy1 ≤ bh) := by
  obtain ⟨hx, hy⟩ := fit_first_stage w h bw bh hw hh hbw hbh hw2 hh2 hbw2 hbh2
  have hA0 : 0 ≤ max (bw * h) (bh * w) :=
    le_trans (mul_nonneg (by omega) (by omega)) (le_max_left _ _)
  have hA : max (bw * h) (bh * w) ≤ 2 ^ 30 := by
    apply max_le
    · calc bw * h ≤ 32768 * 32768 := mul_le_mul hbw2 hh2 (by omega) (by norm_num)
        _ = 2 ^ 30 := by norm_num
    · calc bh * w ≤ 32768 * 32768 := mul_le_mul hbh2 hw2 (by omega) (by norm_num)
        _ = 2 ^ 30 := by norm_num
  have hAx : bw * h ≤ max (bw * h) (bh * w) := le_max_left _ _
  have hAy : bh * w ≤ max (bw * h) (bh * w) := le_max_right _ _
  have hchoice : max (bw * h) (bh * w) = bw * h ∨ max (bw * h) (bh * w) = bh * w :=
    max_choice _ _
  generalize max (bw * h) (bh * w) = A at hx hy hA0 hA hAx hAy hchoice
  have hkx1 : A / h * h ≤ A := Int.ediv_mul_le _ (by omega)
  have hkx2 : A < (A / h + 1) * h := Int.lt_ediv_add_one_mul_self _ (by omega)
  have hky1 : A / w * w ≤ A := Int.ediv_mul_le _ (by omega)
  have hky2 : A < (A / w + 1) * w := Int.lt_ediv_add_one_mul_self _ (by omega)
  have hkx3 : bw ≤ A / h := (Int.le_ediv_iff_mul_le (by omega)).mpr hAx
  have hky3 : bh ≤ A / w := (Int.le_ediv_iff_mul_le (by omega)).mpr hAy
  have hkx4 : A / h ≤ A := Int.ediv_le_self _ hA0
  have hky4 : A / w ≤ A := Int.ediv_le_self _ hA0
  have hside : A / h = bw ∨ A / w = bh := by
    rcases hchoice with hc | hc
    · left
      rw [hc]
      exact Int.mul_ediv_cancel _ (by omega)
    · right
      rw [hc]
      exact Int.mul_ediv_cancel _ (by omega)
  generalize A / h = kx at hx hkx1 hkx2 hkx3 hkx4 hside
  generalize A / w = ky at hy hky1 hky2 hky3 hky4 hside
  have hkx2' : A < kx * h + h := by linarith
  have hky2' : A < ky * w + w := by linarith
  generalize hcx : truncToInt (toDouble ((w : ℚ) *
      max (toDouble ((bw : ℚ) / w)) (toDouble ((bh : ℚ) / h)))) = cx1 at hx
  generalize hcy : truncToInt (toDouble ((h : ℚ) *
      max (toDouble ((bw : ℚ) / w)) (toDouble ((bh : ℚ) / h)))) = cy1 at hy
  have hx0 : 0 ≤ cx1 := by
    rcases hx with hx | ⟨hx, -⟩ <;> omega
  have hy0 : 0 ≤ cy1 := by
    rcases hy with hy | ⟨hy, -⟩ <;> omega
  have hx1 : cx1 ≤ 2 ^ 30 := by
    rcases hx with hx | ⟨hx, -⟩ <;> omega
  have hy1 : cy1 ≤ 2 ^ 30 := by
    rcases hy with hy | ⟨hy, -⟩ <;> omega
  have hcxh : cx1 * h = kx * h ∨ (cx1 * h = kx * h - h ∧ kx * h = A) := by
    rcases hx with hx | ⟨hx, hex⟩
    · left
      rw [hx]
    · right
      refine ⟨?_, hex⟩
      rw [hx]
      ring
  have hcyw : cy1 * w = ky * w ∨ (cy1 * w = ky * w - w ∧ ky * w = A) := by
    rcases hy with hy | ⟨hy, hey⟩
    · left
      rw [hy]
    · right
      refine ⟨?_, hey⟩
      rw [hy]
      ring
  refine ⟨cx1, cy1, adjustPictureSizeRounded_eq_clampInt w h bw bh cx1 cy1 (by omega)
    (by omega) hcx hcy hx0 hy0 hx1 hy1 hbw hbh hbw2 hbh2, hx0, hy0, ?_, ?_, ?_⟩
  · rcases hcxh with e1 | ⟨e1, e1'⟩ <;> rcases hcyw with e2 | ⟨e2, e2'⟩ <;> omega
  · rcases hcxh with e1 | ⟨e1, e1'⟩ <;> rcases hcyw with e2 | ⟨e2, e2'⟩ <;> omega
  · rcases hside with hs | hs
    · left
      rcases hx with hx | ⟨hx, -⟩ <;> omega
    · right
      rcases hy with hy | ⟨hy, -⟩ <;> omega

theorem clampInt_within_box (bw bh cx1 cy1 : Int) (hbw : 1 ≤ bw) (hbh : 1 ≤ bh)
    (hx0 : 0 ≤ cx1) (hy0 : 0 ≤ cy1) (hside : cx1 ≤ bw ∨ cy1 ≤ bh) :
    (clampInt cx1 cy1 bw bh).x ≤ bw ∧ (clampInt cx1 cy1 bw bh).y ≤ bh := by
  by_cases hcx : cx1 > bw
  · have hcy : cy1 ≤ bh := by
      rcases hside with hs | hs
      · omega
      · exact hs
    have hcx0 : 0 < cx1 := by omega
    have hq1 : cy1 * bw / cx1 * cx1 ≤ cy1 * bw := Int.ediv_mul_le _ hcx0.ne'
    have hqle : cy1 * bw / cx1 ≤ cy1 := by
      have h1 : cy1 * bw ≤ cy1 * cx1 := mul_le_mul_of_nonneg_left (by omega) hy0
      have h2 : cy1 * bw / cx1 * cx1 ≤ cy1 * cx1 := le_trans hq1 h1
      exact le_of_mul_le_mul_right h2 hcx0
    have hno : ¬ cy1 * bw / cx1 > bh := by omega
    have hval : clampInt cx1 cy1 bw bh = ⟨bw, cy1 * bw / cx1⟩ := by
      simp only [clampInt, hcx, if_true, if_neg hno]
    rw [hval]
    exact ⟨le_refl _, by show cy1 * bw / cx1 ≤ bh; omega⟩
  · by_cases hcy : cy1 > bh
    · have hcy0 : 0 < cy1 := by omega
      have hq1 : cx1 * bh / cy1 * cy1 ≤ cx1 * bh := Int.ediv_mul_le _ hcy0.ne'
      have hqle : cx1 * bh / cy1 ≤ cx1 := by
        have h1 : cx1 * bh ≤ cx1 * cy1 := mul_le_mul_of_nonneg_left (by omega) hx0
        have h2 : cx1 * bh / cy1 * cy1 ≤ cx1 * cy1 := le_trans hq1 h1
        exact le_of_mul_le_mul_right h2 hcy0
      have hval : clampInt cx1 cy1 bw bh = ⟨cx1 * bh / cy1, bh⟩ := by
        simp only [clampInt, if_neg hcx, if_pos hcy]
      rw [hval]
      exact ⟨by show cx1 * bh / cy1 ≤ bw; omega, le_refl _⟩
    · have hval : clampInt cx1 cy1 bw bh = ⟨cx1, cy1⟩ := by
        simp only [clampInt, if_neg hcx, if_neg hcy]
      rw [hval]
      exact ⟨by show cx1 ≤ bw; omega, by show cy1 ≤ bh; omega⟩

/-- On sizes between 1 and 32768 the fit branch of `adjustPictureSizeRounded` returns a
size within the box. -/
theorem adjustPictureSizeRounded_within_box (w h bw bh : Int) (hw : 1 ≤ w) (hh : 1 ≤ h)
    (hbw : 1 ≤ bw) (hbh : 1 ≤ bh) (hw2 : w ≤ 32768) (hh2 : h ≤ 32768) (hbw2 : bw ≤ 32768)
    (hbh2 : bh ≤ 32768) :
    (adjustPictureSizeRounded ⟨w, h⟩ ⟨bw, bh⟩ false).x ≤ bw ∧
    (adjustPictureSizeRounded ⟨w, h⟩ ⟨bw, bh⟩ false).y ≤ bh := by
  obtain ⟨cx1, cy1, heq, hx0, hy0, -, -, hside⟩ :=
    fit_stage_facts w h bw bh hw hh hbw hbh hw2 hh2 hbw2 hbh2
  rw [heq]
  exact clampInt_within_box bw bh cx1 cy1 hbw hbh hx0 hy0 hside

/-! ## C3: the aspect ratio kept by the fit -/

theorem toFloat_scale_bounds (c n d : ℚ) (hc : 0 < c) (hn : 0 ≤ n) (hd : 0 < d) :
    c * n * ((1 - 1 / 2 ^ 24) * (1 - 1 / 2 ^ 24)) ≤ toFloat (c * toFloat (n / d)) * d ∧
    toFloat (c * toFloat (n / d)) * d ≤ c * n * ((1 + 1 / 2 ^ 24) * (1 + 1 / 2 ^ 24)) := by
  have hq : 0 ≤ n / d := div_nonneg hn hd.le
  have h1 := roundNE_bounds 24 (n / d) hq
  have hf : 0 ≤ toFloat (n / d) := roundNE_nonneg 24 _ hq
  have h2 := roundNE_bounds 24 (c * toFloat (n / d)) (mul_nonneg hc.le hf)
  have e : n / d * d = n := div_mul_cancel₀ n hd.ne'
  unfold toFloat at *
  generalize roundNE 24 (c * roundNE 24 (n / d)) = V at h2
  generalize roundNE 24 (n / d) = U at h1 h2 hf
  obtain ⟨h1a, h1b⟩ := h1
  obtain ⟨h2a, h2b⟩ := h2
  have hcd : 0 < c * d := mul_pos hc hd
  have k1 : n / d * (1 - 1 / 2 ^ 24) * (c * d) ≤ U * (c * d) :=
    mul_le_mul_of_nonneg_right h1a hcd.le
  have k2 : U * (c * d) ≤ n / d * (1 + 1 / 2 ^ 24) * (c * d) :=
    mul_le_mul_of_nonneg_right h1b hcd.le
  have k3 : c * U * (1 - 1 / 2 ^ 24) * d ≤ V * d := mul_le_mul_of_nonneg_right h2a hd.le
  have k4 : V * d ≤ c * U * (1 + 1 / 2 ^ 24) * d := mul_le_mul_of_nonneg_right h2b hd.le
  have e1 : n / d * (1 - 1 / 2 ^ 24) * (c * d) = c * n * (1 - 1 / 2 ^ 24) := by
    calc n / d * (1 - 1 / 2 ^ 24) * (c * d) = (n / d * d) * (c * (1 - 1 / 2 ^ 24)) := by ring
      _ = c * n * (1 - 1 / 2 ^ 24) := by rw [e]; ring
  have e2 : n / d * (1 + 1 / 2 ^ 24) * (c * d) = c * n * (1 + 1 / 2 ^ 24) := by
    calc n / d * (1 + 1 / 2 ^ 24) * (c * d) = (n / d * d) * (c * (1 + 1 / 2 ^ 24)) := by ring
      _ = c * n * (1 + 1 / 2 ^ 24) := by rw [e]; ring
  rw [e1] at k1
  rw [e2] at k2
  have k5 : c * n * (1 - 1 / 2 ^ 24) * (1 - 1 / 2 ^ 24) ≤ U * (c * d) * (1 - 1 / 2 ^ 24) :=
    mul_le_mul_of_nonneg_right k1 (by norm_num)
  have k6 : U * (c * d) * (1 + 1 / 2 ^ 24) ≤ c * n * (1 + 1 / 2 ^ 24) * (1 + 1 / 2 ^ 24) :=
    mul_le_mul_of_nonneg_right k2 (by norm_num)
  constructor
  · calc c * n * ((1 - 1 / 2 ^ 24) * (1 - 1 / 2 ^ 24))
        = c * n * (1 - 1 / 2 ^ 24) * (1 - 1 / 2 ^ 24) := by ring
      _ ≤ U * (c * d) * (1 - 1 / 2 ^ 24) := k5
      _ = c * U * (1 - 1 / 2 ^ 24) * d := by ring
      _ ≤ V * d := k3
  · calc V * d ≤ c * U * (1 + 1 / 2 ^ 24) * d := k4
      _ = U * (c * d) * (1 + 1 / 2 ^ 24) := by ring
      _ ≤ c * n * (1 + 1 / 2 ^ 24) * (1 + 1 / 2 ^ 24) := k6
      _ = c * n * ((1 + 1 / 2 ^ 24) * (1 + 1 / 2 ^ 24)) := by ring

/-- The two branches of `getPictureMinSizeRounded` on a positive size and box: either the
width is the box width and the height is rounded, above `(1 - 2 ^ -22)` of the box height,
or the height is the box height and the width is rounded, no smaller than the box width;
in both the aspect ratio is that of the size within a relative `2 ^ -22`. -/
theorem getPictureMinSizeRounded_cases (s b : Vector2f) (hsx : 0 < s.x) (hsy : 0 < s.y)
    (hbx : 0 < b.x) (hby : 0 < b.y) :
    ((getPictureMinSizeRounded s b).x = b.x ∧
        b.y * (1 - 1 / 2 ^ 22) < (getPictureMinSizeRounded s b).y ∨
      (getPictureMinSizeRounded s b).y = b.y ∧ b.x ≤ (getPictureMinSizeRounded s b).x) ∧
    |(getPictureMinSizeRounded s b).x * s.y - (getPictureMinSizeRounded s b).y * s.x| * 2 ^ 22 ≤
      (getPictureMinSizeRounded s b).x * s.y := by
  have hz : ¬ (s.x = 0 ∨ s.y = 0) := by
    push_neg
    exact ⟨hsx.ne', hsy.ne'⟩
  obtain ⟨p1, p2⟩ := toFloat_scale_bounds s.x b.y s.y hsx hby.le hsy
  obtain ⟨q1, q2⟩ := toFloat_scale_bounds s.y b.x s.x hsy hbx.le hsx
  have hT : 0 < s.x * b.y := mul_pos hsx hby
  have hS : 0 < s.y * b.x := mul_pos hsy hbx
  by_cases hc : toFloat (s.x * toFloat (b.y / s.y)) < b.x
  · have hval : getPictureMinSizeRounded s b = ⟨b.x, toFloat (s.y * toFloat (b.x / s.x))⟩ := by
      simp only [getPictureMinSizeRounded, if_neg hz, if_pos hc]
    rw [hval]
    generalize toFloat (s.x * toFloat (b.y / s.y)) = P at hc p1 p2
    generalize toFloat (s.y * toFloat (b.x / s.x)) = Q at q1 q2
    have hc2 : P * s.y < b.x * s.y := mul_lt_mul_of_pos_right hc hsy
    constructor
    · left
      refine ⟨rfl, ?_⟩
      show b.y * (1 - 1 / 2 ^ 22) < Q
      have hlt : b.y * (1 - 1 / 2 ^ 22) * s.x < Q * s.x := by
        have n1 : s.x * b.y * ((1 - 1 / 2 ^ 24) * (1 - 1 / 2 ^ 24)) *
            ((1 - 1 / 2 ^ 24) * (1 - 1 / 2 ^ 24)) <
            b.x * s.y * ((1 - 1 / 2 ^ 24) * (1 - 1 / 2 ^ 24)) :=
          mul_lt_mul_of_pos_right (lt_of_le_of_lt p1 hc2) (by norm_num)
        have n2 : s.x * b.y * (1 - 1 / 2 ^ 22) ≤
            s.x * b.y * ((1 - 1 / 2 ^ 24) * (1 - 1 / 2 ^ 24) *
              ((1 - 1 / 2 ^ 24) * (1 - 1 / 2 ^ 24))) :=
          mul_le_mul_of_nonneg_left (by norm_num) hT.le
        linarith
      exact lt_of_mul_lt_mul_right hlt hsx.le
    · show |b.x * s.y - Q * s.x| * 2 ^ 22 ≤ b.x * s.y
      have m1 : s.y * b.x * ((1 + 1 / 2 ^ 24) * (1 + 1 / 2 ^ 24)) ≤
          s.y * b.x * (1 + 1 / 2 ^ 22) := mul_le_mul_of_nonneg_left (by norm_num) hS.le
      have m2 : s.y * b.x * (1 - 1 / 2 ^ 22) ≤
          s.y * b.x * ((1 - 1 / 2 ^ 24) * (1 - 1 / 2 ^ 24)) :=
        mul_le_mul_of_nonneg_left (by norm_num) hS.le
      have habs : |b.x * s.y - Q * s.x| ≤ b.x * s.y * (1 / 2 ^ 22) := by
        rw [abs_le]
        constructor <;> linarith
      calc |b.x * s.y - Q * s.x| * 2 ^ 22 ≤ b.x * s.y * (1 / 2 ^ 22) * 2 ^ 22 :=
            mul_le_mul_of_nonneg_right habs (by norm_num)
        _ = b.x * s.y := by ring
  · have hval : getPictureMinSizeRounded s b = ⟨toFloat (s.x * toFloat (b.y / s.y)), b.y⟩ := by
      simp only [getPictureMinSizeRounded, if_neg hz, if_neg hc]
    rw [hval]
    generalize toFloat (s.x * toFloat (b.y / s.y)) = P at hc p1 p2
    push_neg at hc
    constructor
    · right
      exact ⟨rfl, hc⟩
    · show |P * s.y - b.y * s.x| * 2 ^ 22 ≤ P * s.y
      have m1 : s.x * b.y * ((1 + 1 / 2 ^ 24) * (1 + 1 / 2 ^ 24)) =
          s.x * b.y + s.x * b.y * (2 / 2 ^ 24 + 1 / 2 ^ 48) := by ring
      have m2 : s.x * b.y * ((1 - 1 / 2 ^ 24) * (1 - 1 / 2 ^ 24)) =
          s.x * b.y - s.x * b.y * (2 / 2 ^ 24 - 1 / 2 ^ 48) := by ring
      have m3 : s.x * b.y * (2 / 2 ^ 24 + 1 / 2 ^ 48) * 2 ^ 22 ≤
          s.x * b.y * ((1 - 1 / 2 ^ 24) * (1 - 1 / 2 ^ 24)) := by
        rw [mul_assoc]
        exact mul_le_mul_of_nonneg_left (by norm_num) hT.le
      have habs : |P * s.y - b.y * s.x| ≤ s.x * b.y * (2 / 2 ^ 24 + 1 / 2 ^ 48) := by
        rw [abs_le]
        have m5 : s.x * b.y * (2 / 2 ^ 24 - 1 / 2 ^ 48) ≤
            s.x * b.y * (2 / 2 ^ 24 + 1 / 2 ^ 48) :=
          mul_le_mul_of_nonneg_left (by norm_num) hT.le
        constructor <;> linarith
      calc |P * s.y - b.y * s.x| * 2 ^ 22 ≤ s.x * b.y * (2 / 2 ^ 24 + 1 / 2 ^ 48) * 2 ^ 22 :=
            mul_le_mul_of_nonneg_right habs (by norm_num)
        _ ≤ s.x * b.y * ((1 - 1 / 2 ^ 24) * (1 - 1 / 2 ^ 24)) := m3
        _ ≤ P * s.y := p1

/-- C4 as stated fails: for the size 29x29 and the box 480x480 the coefficient 480/29
rounds down in `float` and `getPictureMinSize` returns (480, 15728639/32768), whose height
479.99997 is below the box and whose aspect ratio is not that of the size; the integer form
is (480,479). -/
theorem getPictureMinSize_below_box :
    getPictureMinSizeRounded ⟨29, 29⟩ ⟨480, 480⟩ = ⟨480, 15728639 / 32768⟩ ∧
    ¬ ((480 : ℚ) ≤ (getPictureMinSizeRounded ⟨29, 29⟩ ⟨480, 480⟩).y) ∧
    (getPictureMinSizeRounded ⟨29, 29⟩ ⟨480, 480⟩).x * 29 ≠
      (getPictureMinSizeRounded ⟨29, 29⟩ ⟨480, 480⟩).y * 29 ∧
    adjustPictureSizeRounded ⟨29, 29⟩ ⟨480, 480⟩ true = ⟨480, 479⟩ ∧
    ¬ ((480 : Int) ≤ (adjustPictureSizeRounded ⟨29, 29⟩ ⟨480, 480⟩ true).y) := by
  have h1 : toFloat (480 / 29) =
      4338935 / 262144 := by
    unfold toFloat
    rw [roundNE_eval 24 (480 / 29) (-19) 8677870
      (by norm_num [abs_of_pos]) (by norm_num [abs_of_pos])
      (roundHalfEven_eq _ _ (by norm_num [abs_lt]))]
    norm_num
  have h2 : toFloat (125829115 / 262144) =
      15728639 / 32768 := by
    unfold toFloat
    rw [roundNE_eval 24 (125829115 / 262144) (-15) 15728639
      (by norm_num [abs_of_pos]) (by norm_num [abs_of_pos])
      (roundHalfEven_eq _ _ (by norm_num [abs_lt]))]
    norm_num
  have i1 : toFloat 29 = 29 := by
    have h := toFloat_intCast 29 (by norm_num)
    norm_num at h
    exact h
  have i2 : toFloat 480 = 480 := by
    have h := toFloat_intCast 480 (by norm_num)
    norm_num at h
    exact h
  have e1 : getPictureMinSizeRounded ⟨29, 29⟩ ⟨480, 480⟩ = ⟨480, 15728639 / 32768⟩ := by
    norm_num [getPictureMinSizeRounded, h1, h2]
  have e2 : adjustPictureSizeRounded ⟨29, 29⟩ ⟨480, 480⟩ true = ⟨480, 479⟩ := by
    norm_num [adjustPictureSizeRounded, getPictureMinSizeRounded, truncToInt, i1, i2,
      h1, h2]
  rw [e1, e2]
  exact ⟨rfl, by norm_num, by norm_num, rfl, by decide⟩

/-- C4, amended. For every size and box of `float` values between `2 ^ -40` and `2 ^ 40`,
`getPictureMinSize`, each `float` operation rounded to nearest, returns a size that equals
the box on one axis: either the width is the box width and the height is above the box
height less its `2 ^ -22` part, or the height is the box height and the width is no smaller
than the box width; its aspect ratio is that of the size within a relative `2 ^ -22`. For
every integer size and box between 1 and 32768 the integer form
`adjustPictureSize(size, box, externSize = true)`, which truncates each axis, equals the box
on one axis as well and is no smaller than the box width and no smaller than the box height
less one pixel. -/
theorem getPictureMinSize_covers (s b : Vector2f) (w h bw bh : Int)
    (hsx : inFloatRange s.x) (hsy : inFloatRange s.y) (hbx : inFloatRange b.x)
    (hby : inFloatRange b.y) (hw : 1 ≤ w) (hh : 1 ≤ h) (hbw : 1 ≤ bw) (hbh : 1 ≤ bh)
    (hw2 : w ≤ 32768) (hh2 : h ≤ 32768) (hbw2 : bw ≤ 32768) (hbh2 : bh ≤ 32768) :
    (((getPictureMinSizeRounded s b).x = b.x ∧
          b.y * (1 - 1 / 2 ^ 22) < (getPictureMinSizeRounded s b).y ∨
        (getPictureMinSizeRounded s b).y = b.y ∧ b.x ≤ (getPictureMinSizeRounded s b).x) ∧
      |(getPictureMinSizeRounded s b).x * s.y - (getPictureMinSizeRounded s b).y * s.x| *
          2 ^ 22 ≤ (getPictureMinSizeRounded s b).x * s.y) ∧
    ((adjustPictureSizeRounded ⟨w, h⟩ ⟨bw, bh⟩ true).x = bw ∧
        bh - 1 ≤ (adjustPictureSizeRounded ⟨w, h⟩ ⟨bw, bh⟩ true).y ∨
      (adjustPictureSizeRounded ⟨w, h⟩ ⟨bw, bh⟩ true).y = bh ∧
        bw ≤ (adjustPictureSizeRounded ⟨w, h⟩ ⟨bw, bh⟩ true).x) := by
  have hpos : ∀ q : ℚ, inFloatRange q → 0 < q := fun q hq =>
    lt_of_lt_of_le (by norm_num) hq.1
  refine ⟨getPictureMinSizeRounded_cases s b (hpos _ hsx) (hpos _ hsy) (hpos _ hbx)
    (hpos _ hby), ?_⟩
  have hwq : (0 : ℚ) < w := by exact_mod_cast (by omega : 0 < w)
  have hhq : (0 : ℚ) < h := by exact_mod_cast (by omega : 0 < h)
  have hbwq : (0 : ℚ) < bw := by exact_mod_cast (by omega : 0 < bw)
  have hbhq : (0 : ℚ) < bh := by exact_mod_cast (by omega : 0 < bh)
  have hbh3 : (bh : ℚ) ≤ 32768 := by exact_mod_cast hbh2
  have hint : ∀ n : Int, 1 ≤ n → n ≤ 32768 → toFloat (n : ℚ) = n := fun n h1 h2 =>
    toFloat_intCast n (by rw [abs_of_nonneg (by omega)]; omega)
  have hval : adjustPictureSizeRounded ⟨w, h⟩ ⟨bw, bh⟩ true =
      ⟨truncToInt (getPictureMinSizeRounded ⟨w, h⟩ ⟨bw, bh⟩).x,
        truncToInt (getPictureMinSizeRounded ⟨w, h⟩ ⟨bw, bh⟩).y⟩ := by
    simp only [adjustPictureSizeRounded, if_true, hint w hw hw2, hint h hh hh2,
      hint bw hbw hbw2, hint bh hbh hbh2]
  rw [hval]
  obtain ⟨hcase, -⟩ := getPictureMinSizeRounded_cases ⟨w, h⟩ ⟨bw, bh⟩ hwq hhq hbwq hbhq
  simp only at hcase
  rcases hcase with ⟨hx, hy⟩ | ⟨hy, hx⟩
  · left
    refine ⟨?_, ?_⟩
    · show truncToInt (getPictureMinSizeRounded ⟨w, h⟩ ⟨bw, bh⟩).x = bw
      rw [hx, truncToInt_intCast]
    · show bh - 1 ≤ truncToInt (getPictureMinSizeRounded ⟨w, h⟩ ⟨bw, bh⟩).y
      have hlow : ((bh - 1 : Int) : ℚ) ≤ (getPictureMinSizeRounded ⟨w, h⟩ ⟨bw, bh⟩).y := by
        push_cast
        have : (bh : ℚ) * (1 / 2 ^ 22) ≤ 1 := by
          calc (bh : ℚ) * (1 / 2 ^ 22) ≤ 32768 * (1 / 2 ^ 22) :=
                mul_le_mul_of_nonneg_right hbh3 (by norm_num)
            _ ≤ 1 := by norm_num
        linarith
      have hnn : (0 : ℚ) ≤ (getPictureMinSizeRounded ⟨w, h⟩ ⟨bw, bh⟩).y := by
        have : (0 : ℚ) ≤ ((bh - 1 : Int) : ℚ) := by exact_mod_cast (by omega : 0 ≤ bh - 1)
        linarith
      rw [truncToInt_of_nonneg hnn]
      exact Int.le_floor.mpr hlow
  · right
    refine ⟨?_, ?_⟩
    · show truncToInt (getPictureMinSizeRounded ⟨w, h⟩ ⟨bw, bh⟩).y = bh
      rw [hy, truncToInt_intCast]
    · show bw ≤ truncToInt (getPictureMinSizeRounded ⟨w, h⟩ ⟨bw, bh⟩).x
      rw [truncToInt_of_nonneg (le_trans hbwq.le hx)]
      exact Int.le_floor.mpr hx

/-- C4, amended, at a 3x7 image with box 5x4: the cover size is (5, 6116693/524288), a
little below (5, 35/3), truncated to (5,11). -/
theorem getPictureMinSize_covers_witness :
    getPictureMinSizeRounded ⟨3, 7⟩ ⟨5, 4⟩ = ⟨5, 6116693 / 524288⟩ ∧
    adjustPictureSizeRounded ⟨3, 7⟩ ⟨5, 4⟩ true = ⟨5, 11⟩ ∧
    ((((getPictureMinSizeRounded ⟨3, 7⟩ ⟨5, 4⟩).x = 5 ∧
          (4 : ℚ) * (1 - 1 / 2 ^ 22) < (getPictureMinSizeRounded ⟨3, 7⟩ ⟨5, 4⟩).y ∨
        (getPictureMinSizeRounded ⟨3, 7⟩ ⟨5, 4⟩).y = 4 ∧
          (5 : ℚ) ≤ (getPictureMinSizeRounded ⟨3, 7⟩ ⟨5, 4⟩).x) ∧
      |(getPictureMinSizeRounded ⟨3, 7⟩ ⟨5, 4⟩).x * 7 -
          (getPictureMinSizeRounded ⟨3, 7⟩ ⟨5, 4⟩).y * 3| * 2 ^ 22 ≤
        (getPictureMinSizeRounded ⟨3, 7⟩ ⟨5, 4⟩).x * 7) ∧
    ((adjustPictureSizeRounded ⟨3, 7⟩ ⟨5, 4⟩ true).x = 5 ∧
        (4 : Int) - 1 ≤ (adjustPictureSizeRounded ⟨3, 7⟩ ⟨5, 4⟩ true).y ∨
      (adjustPictureSizeRounded ⟨3, 7⟩ ⟨5, 4⟩ true).y = 4 ∧
        (5 : Int) ≤ (adjustPictureSizeRounded ⟨3, 7⟩ ⟨5, 4⟩ true).x)) := by
  have h1 : toFloat (5 / 3) =
      13981013 / 8388608 := by
    unfold toFloat
    rw [roundNE_eval 24 (5 / 3) (-23) 13981013
      (by norm_num [abs_of_pos]) (by norm_num [abs_of_pos])
      (roundHalfEven_eq _ _ (by norm_num [abs_lt]))]
    norm_num
  have h2 : toFloat (4 / 7) =
      9586981 / 16777216 := by
    unfold toFloat
    rw [roundNE_eval 24 (4 / 7) (-24) 9586981
      (by norm_num [abs_of_pos]) (by norm_num [abs_of_pos])
      (roundHalfEven_eq _ _ (by norm_num [abs_lt]))]
    norm_num
  have h3 : toFloat (28760943 / 16777216) =
      1797559 / 1048576 := by
    unfold toFloat
    rw [roundNE_eval 24 (28760943 / 16777216) (-23) 14380472
      (by norm_num [abs_of_pos]) (by norm_num [abs_of_pos])
      (by
      have h := roundHalfEven_tie_up 14380471 (by norm_num)
      norm_num at h ⊢
      exact h)]
    norm_num
  have h4 : toFloat (97867091 / 8388608) =
      6116693 / 524288 := by
    unfold toFloat
    rw [roundNE_eval 24 (97867091 / 8388608) (-20) 12233386
      (by norm_num [abs_of_pos]) (by norm_num [abs_of_pos])
      (roundHalfEven_eq _ _ (by norm_num [abs_lt]))]
    norm_num
  have i1 : ∀ n : Int, |n| ≤ 2 ^ 24 → toFloat (n : ℚ) = n := toFloat_intCast
  have i3 : toFloat 3 = 3 := by
    have h := i1 3 (by norm_num)
    norm_num at h
    exact h
  have i4 : toFloat 4 = 4 := by
    have h := i1 4 (by norm_num)
    norm_num at h
    exact h
  have i5 : toFloat 5 = 5 := by
    have h := i1 5 (by norm_num)
    norm_num at h
    exact h
  have i7 : toFloat 7 = 7 := by
    have h := i1 7 (by norm_num)
    norm_num at h
    exact h
  refine ⟨?_, ?_, getPictureMinSize_covers ⟨3, 7⟩ ⟨5, 4⟩ 3 7 5 4 (by norm_num [inFloatRange])
    (by norm_num [inFloatRange]) (by norm_num [inFloatRange]) (by norm_num [inFloatRange])
    (by decide) (by decide) (by decide) (by decide) (by decide) (by decide) (by decide)
    (by decide)⟩
  · norm_num [getPictureMinSizeRounded, h1, h2, h3, h4]
  · norm_num [adjustPictureSizeRounded, getPictureMinSizeRounded, truncToInt, i3, i4, i5, i7,
      h1, h2, h3, h4]

/-! ## The size cache -/

theorem cacheFind_cacheSet_self (c : SizeCache) (fn : String) (fi : CachedFileInfo) :
    cacheFind (cacheSet c fn fi) fn = some fi := by
  induction c with
  | nil => simp [cacheSet, cacheFind]
  | cons p rest ih =>
    obtain ⟨k, v⟩ := p
    unfold cacheSet
    by_cases h1 : fn = k
    · simp [h1, cacheFind]
    · by_cases h2 : fn < k
      · simp [h1, h2, cacheFind]
      · simp [h1, h2, cacheFind, ih]

theorem updateImageCache_miss (st : State) (fn : String) (sz x y : Int)
    (hmiss : cacheFind st.sizeCache fn = none) :
    cacheFind (updateImageCache st fn sz x y).sizeCache fn = some ⟨sz, x, y⟩ := by
  simp only [updateImageCache, hmiss]
  exact cacheFind_cacheSet_self _ _ _

/-! ## The marker scan returns -/

theorem freadBytes_length (f : FileData) (pos count : Nat) :
    (freadBytes f pos count).length = min count (f.bytes.length - pos) := by
  simp [freadBytes]

theorem scanLoop_returns (f : FileData) :
    ∀ (fuel : Nat) (buf : Buf) (pos : Nat) (ops : List FileOp),
      1 ≤ fuel → f.bytes.length ≤ pos + fuel + 10 →
      ∃ r, scanLoop f fuel buf pos ops = some r := by
  intro fuel
  induction fuel with
  | zero => intro buf pos ops h; omega
  | succ n ih =>
    intro buf pos ops _ hlen
    unfold scanLoop
    by_cases h2 : (buf 2 == 0xFF) = true
    · simp only [h2, if_true]
      by_cases h3 : isSOF (buf 3) = true
      · simp [h3]
      · simp only [h3, Bool.false_eq_true, if_false]
        by_cases h4 : f.seekOk (pos + (2 + ((buf 4).val <<< 8) + (buf 5).val)) = false
        · simp [h4]
        · simp only [h4, if_false]
          by_cases h5 : (freadBytes f (pos + (2 + ((buf 4).val <<< 8) + (buf 5).val)) 12).length ≠ 12
          · simp [h5]
          · simp only [h5, if_false]
            have h6 := freadBytes_length f (pos + (2 + ((buf 4).val <<< 8) + (buf 5).val)) 12
            push_neg at h5
            apply ih
            · omega
            · omega
    · simp [h2]

theorem jpegScan_returns (f : FileData) (buf : Buf) (hlen : 24 ≤ f.bytes.length) :
    ∃ r, jpegScan f buf = some r := by
  unfold jpegScan
  by_cases h : isJfifHeader buf = true
  · obtain ⟨r, hr⟩ := scanLoop_returns f f.bytes.length buf 2 [] (by omega) (by omega)
    simp [h, hr]
  · simp [h]

/-! ## C5 - C6: the probe and the size cache -/

theorem extractSize_entry (st : State) (fn : String) (size : Int) (jfif : Bool) (buf : Buf)
    (x y : Nat) (ops : List FileOp) (hmiss : cacheFind st.sizeCache fn = none) :
    ((extractSize st fn size jfif buf x y ops).ret = false →
      cacheFind (extractSize st fn size jfif buf x y ops).state.sizeCache fn =
        some ⟨-1, -1, -1⟩) ∧
    ((extractSize st fn size jfif buf x y ops).ret = true →
      cacheFind (extractSize st fn size jfif buf x y ops).state.sizeCache fn =
        some ⟨size, toInt32 (extractSize st fn size jfif buf x y ops).x,
          toInt32 (extractSize st fn size jfif buf x y ops).y⟩) := by
  simp only [extractSize]
  split_ifs <;> simp [updateImageCache_miss, hmiss]

/-- C5 as stated fails: a path with an unsupported extension is rejected (the probe
returns false) and the cache still holds no entry for it. -/
theorem loadImageSize_unsupported_no_entry :
    loadImageSize (oneFile ".txt" nineBytes) emptyState "a.txt" 0 0 =
      some ⟨false, 0, 0, emptyState, [FileOp.getExtension "a.txt"]⟩ ∧
    cacheFind emptyState.sizeCache "a.txt" = none := by
  decide

/-- C5, amended. For every path that has no entry in the size cache, `loadImageSize`
returns, and
* if the extension is one of .jpg, .png, .jpeg, .gif, the cache then holds an entry for
  the path: the sentinel (-1,-1,-1) whenever it returned false, and (file byte size,
  width, height) with the returned dimensions, as `int`, whenever it returned true;
* if the extension is any other, it returns false and leaves the cache as it was. -/
theorem loadImageSize_records_entry (fs : FileSystem) (st : State) (fn : String) (x y : Nat)
    (hmiss : cacheFind st.sizeCache fn = none) :
    ∃ r, loadImageSize fs st fn x y = some r ∧
      ((fs.lowerExtension fn = ".jpg" ∨ fs.lowerExtension fn = ".png" ∨
          fs.lowerExtension fn = ".jpeg" ∨ fs.lowerExtension fn = ".gif") →
        (r.ret = false → cacheFind r.state.sizeCache fn = some ⟨-1, -1, -1⟩) ∧
        (r.ret = true → cacheFind r.state.sizeCache fn =
          some ⟨fs.getFileSize fn, toInt32 r.x, toInt32 r.y⟩)) ∧
      (¬ (fs.lowerExtension fn = ".jpg" ∨ fs.lowerExtension fn = ".png" ∨
          fs.lowerExtension fn = ".jpeg" ∨ fs.lowerExtension fn = ".gif") →
        r.ret = false ∧ r.state = st) := by
  unfold loadImageSize
  simp only [hmiss]
  by_cases hext : fs.lowerExtension fn ≠ ".jpg" ∧ fs.lowerExtension fn ≠ ".png" ∧
      fs.lowerExtension fn ≠ ".jpeg" ∧ fs.lowerExtension fn ≠ ".gif"
  · rw [if_pos hext]
    refine ⟨_, rfl, ?_, ?_⟩
    · intro h
      obtain ⟨h1, h2, h3, h4⟩ := hext
      rcases h with h | h | h | h <;> contradiction
    · intro _
      exact ⟨rfl, rfl⟩
  · rw [if_neg hext]
    have hsup : fs.lowerExtension fn = ".jpg" ∨ fs.lowerExtension fn = ".png" ∨
        fs.lowerExtension fn = ".jpeg" ∨ fs.lowerExtension fn = ".gif" := by
      by_contra hno
      push_neg at hno
      exact hext hno
    cases hopen : fs.fopen fn with
    | none =>
      refine ⟨_, rfl, ?_, fun hno => absurd hsup hno⟩
      intro _
      simp [updateImageCache_miss, hmiss]
    | some f =>
      simp only []
      by_cases hlen : (freadBytes f 0 24).length ≠ 24
      · rw [if_pos hlen]
        refine ⟨_, rfl, ?_, fun hno => absurd hsup hno⟩
        intro _
        simp [updateImageCache_miss, hmiss]
      · rw [if_neg hlen]
        have hlen24 : 24 ≤ f.bytes.length := by
          have := freadBytes_length f 0 24
          push_neg at hlen
          omega
        obtain ⟨⟨jfif, buf, ops⟩, hscan⟩ := jpegScan_returns f (firstRead f) hlen24
        rw [hscan]
        refine ⟨_, rfl, ?_, fun hno => absurd hsup hno⟩
        intro _
        exact extractSize_entry st fn _ jfif buf x y _ hmiss

/-- C5, amended, the scenario of the design document: probing a truncated file of 9
bytes returns false and records a negative entry. -/
theorem loadImageSize_records_entry_witness :
    ∃ r, loadImageSize (oneFile ".png" nineBytes) emptyState "a.png" 0 0 = some r ∧
      r.ret = false ∧ cacheFind r.state.sizeCache "a.png" = some ⟨-1, -1, -1⟩ := by
  obtain ⟨r, hr, hsup, -⟩ :=
    loadImageSize_records_entry (oneFile ".png" nineBytes) emptyState "a.png" 0 0 (by decide)
  have hret : r.ret = false := by
    have hval : (loadImageSize (oneFile ".png" nineBytes) emptyState "a.png" 0 0).map
        (fun r => r.ret) = some false := by decide
    rw [hr] at hval
    simpa using hval
  exact ⟨r, hr, hret, (hsup (Or.inr (Or.inl rfl))).1 hret⟩

theorem toUInt32_of_range (i : Int) (h0 : 0 ≤ i) (h1 : i < 2 ^ 32) :
    ((toUInt32 i : Nat) : Int) = i := by
  unfold toUInt32
  rw [Int.emod_eq_of_lt h0 h1]
  exact Int.toNat_of_nonneg h0

/-- C6. For every path that already has an entry in the size cache, `loadImageSize`
short-circuits: it makes no call to the file system (no extension check, no read), leaves
the static variables unchanged, and returns false if the cached byteSize is negative,
otherwise true with the cached width and height stored into the `unsigned int` outputs
(exactly the cached values whenever these are in the range of `unsigned int`). -/
theorem loadImageSize_cached (fs : FileSystem) (st : State) (fn : String) (x y : Nat)
    (it : CachedFileInfo) (hhit : cacheFind st.sizeCache fn = some it) :
    ∃ r, loadImageSize fs st fn x y = some r ∧ r.ops = [] ∧ r.state = st ∧
      (it.size < 0 → r.ret = false ∧ r.x = x ∧ r.y = y) ∧
      (0 ≤ it.size → r.ret = true ∧ r.x = toUInt32 it.x ∧ r.y = toUInt32 it.y ∧
        (0 ≤ it.x → it.x < 2 ^ 32 → (r.x : Int) = it.x) ∧
        (0 ≤ it.y → it.y < 2 ^ 32 → (r.y : Int) = it.y)) := by
  unfold loadImageSize
  simp only [hhit]
  by_cases hneg : it.size < 0
  · rw [if_pos hneg]
    refine ⟨_, rfl, rfl, rfl, fun _ => ⟨rfl, rfl, rfl⟩, fun h => ?_⟩
    omega
  · rw [if_neg hneg]
    refine ⟨_, rfl, rfl, rfl, fun h => absurd h hneg, fun _ => ⟨rfl, rfl, rfl, ?_, ?_⟩⟩
    · exact fun h0 h1 => toUInt32_of_range _ h0 h1
    · exact fun h0 h1 => toUInt32_of_range _ h0 h1

/-- C6, the scenario of the design document: the first probe of a truncated file of 9
bytes leaves a negative entry, and the second probe of the same path returns false
without any call to the file system and without changing the cache. -/
theorem loadImageSize_cached_witness :
    (loadImageSize (oneFile ".png" nineBytes) emptyState "a.png" 0 0).map (fun r => r.state) =
      some ⟨[("a.png", ⟨-1, -1, -1⟩)], false⟩ ∧
    ∃ r, loadImageSize (oneFile ".png" nineBytes) ⟨[("a.png", ⟨-1, -1, -1⟩)], false⟩ "a.png" 0 0 =
        some r ∧ r.ret = false ∧ r.ops = [] ∧ r.state = ⟨[("a.png", ⟨-1, -1, -1⟩)], false⟩ := by
  refine ⟨by decide, ?_⟩
  obtain ⟨r, hr, hops, hst, hneg, -⟩ :=
    loadImageSize_cached (oneFile ".png" nineBytes) ⟨[("a.png", ⟨-1, -1, -1⟩)], false⟩ "a.png" 0 0
      ⟨-1, -1, -1⟩ (by decide)
  exact ⟨r, hr, (hneg (by decide)).1, hops, hst⟩

/-! ## C7 - C10: the dimensions read from the file -/

theorem store_below (buf : Buf) (off : Nat) (data : List Byte) (i : Nat) (h : i < off) :
    store buf off data i = buf i := by
  unfold store
  rw [if_neg]
  omega

theorem store_at (buf : Buf) (off : Nat) (data : List Byte) (j : Nat) (h : j < data.length) :
    store buf off data (off + j) = data.getD j 0 := by
  unfold store
  rw [if_pos (by omega)]
  congr 1
  omega

theorem freadBytes_getD (f : FileData) (pos count j : Nat) (hj : j < count) :
    (freadBytes f pos count).getD j 0 = byteAt f.bytes (pos + j) := by
  unfold freadBytes byteAt
  rw [List.getD_eq_getElem?_getD, List.getD_eq_getElem?_getD, List.getElem?_take_of_lt hj,
    List.getElem?_drop]

theorem firstRead_eq (f : FileData) (i : Nat) (hi : i < 24) (hlen : 24 ≤ f.bytes.length) :
    firstRead f i = byteAt f.bytes i := by
  unfold firstRead
  have hl : (freadBytes f 0 24).length = 24 := by
    rw [freadBytes_length]; omega
  have h1 := store_at (fun _ => 0) 0 (freadBytes f 0 24) i (by omega)
  rw [Nat.zero_add] at h1
  rw [h1, freadBytes_getD f 0 24 i hi, Nat.zero_add]

theorem isJfifHeader_congr (b1 b2 : Buf) (h : ∀ i, i < 24 → b1 i = b2 i) :
    isJfifHeader b1 = isJfifHeader b2 := by
  unfold isJfifHeader
  rw [h 0 (by omega), h 1 (by omega), h 2 (by omega), h 3 (by omega), h 6 (by omega),
    h 7 (by omega), h 8 (by omega), h 9 (by omega)]

theorem walkToSOF_ge (bytes : List Byte) :
    ∀ (n pos p : Nat), walkToSOF bytes n pos = some p → pos ≤ p := by
  intro n
  induction n with
  | zero => intro pos p h; simp [walkToSOF] at h
  | succ n ih =>
    intro pos p h
    unfold walkToSOF at h
    split_ifs at h with h1 h2
    · simp at h; omega
    · have := ih _ _ h
      omega

theorem walkToSOF_reached (bytes : List Byte) :
    ∀ (n pos p : Nat), walkToSOF bytes n pos = some p →
      byteAt bytes p = 0xFF ∧ isSOF (byteAt bytes (p + 1)) = true := by
  intro n
  induction n with
  | zero => intro pos p h; simp [walkToSOF] at h
  | succ n ih =>
    intro pos p h
    unfold walkToSOF at h
    split_ifs at h with h1 h2
    · simp at h
      subst h
      exact ⟨h1, h2⟩
    · exact ih _ _ h

theorem be16_eq_zero (hi lo : Byte) (h : be16 hi lo = 0) : hi = 0 := by
  unfold be16 at h
  apply Fin.ext
  simp only [Fin.val_zero]
  omega

theorem walkToSOF_here_or_far (bytes : List Byte) (n pos p : Nat)
    (h : walkToSOF bytes n pos = some p) : p = pos ∨ pos + 3 ≤ p := by
  cases n with
  | zero => simp [walkToSOF] at h
  | succ m =>
    unfold walkToSOF at h
    split_ifs at h with h1 h2
    · simp at h; exact Or.inl h.symm
    · right
      have hge := walkToSOF_ge bytes _ _ _ h
      by_cases hz : be16 (byteAt bytes (pos + 2)) (byteAt bytes (pos + 3)) = 0
      · have hb := be16_eq_zero _ _ hz
        rw [hz] at h
        cases m with
        | zero => simp [walkToSOF] at h
        | succ k =>
          unfold walkToSOF at h
          rw [Nat.add_zero, hb] at h
          simp at h
      · omega

theorem scanLoop_reaches (f : FileData) (hseek : ∀ q, f.seekOk q = true) :
    ∀ (n fuel : Nat) (buf : Buf) (pos : Nat) (ops : List FileOp) (p : Nat),
      (∀ j, j < 9 → buf (2 + j) = byteAt f.bytes (pos + j)) →
      walkToSOF f.bytes n pos = some p → p + 9 ≤ f.bytes.length →
      1 ≤ fuel → f.bytes.length ≤ pos + fuel + 10 →
      ∃ buf1 ops1, scanLoop f fuel buf pos ops = some (buf1, ops1) ∧
        buf1 0 = buf 0 ∧ buf1 1 = buf 1 ∧
        ∀ j, j < 9 → buf1 (2 + j) = byteAt f.bytes (p + j) := by
  intro n
  induction n with
  | zero => intro fuel buf pos ops p _ h; simp [walkToSOF] at h
  | succ n ih =>
    intro fuel buf pos ops p hbuf hwalk hp hfuel hlen
    obtain ⟨k, rfl⟩ : ∃ k, fuel = k + 1 := ⟨fuel - 1, by omega⟩
    have hb2 : buf 2 = byteAt f.bytes pos := hbuf 0 (by omega)
    have hb3 : buf 3 = byteAt f.bytes (pos + 1) := hbuf 1 (by omega)
    have hb4 : buf 4 = byteAt f.bytes (pos + 2) := hbuf 2 (by omega)
    have hb5 : buf 5 = byteAt f.bytes (pos + 3) := hbuf 3 (by omega)
    unfold walkToSOF at hwalk
    unfold scanLoop
    split_ifs at hwalk with h1 h2
    · simp only [Option.some.injEq] at hwalk
      subst hwalk
      refine ⟨buf, ops, ?_, rfl, rfl, hbuf⟩
      simp [hb2, hb3, h1, h2]
    · have hpos : pos + (2 + ((buf 4).val <<< 8) + (buf 5).val) =
          pos + 2 + be16 (byteAt f.bytes (pos + 2)) (byteAt f.bytes (pos + 3)) := by
        rw [hb4, hb5, Nat.shiftLeft_eq]
        unfold be16
        omega
      have hge := walkToSOF_ge f.bytes _ _ _ hwalk
      have hfar := walkToSOF_here_or_far f.bytes _ _ _ hwalk
      rw [← hpos] at hwalk hge hfar
      generalize pos + (2 + ((buf 4).val <<< 8) + (buf 5).val) = pos1 at hwalk hge hfar hpos
      have hpos1 : pos + 2 ≤ pos1 := by omega
      have hdl := freadBytes_length f pos1 12
      have hstore : ∀ j, j < 9 →
          store buf 2 (freadBytes f pos1 12) (2 + j) = byteAt f.bytes (pos1 + j) := by
        intro j hj
        rw [store_at _ _ _ _ (by omega), freadBytes_getD f pos1 12 j (by omega)]
      by_cases hfull : (freadBytes f pos1 12).length = 12
      · obtain ⟨buf1, ops1, hs, h0, h1', hall⟩ :=
          ih k (store buf 2 (freadBytes f pos1 12)) pos1
            (ops ++ [FileOp.fseek pos1, FileOp.fread 12]) p hstore hwalk hp
            (by omega) (by omega)
        refine ⟨buf1, ops1, ?_, ?_, ?_, hall⟩
        · simp [hb2, hb3, h1, h2, hseek, hfull, hs]
        · rw [h0, store_below _ _ _ _ (by omega)]
        · rw [h1', store_below _ _ _ _ (by omega)]
      · have hpeq : p = pos1 := by omega
        subst hpeq
        refine ⟨store buf 2 (freadBytes f p 12),
          ops ++ [FileOp.fseek p, FileOp.fread 12], ?_, ?_, ?_, hstore⟩
        · simp [hb2, hb3, h1, h2, hseek, hfull]
        · rw [store_below _ _ _ _ (by omega)]
        · rw [store_below _ _ _ _ (by omega)]

theorem loadImageSize_scanned (fs : FileSystem) (st : State) (fn : String) (x y : Nat)
    (f : FileData) (jfif : Bool) (buf : Buf) (ops : List FileOp)
    (hmiss : cacheFind st.sizeCache fn = none)
    (hext : fs.lowerExtension fn = ".jpg" ∨ fs.lowerExtension fn = ".png" ∨
      fs.lowerExtension fn = ".jpeg" ∨ fs.lowerExtension fn = ".gif")
    (hopen : fs.fopen fn = some f) (hlen : 24 ≤ f.bytes.length)
    (hscan : jpegScan f (firstRead f) = some (jfif, buf, ops)) :
    loadImageSize fs st fn x y =
      some (extractSize st fn (fs.getFileSize fn) jfif buf x y
        ([FileOp.getExtension fn, FileOp.getFileSize fn, FileOp.fopen fn] ++
          [FileOp.fread 24] ++ ops ++ [FileOp.fclose])) := by
  have hguard : ¬ (fs.lowerExtension fn ≠ ".jpg" ∧ fs.lowerExtension fn ≠ ".png" ∧
      fs.lowerExtension fn ≠ ".jpeg" ∧ fs.lowerExtension fn ≠ ".gif") := by
    rintro ⟨h1, h2, h3, h4⟩
    rcases hext with h | h | h | h <;> contradiction
  have hl : (freadBytes f 0 24).length = 24 := by
    rw [freadBytes_length]; omega
  unfold loadImageSize
  simp only [hmiss, if_neg hguard, hopen, hl, ne_eq, not_true_eq_false, if_false, hscan]

/-- C7 as stated fails: a JFIF file of 19 bytes whose walk reaches, at offset 10, a
Start-Of-Frame segment with height 16 and width 32 is reported as a failure, since its
first 24 bytes cannot be read. -/
theorem loadImageSize_short_jfif_fails :
    isJfifHeader (byteAt shortJfif) = true ∧
    walkToSOF shortJfif 2 2 = some 10 ∧
    be16 (byteAt shortJfif 15) (byteAt shortJfif 16) = 16 ∧
    be16 (byteAt shortJfif 17) (byteAt shortJfif 18) = 32 ∧
    (loadImageSize (oneFile ".jpg" shortJfif) emptyState "a.jpg" 0 0).map
      (fun r => (r.ret, r.x, r.y)) = some (false, 0, 0) := by
  decide

/-- C7, amended. For every uncached file of at least 24 bytes, with a supported extension
and on which every seek succeeds, that starts with FF D8 FF E0 + 'JFIF' at offset 6 (or
FF D8 FF E1 + 'Exif'): if walking the marker segments from offset 2, advancing by 2 plus
the big-endian 16-bit segment length each step, reaches a segment whose marker byte is one
of C0, C1, C2, C3, C9, CA, CB and whose bytes 0..8 lie within the file, then
`loadImageSize` reports height = the big-endian 16-bit value at bytes 5..6 of that
segment and width = the big-endian 16-bit value at bytes 7..8 of that segment, and
returns true provided the width is at most 5000. -/
theorem loadImageSize_jpeg_dimensions (fs : FileSystem) (st : State) (fn : String)
    (x y : Nat) (f : FileData) (n p : Nat)
    (hmiss : cacheFind st.sizeCache fn = none)
    (hext : fs.lowerExtension fn = ".jpg" ∨ fs.lowerExtension fn = ".png" ∨
      fs.lowerExtension fn = ".jpeg" ∨ fs.lowerExtension fn = ".gif")
    (hopen : fs.fopen fn = some f) (hseek : ∀ q, f.seekOk q = true)
    (hlen : 24 ≤ f.bytes.length)
    (hsig : isJfifHeader (byteAt f.bytes) = true)
    (hwalk : walkToSOF f.bytes n 2 = some p)
    (hhdr : p + 9 ≤ f.bytes.length) :
    ∃ r, loadImageSize fs st fn x y = some r ∧
      r.y = be16 (byteAt f.bytes (p + 5)) (byteAt f.bytes (p + 6)) ∧
      r.x = be16 (byteAt f.bytes (p + 7)) (byteAt f.bytes (p + 8)) ∧
      (be16 (byteAt f.bytes (p + 7)) (byteAt f.bytes (p + 8)) ≤ 5000 → r.ret = true) := by
  have hsig1 : isJfifHeader (firstRead f) = true := by
    rw [isJfifHeader_congr (firstRead f) (byteAt f.bytes)
      (fun i hi => firstRead_eq f i hi hlen)]
    exact hsig
  obtain ⟨buf1, ops1, hs, h0, h1, hall⟩ :=
    scanLoop_reaches f hseek n f.bytes.length (firstRead f) 2 [] p
      (fun j hj => firstRead_eq f (2 + j) (by omega) hlen) hwalk hhdr (by omega) (by omega)
  have hscan : jpegScan f (firstRead f) = some (true, buf1, ops1) := by
    unfold jpegScan
    simp [hsig1, hs]
  obtain ⟨hpFF, -⟩ := walkToSOF_reached f.bytes n 2 p hwalk
  have hb0 : buf1 0 = 0xFF := by
    rw [h0, firstRead_eq f 0 (by omega) hlen]
    unfold isJfifHeader at hsig
    simp only [Bool.or_eq_true, Bool.and_eq_true, beq_iff_eq] at hsig
    rcases hsig with h | h <;> exact h.1.1.1.1.1.1.1
  have hb1 : buf1 1 = 0xD8 := by
    rw [h1, firstRead_eq f 1 (by omega) hlen]
    unfold isJfifHeader at hsig
    simp only [Bool.or_eq_true, Bool.and_eq_true, beq_iff_eq] at hsig
    rcases hsig with h | h <;> exact h.1.1.1.1.1.1.2
  have hb2 : buf1 2 = 0xFF := by
    rw [hall 0 (by omega)]; exact hpFF
  have hb7 : buf1 7 = byteAt f.bytes (p + 5) := hall 5 (by omega)
  have hb8 : buf1 8 = byteAt f.bytes (p + 6) := hall 6 (by omega)
  have hb9 : buf1 9 = byteAt f.bytes (p + 7) := hall 7 (by omega)
  have hb10 : buf1 10 = byteAt f.bytes (p + 8) := hall 8 (by omega)
  rw [loadImageSize_scanned fs st fn x y f true buf1 ops1 hmiss hext hopen hlen hscan]
  refine ⟨_, rfl, ?_, ?_, ?_⟩
  · simp only [extractSize, hb0, hb1, hb2, hb7, hb8, hb9, hb10, be16, Nat.shiftLeft_eq]
    split_ifs <;> simp_all
  · simp only [extractSize, hb0, hb1, hb2, hb7, hb8, hb9, hb10, be16, Nat.shiftLeft_eq]
    split_ifs <;> simp_all
  · intro hw
    simp only [extractSize, hb0, hb1, hb2, hb7, hb8, hb9, hb10, be16, Nat.shiftLeft_eq] at hw ⊢
    split_ifs <;> simp_all
    omega

/-- C7, amended, at a JFIF file of 32 bytes whose Start-Of-Frame segment, at offset 10,
holds height 16 and width 32. -/
theorem loadImageSize_jpeg_dimensions_witness :
    ∃ r, loadImageSize (oneFile ".jpg" (jfifWith 0x00 0x10 0x00 0x20)) emptyState "a.jpg" 0 0 =
        some r ∧ r.ret = true ∧ r.x = 32 ∧ r.y = 16 := by
  obtain ⟨r, hr, hy, hx, hret⟩ :=
    loadImageSize_jpeg_dimensions (oneFile ".jpg" (jfifWith 0x00 0x10 0x00 0x20)) emptyState
      "a.jpg" 0 0 ⟨jfifWith 0x00 0x10 0x00 0x20, fun _ => true⟩ 2 10 (by decide)
      (Or.inl rfl) rfl (fun _ => rfl) (by decide) (by decide) (by decide) (by decide)
  exact ⟨r, hr, hret (by decide), hx, hy⟩

theorem jpegScan_not_jfif (f : FileData) (hlen : 24 ≤ f.bytes.length)
    (h0 : byteAt f.bytes 0 ≠ 0xFF) :
    jpegScan f (firstRead f) = some (false, firstRead f, []) := by
  have hb0 : firstRead f 0 ≠ 0xFF := by
    rw [firstRead_eq f 0 (by omega) hlen]; exact h0
  unfold jpegScan isJfifHeader
  simp [hb0]

/-- C8. For every uncached file with a supported extension and at least 24 bytes whose
first 8 bytes are the PNG signature 89 50 4E 47 0D 0A 1A 0A and whose bytes 12..15 are
'IHDR', `loadImageSize` returns true with width = the big-endian unsigned 32-bit value of
bytes 16..19 and height = the big-endian unsigned 32-bit value of bytes 20..23. -/
theorem loadImageSize_png_dimensions (fs : FileSystem) (st : State) (fn : String)
    (x y : Nat) (f : FileData)
    (hmiss : cacheFind st.sizeCache fn = none)
    (hext : fs.lowerExtension fn = ".jpg" ∨ fs.lowerExtension fn = ".png" ∨
      fs.lowerExtension fn = ".jpeg" ∨ fs.lowerExtension fn = ".gif")
    (hopen : fs.fopen fn = some f) (hlen : 24 ≤ f.bytes.length)
    (hsig : byteAt f.bytes 0 = 0x89 ∧ byteAt f.bytes 1 = 0x50 ∧ byteAt f.bytes 2 = 0x4E ∧
      byteAt f.bytes 3 = 0x47 ∧ byteAt f.bytes 4 = 0x0D ∧ byteAt f.bytes 5 = 0x0A ∧
      byteAt f.bytes 6 = 0x1A ∧ byteAt f.bytes 7 = 0x0A)
    (hihdr : byteAt f.bytes 12 = ch 'I' ∧ byteAt f.bytes 13 = ch 'H' ∧
      byteAt f.bytes 14 = ch 'D' ∧ byteAt f.bytes 15 = ch 'R') :
    ∃ r, loadImageSize fs st fn x y = some r ∧ r.ret = true ∧
      r.x = be32 (byteAt f.bytes 16) (byteAt f.bytes 17) (byteAt f.bytes 18)
        (byteAt f.bytes 19) ∧
      r.y = be32 (byteAt f.bytes 20) (byteAt f.bytes 21) (byteAt f.bytes 22)
        (byteAt f.bytes 23) := by
  obtain ⟨s0, s1, s2, s3, s4, s5, s6, s7⟩ := hsig
  obtain ⟨i0, i1, i2, i3⟩ := hihdr
  have hscan := jpegScan_not_jfif f hlen (by rw [s0]; decide)
  rw [loadImageSize_scanned fs st fn x y f false (firstRead f) [] hmiss hext hopen hlen hscan]
  have e : ∀ i, i < 24 → firstRead f i = byteAt f.bytes i :=
    fun i hi => firstRead_eq f i hi hlen
  have hx : ((byteAt f.bytes 16).val <<< 24 + (byteAt f.bytes 17).val <<< 16 +
      (byteAt f.bytes 18).val <<< 8 + (byteAt f.bytes 19).val) % 4294967296 =
      be32 (byteAt f.bytes 16) (byteAt f.bytes 17) (byteAt f.bytes 18) (byteAt f.bytes 19) := by
    have a := (byteAt f.bytes 16).isLt
    have b := (byteAt f.bytes 17).isLt
    have c := (byteAt f.bytes 18).isLt
    have d := (byteAt f.bytes 19).isLt
    simp only [Nat.shiftLeft_eq, be32]
    norm_num
    omega
  have hy : ((byteAt f.bytes 20).val <<< 24 + (byteAt f.bytes 21).val <<< 16 +
      (byteAt f.bytes 22).val <<< 8 + (byteAt f.bytes 23).val) % 4294967296 =
      be32 (byteAt f.bytes 20) (byteAt f.bytes 21) (byteAt f.bytes 22) (byteAt f.bytes 23) := by
    have a := (byteAt f.bytes 20).isLt
    have b := (byteAt f.bytes 21).isLt
    have c := (byteAt f.bytes 22).isLt
    have d := (byteAt f.bytes 23).isLt
    simp only [Nat.shiftLeft_eq, be32]
    norm_num
    omega
  have cG : ch 'G' = 0x47 := by decide
  have cP : ch 'P' = 0x50 := by decide
  have cN : ch 'N' = 0x4E := by decide
  refine ⟨_, rfl, ?_, ?_, ?_⟩ <;>
    simp [extractSize, e, s0, s1, s2, s3, s4, s5, s6, s7, i0, i1, i2, i3, cG, cP, cN, hx, hy]

/-- C8 at a PNG header with width 0x80000001 and height 3. -/
theorem loadImageSize_png_dimensions_witness :
    ∃ r, loadImageSize (oneFile ".png" pngHeader) emptyState "a.png" 0 0 = some r ∧
      r.ret = true ∧ r.x = 2147483649 ∧ r.y = 3 := by
  obtain ⟨r, hr, hret, hx, hy⟩ :=
    loadImageSize_png_dimensions (oneFile ".png" pngHeader) emptyState "a.png" 0 0
      ⟨pngHeader, fun _ => true⟩ (by decide) (Or.inr (Or.inl rfl)) rfl (by decide)
      (by decide) (by decide)
  exact ⟨r, hr, hret, by rw [hx]; decide, by rw [hy]; decide⟩

/-- C9. For every uncached file with a supported extension and at least 24 bytes whose
first three bytes are 'GIF', `loadImageSize` returns true with width = the little-endian
16-bit value of bytes 6..7 and height = the little-endian 16-bit value of bytes 8..9. -/
theorem loadImageSize_gif_dimensions (fs : FileSystem) (st : State) (fn : String)
    (x y : Nat) (f : FileData)
    (hmiss : cacheFind st.sizeCache fn = none)
    (hext : fs.lowerExtension fn = ".jpg" ∨ fs.lowerExtension fn = ".png" ∨
      fs.lowerExtension fn = ".jpeg" ∨ fs.lowerExtension fn = ".gif")
    (hopen : fs.fopen fn = some f) (hlen : 24 ≤ f.bytes.length)
    (hsig : byteAt f.bytes 0 = ch 'G' ∧ byteAt f.bytes 1 = ch 'I' ∧
      byteAt f.bytes 2 = ch 'F') :
    ∃ r, loadImageSize fs st fn x y = some r ∧ r.ret = true ∧
      r.x = le16 (byteAt f.bytes 6) (byteAt f.bytes 7) ∧
      r.y = le16 (byteAt f.bytes 8) (byteAt f.bytes 9) := by
  obtain ⟨s0, s1, s2⟩ := hsig
  have hscan := jpegScan_not_jfif f hlen (by rw [s0]; decide)
  rw [loadImageSize_scanned fs st fn x y f false (firstRead f) [] hmiss hext hopen hlen hscan]
  have e : ∀ i, i < 24 → firstRead f i = byteAt f.bytes i :=
    fun i hi => firstRead_eq f i hi hlen
  refine ⟨_, rfl, ?_, ?_, ?_⟩ <;>
    simp [extractSize, e, s0, s1, s2, le16, Nat.shiftLeft_eq]

/-- C9 at a GIF header with width 0x0102 and height 0x0304. -/
theorem loadImageSize_gif_dimensions_witness :
    ∃ r, loadImageSize (oneFile ".gif" gifHeader) emptyState "a.gif" 0 0 = some r ∧
      r.ret = true ∧ r.x = 258 ∧ r.y = 772 := by
  obtain ⟨r, hr, hret, hx, hy⟩ :=
    loadImageSize_gif_dimensions (oneFile ".gif" gifHeader) emptyState "a.gif" 0 0
      ⟨gifHeader, fun _ => true⟩ (by decide) (Or.inr (Or.inr (Or.inr rfl))) rfl (by decide)
      (by decide)
  exact ⟨r, hr, hret, by rw [hx]; decide, by rw [hy]; decide⟩

theorem toInt32_of_lt (n : Nat) (h : n < 2 ^ 31) : toInt32 n = (n : Int) := by
  unfold toInt32
  have h1 : n % 2 ^ 32 = n := Nat.mod_eq_of_lt (by omega)
  rw [h1, if_pos h]

/-- C10. Whenever `loadImageSize` on an uncached path reaches its JPEG branch (the scan
ran with the flag `jfif` set and left FF D8 FF in the first three bytes of the buffer),
the width it extracts is the big-endian 16-bit value of `buf[9..10]` and the height that
of `buf[7..8]`; if the width is greater than 5000 the probe returns false and records the
entry (-1,-1,-1) for the path, and if the width is 5000 or less it returns true and
records (file byte size, width, height), whatever the height. -/
theorem loadImageSize_jpeg_width_bound (fs : FileSystem) (st : State) (fn : String)
    (x y : Nat) (f : FileData) (buf : Buf) (ops : List FileOp)
    (hmiss : cacheFind st.sizeCache fn = none)
    (hext : fs.lowerExtension fn = ".jpg" ∨ fs.lowerExtension fn = ".png" ∨
      fs.lowerExtension fn = ".jpeg" ∨ fs.lowerExtension fn = ".gif")
    (hopen : fs.fopen fn = some f) (hlen : 24 ≤ f.bytes.length)
    (hscan : jpegScan f (firstRead f) = some (true, buf, ops))
    (hjpeg : buf 0 = 0xFF ∧ buf 1 = 0xD8 ∧ buf 2 = 0xFF) :
    ∃ r, loadImageSize fs st fn x y = some r ∧
      r.x = be16 (buf 9) (buf 10) ∧ r.y = be16 (buf 7) (buf 8) ∧
      (5000 < be16 (buf 9) (buf 10) →
        r.ret = false ∧ cacheFind r.state.sizeCache fn = some ⟨-1, -1, -1⟩) ∧
      (be16 (buf 9) (buf 10) ≤ 5000 →
        r.ret = true ∧ cacheFind r.state.sizeCache fn =
          some ⟨fs.getFileSize fn, (be16 (buf 9) (buf 10) : Nat), (be16 (buf 7) (buf 8) : Nat)⟩) := by
  obtain ⟨b0, b1, b2⟩ := hjpeg
  rw [loadImageSize_scanned fs st fn x y f true buf ops hmiss hext hopen hlen hscan]
  have hw : (buf 9).val <<< 8 + (buf 10).val = be16 (buf 9) (buf 10) := by
    simp [be16, Nat.shiftLeft_eq]
  have hh : (buf 7).val <<< 8 + (buf 8).val = be16 (buf 7) (buf 8) := by
    simp [be16, Nat.shiftLeft_eq]
  have hhlt : be16 (buf 7) (buf 8) < 2 ^ 31 := by
    have a := (buf 7).isLt
    have b := (buf 8).isLt
    unfold be16
    omega
  simp only [extractSize, b0, b1, b2, hw, hh, beq_self_eq_true, Bool.and_self, if_true]
  by_cases hbig : 5000 < be16 (buf 9) (buf 10)
  · rw [if_pos hbig]
    refine ⟨_, rfl, rfl, rfl, fun _ => ⟨rfl, updateImageCache_miss st fn _ _ _ hmiss⟩, fun hle => ?_⟩
    omega
  · rw [if_neg hbig]
    refine ⟨_, rfl, rfl, rfl, fun h => absurd h hbig, fun _ => ⟨rfl, ?_⟩⟩
    simp only []
    rw [updateImageCache_miss st fn _ _ _ hmiss, toInt32_of_lt _ hhlt,
      toInt32_of_lt _ (by omega)]

/-- C10 at two JFIF files: width 5001 (height 16) is refused and recorded as (-1,-1,-1);
width 5000 with height 65535 is accepted and recorded with the file size 32. -/
theorem loadImageSize_jpeg_width_bound_witness :
    (∃ r, loadImageSize (oneFile ".jpg" (jfifWith 0x00 0x10 0x13 0x89)) emptyState "a.jpg" 0 0 =
        some r ∧ r.x = 5001 ∧ r.ret = false ∧
        cacheFind r.state.sizeCache "a.jpg" = some ⟨-1, -1, -1⟩) ∧
    (∃ r, loadImageSize (oneFile ".jpg" (jfifWith 0xFF 0xFF 0x13 0x88)) emptyState "a.jpg" 0 0 =
        some r ∧ r.x = 5000 ∧ r.y = 65535 ∧ r.ret = true ∧
        cacheFind r.state.sizeCache "a.jpg" = some ⟨32, 5000, 65535⟩) := by
  constructor
  · obtain ⟨r, hr, hx, -, hbig, -⟩ :=
      loadImageSize_jpeg_width_bound (oneFile ".jpg" (jfifWith 0x00 0x10 0x13 0x89)) emptyState
        "a.jpg" 0 0 ⟨jfifWith 0x00 0x10 0x13 0x89, fun _ => true⟩
        (store (firstRead ⟨jfifWith 0x00 0x10 0x13 0x89, fun _ => true⟩) 2
          (freadBytes ⟨jfifWith 0x00 0x10 0x13 0x89, fun _ => true⟩ 10 12))
        [FileOp.fseek 10, FileOp.fread 12]
        (by decide) (Or.inl rfl) rfl (by decide) rfl (by decide)
    exact ⟨r, hr, by rw [hx]; decide, hbig (by decide)⟩
  · obtain ⟨r, hr, hx, hy, -, hsmall⟩ :=
      loadImageSize_jpeg_width_bound (oneFile ".jpg" (jfifWith 0xFF 0xFF 0x13 0x88)) emptyState
        "a.jpg" 0 0 ⟨jfifWith 0xFF 0xFF 0x13 0x88, fun _ => true⟩
        (store (firstRead ⟨jfifWith 0xFF 0xFF 0x13 0x88, fun _ => true⟩) 2
          (freadBytes ⟨jfifWith 0xFF 0xFF 0x13 0x88, fun _ => true⟩ 10 12))
        [FileOp.fseek 10, FileOp.fread 12]
        (by decide) (Or.inl rfl) rfl (by decide) rfl (by decide)
    exact ⟨r, hr, by rw [hx]; decide, by rw [hy]; decide, hsmall (by decide)⟩


/-! ## C11 - C15: the store file of the size cache -/

theorem cacheFind_cacheSet_other (c : SizeCache) (fn k : String) (fi : CachedFileInfo)
    (h : k ≠ fn) : cacheFind (cacheSet c fn fi) k = cacheFind c k := by
  induction c with
  | nil => simp [cacheSet, cacheFind, h]
  | cons p rest ih =>
    obtain ⟨k1, v1⟩ := p
    unfold cacheSet
    by_cases h1 : fn = k1
    · subst h1
      simp [cacheFind, h]
    · by_cases h2 : fn < k1
      · simp [h1, h2, cacheFind, h]
      · simp only [h1, h2, if_false]
        by_cases h3 : k = k1
        · simp [cacheFind, h3]
        · simp [cacheFind, h3, ih]

theorem cacheFind_mem (c : SizeCache) (k : String) (v : CachedFileInfo)
    (h : cacheFind c k = some v) : (k, v) ∈ c := by
  induction c with
  | nil => simp [cacheFind] at h
  | cons p rest ih =>
    obtain ⟨k1, v1⟩ := p
    unfold cacheFind at h
    by_cases h1 : k = k1
    · simp [h1] at h
      simp [h1, h]
    · simp [h1] at h
      exact List.mem_cons_of_mem _ (ih h)

theorem mem_unique (c : SizeCache) (hkeys : (c.map Prod.fst).Nodup) (k : String)
    (v1 v2 : CachedFileInfo) (h1 : (k, v1) ∈ c) (h2 : (k, v2) ∈ c) : v1 = v2 := by
  induction c with
  | nil => simp at h1
  | cons p rest ih =>
    obtain ⟨k0, v0⟩ := p
    simp only [List.map_cons, List.nodup_cons, List.mem_map, Prod.exists, exists_and_right,
      exists_eq_right, not_exists] at hkeys
    simp only [List.mem_cons, Prod.mk.injEq] at h1 h2
    rcases h1 with ⟨rfl, rfl⟩ | h1
    · rcases h2 with ⟨-, rfl⟩ | h2
      · rfl
      · exact absurd h2 (hkeys.1 v2)
    · rcases h2 with ⟨rfl, rfl⟩ | h2
      · exact absurd h1 (hkeys.1 v1)
      · exact ih hkeys.2 h1 h2

theorem foldl_cacheSet_absent (es : List (String × CachedFileInfo)) :
    ∀ (init : SizeCache) (k : String), k ∉ es.map Prod.fst →
      cacheFind (es.foldl (fun c e => cacheSet c e.1 e.2) init) k = cacheFind init k := by
  induction es with
  | nil => intro init k _; rfl
  | cons e rest ih =>
    intro init k hk
    simp only [List.map_cons, List.mem_cons, not_or] at hk
    rw [List.foldl_cons, ih _ _ hk.2, cacheFind_cacheSet_other _ _ _ _ hk.1]

theorem foldl_cacheSet_present (es : List (String × CachedFileInfo)) :
    ∀ (init : SizeCache) (k : String) (v : CachedFileInfo), (es.map Prod.fst).Nodup →
      (k, v) ∈ es →
      cacheFind (es.foldl (fun c e => cacheSet c e.1 e.2) init) k = some v := by
  induction es with
  | nil => intro init k v _ h; simp at h
  | cons e rest ih =>
    intro init k v hnd hmem
    simp only [List.map_cons, List.nodup_cons] at hnd
    rw [List.foldl_cons]
    rcases List.mem_cons.mp hmem with h | h
    · subst h
      rw [foldl_cacheSet_absent rest _ _ hnd.1]
      exact cacheFind_cacheSet_self _ _ _
    · exact ih _ _ _ hnd.2 h

theorem digitChar_plain (d : Nat) (hd : d < 10) :
    digitChar d ≠ '|' ∧ digitChar d ≠ '\n' ∧ digitChar d ≠ '\x00' := by
  interval_cases d <;> decide

theorem natDigits_plain : ∀ (fuel n : Nat) (c : Char), c ∈ natDigits fuel n →
    c ≠ '|' ∧ c ≠ '\n' ∧ c ≠ '\x00' := by
  intro fuel
  induction fuel with
  | zero => intro n c h; simp [natDigits] at h
  | succ k ih =>
    intro n c h
    unfold natDigits at h
    split_ifs at h with hn
    · simp only [List.mem_singleton] at h
      subst h
      exact digitChar_plain n hn
    · rcases List.mem_append.mp h with h | h
      · exact ih _ _ h
      · simp only [List.mem_singleton] at h
        subst h
        exact digitChar_plain _ (Nat.mod_lt _ (by decide))

theorem natDigits_ne_nil (fuel n : Nat) : natDigits (fuel + 1) n ≠ [] := by
  unfold natDigits
  split_ifs <;> simp

theorem to_string_plain (n : Int) : plainField (to_string n).data := by
  unfold to_string plainField
  split_ifs
  · refine ⟨by simp, ?_⟩
    intro c hc
    rcases List.mem_cons.mp hc with h | h
    · subst h; decide
    · exact natDigits_plain _ _ _ h
  · exact ⟨natDigits_ne_nil _ _, fun c hc => natDigits_plain _ _ _ hc⟩

theorem getlinesFrom_line (body : List Char) :
    ∀ (cur rest : List Char), (∀ c ∈ body, c ≠ '\n') →
      getlinesFrom cur (body ++ '\n' :: rest) = (cur ++ body) :: getlinesFrom [] rest := by
  induction body with
  | nil => intro cur rest _; simp [getlinesFrom]
  | cons b bs ih =>
    intro cur rest h
    have hb : b ≠ '\n' := h b (List.mem_cons_self _ _)
    rw [List.cons_append, getlinesFrom, if_neg hb,
      ih _ _ (fun c hc => h c (List.mem_cons_of_mem _ hc))]
    simp

theorem splitFrom_token (tok : List Char) :
    ∀ (cur rest : List Char), (∀ c ∈ tok, c ≠ '|') → cur ++ tok ≠ [] →
      splitFrom cur (tok ++ '|' :: rest) = (cur ++ tok) :: splitFrom [] rest := by
  induction tok with
  | nil =>
    intro cur rest _ hne
    have hcur : cur ≠ [] := by simpa using hne
    simp [splitFrom, hcur]
  | cons b bs ih =>
    intro cur rest h _
    have hb : b ≠ '|' := h b (List.mem_cons_self _ _)
    rw [List.cons_append, splitFrom, if_neg hb,
      ih _ _ (fun c hc => h c (List.mem_cons_of_mem _ hc)) (by simp)]
    simp

theorem splitFrom_last (tok : List Char) :
    ∀ (cur : List Char), (∀ c ∈ tok, c ≠ '|') → cur ++ tok ≠ [] →
      splitFrom cur tok = [cur ++ tok] := by
  induction tok with
  | nil =>
    intro cur _ hne
    have hcur : cur ≠ [] := by simpa using hne
    simp [splitFrom, hcur]
  | cons b bs ih =>
    intro cur h _
    have hb : b ≠ '|' := h b (List.mem_cons_self _ _)
    rw [splitFrom, if_neg hb, ih _ (fun c hc => h c (List.mem_cons_of_mem _ hc)) (by simp)]
    simp

theorem c_str_of_plain (l : List Char) (h : ∀ c ∈ l, c ≠ '\x00') : c_str l = l := by
  unfold c_str
  rw [List.takeWhile_eq_self_iff]
  intro c hc
  simpa using h c hc

theorem splits_record (a b c d : List Char) (ha : plainField a) (hb : plainField b)
    (hc : plainField c) (hd : plainField d) :
    splits (a ++ ['|'] ++ b ++ ['|'] ++ c ++ ['|'] ++ d) = [a, b, c, d] := by
  unfold splits
  rw [c_str_of_plain]
  · simp only [List.append_assoc, List.singleton_append, List.cons_append, List.nil_append]
    rw [splitFrom_token a [] _ (fun x hx => (ha.2 x hx).1) (by simpa using ha.1),
      splitFrom_token b [] _ (fun x hx => (hb.2 x hx).1) (by simpa using hb.1),
      splitFrom_token c [] _ (fun x hx => (hc.2 x hx).1) (by simpa using hc.1),
      splitFrom_last d [] (fun x hx => (hd.2 x hx).1) (by simpa using hd.1)]
    simp
  · intro x hx
    simp only [List.append_assoc, List.mem_append, List.mem_singleton] at hx
    rcases hx with h | h | h | h | h | h | h
    · exact (ha.2 x h).2.2
    · subst h; decide
    · exact (hb.2 x h).2.2
    · subst h; decide
    · exact (hc.2 x h).2.2
    · subst h; decide
    · exact (hd.2 x h).2.2

theorem saveEntry_eq (env : PathEnv) (it : String × CachedFileInfo) :
    saveEntry env it = if isSaved it = true then recordLine env it else [] := by
  unfold saveEntry isSaved recordLine recordFields
  by_cases h1 : it.2.size < 0
  · have h2 : ¬ (0 ≤ it.2.size) := by omega
    simp [h1, h2]
  · have h2 : 0 ≤ it.2.size := by omega
    by_cases h3 : _isCachablePath it.1 = true
    · simp [h1, h2, h3]
    · simp [h1, h2, h3]

theorem flatten_saveEntry (env : PathEnv) (c : SizeCache) :
    (c.map (saveEntry env)).flatten = ((c.filter isSaved).map (recordLine env)).flatten := by
  induction c with
  | nil => rfl
  | cons e rest ih =>
    rw [List.map_cons, List.flatten_cons, ih, saveEntry_eq]
    by_cases h : isSaved e = true
    · simp [List.filter_cons, h]
    · simp [List.filter_cons, h]

theorem getlines_records (env : PathEnv) (es : List (String × CachedFileInfo))
    (hplain : ∀ e ∈ es, plainField (env.createRelativePath e.1).data) :
    getlines ((es.map (recordLine env)).flatten) = es.map (recordFields env) := by
  unfold getlines
  induction es with
  | nil => simp [getlinesFrom]
  | cons e rest ih =>
    have hbody : ∀ c ∈ recordFields env e, c ≠ '\n' := by
      intro c hc
      unfold recordFields at hc
      simp only [List.append_assoc, List.mem_append, List.mem_singleton] at hc
      rcases hc with h | h | h | h | h | h | h
      · exact ((hplain e (List.mem_cons_self _ _)).2 c h).2.1
      · subst h; decide
      · exact ((to_string_plain _).2 c h).2.1
      · subst h; decide
      · exact ((to_string_plain _).2 c h).2.1
      · subst h; decide
      · exact ((to_string_plain _).2 c h).2.1
    have hl : recordLine env e = recordFields env e ++ ['\n'] := rfl
    rw [List.map_cons, List.flatten_cons, List.map_cons, hl,
      List.append_assoc, List.singleton_append, getlinesFrom_line _ _ _ hbody,
      ih (fun e he => hplain e (List.mem_cons_of_mem _ he))]
    simp

theorem loadLine_record (env : PathEnv) (cache : SizeCache) (e : String × CachedFileInfo)
    (hplain : plainField (env.createRelativePath e.1).data)
    (hpath : env.resolveRelativePath (env.createRelativePath e.1) = e.1)
    (hsize : env.toInteger (to_string e.2.size) = e.2.size)
    (hx : env.toInteger (to_string e.2.x) = e.2.x)
    (hy : env.toInteger (to_string e.2.y) = e.2.y) :
    loadLine env cache (recordFields env e) = cacheSet cache e.1 e.2 := by
  unfold loadLine recordFields
  rw [splits_record _ _ _ _ hplain (to_string_plain _) (to_string_plain _) (to_string_plain _)]
  simp only []
  have e0 : String.mk (env.createRelativePath e.1).data = env.createRelativePath e.1 := rfl
  have e1 : String.mk (to_string e.2.size).data = to_string e.2.size := rfl
  have e2 : String.mk (to_string e.2.x).data = to_string e.2.x := rfl
  have e3 : String.mk (to_string e.2.y).data = to_string e.2.y := rfl
  rw [e0, e1, e2, e3, hpath, hsize, hx, hy]

theorem foldl_loadLine_records (env : PathEnv) (es : List (String × CachedFileInfo))
    (hok : ∀ e ∈ es, plainField (env.createRelativePath e.1).data ∧
      env.resolveRelativePath (env.createRelativePath e.1) = e.1 ∧
      env.toInteger (to_string e.2.size) = e.2.size ∧
      env.toInteger (to_string e.2.x) = e.2.x ∧ env.toInteger (to_string e.2.y) = e.2.y) :
    ∀ init : SizeCache, (es.map (recordFields env)).foldl (loadLine env) init =
      es.foldl (fun c e => cacheSet c e.1 e.2) init := by
  induction es with
  | nil => intro init; rfl
  | cons e rest ih =>
    intro init
    obtain ⟨h1, h2, h3, h4, h5⟩ := hok e (List.mem_cons_self _ _)
    rw [List.map_cons, List.foldl_cons, List.foldl_cons, loadLine_record env init e h1 h2 h3 h4 h5,
      ih (fun e he => hok e (List.mem_cons_of_mem _ he))]

/-- C11. Round trip of the store file. For every cache content with the dirty flag set
(the map holding one pair for a key), when the store file opens for writing, every written
relative path is a non-empty C string without '|' or newline, `resolveRelativePath`
inverts `createRelativePath` and `toInteger` reads back what `std::to_string` prints for
the written entries: `saveImageCache` followed by `loadImageCache` into the fresh empty
cache yields every entry whose path is cachable and whose byteSize > 0 with identical
byteSize, width and height, and yields no entry for a path whose entry is not cachable or
has a negative byteSize. -/
theorem saveImageCache_loadImageCache_roundtrip (env : PathEnv) (st : State)
    (file : StoreFile)
    (hdirty : st.sizeCacheDirty = true) (hopen : file.writable = true)
    (hkeys : (st.sizeCache.map Prod.fst).Nodup)
    (hok : ∀ e ∈ st.sizeCache, isSaved e = true →
      plainField (env.createRelativePath e.1).data ∧
      env.resolveRelativePath (env.createRelativePath e.1) = e.1 ∧
      env.toInteger (to_string e.2.size) = e.2.size ∧
      env.toInteger (to_string e.2.x) = e.2.x ∧ env.toInteger (to_string e.2.y) = e.2.y) :
    (∀ p v, cacheFind st.sizeCache p = some v → _isCachablePath p = true → 0 < v.size →
      cacheFind (loadImageCache env emptyState (saveImageCache env st file)).sizeCache p =
        some v) ∧
    (∀ p v, cacheFind st.sizeCache p = some v → (_isCachablePath p = false ∨ v.size < 0) →
      cacheFind (loadImageCache env emptyState (saveImageCache env st file)).sizeCache p =
        none) := by
  have hsaved : ∀ e ∈ st.sizeCache.filter isSaved,
      plainField (env.createRelativePath e.1).data ∧
      env.resolveRelativePath (env.createRelativePath e.1) = e.1 ∧
      env.toInteger (to_string e.2.size) = e.2.size ∧
      env.toInteger (to_string e.2.x) = e.2.x ∧ env.toInteger (to_string e.2.y) = e.2.y := by
    intro e he
    obtain ⟨h1, h2⟩ := List.mem_filter.mp he
    exact hok e h1 h2
  have hload : (loadImageCache env emptyState (saveImageCache env st file)).sizeCache =
      (st.sizeCache.filter isSaved).foldl (fun c e => cacheSet c e.1 e.2) [] := by
    simp only [saveImageCache, hdirty, hopen, loadImageCache, Bool.true_eq_false, if_false]
    rw [flatten_saveEntry, getlines_records env _ (fun e he => (hsaved e he).1),
      foldl_loadLine_records env _ hsaved]
  have hnd : ((st.sizeCache.filter isSaved).map Prod.fst).Nodup :=
    List.Nodup.sublist (List.Sublist.map _ (List.filter_sublist _)) hkeys
  rw [hload]
  constructor
  · intro p v hfind hpath hsize
    apply foldl_cacheSet_present _ _ _ _ hnd
    refine List.mem_filter.mpr ⟨cacheFind_mem _ _ _ hfind, ?_⟩
    simp only [isSaved, hpath, Bool.and_true, decide_eq_true_eq]
    omega
  · intro p v hfind hbad
    rw [foldl_cacheSet_absent]
    · rfl
    · intro hmem
      obtain ⟨⟨p1, v1⟩, he, hp1⟩ := List.mem_map.mp hmem
      simp only at hp1
      subst hp1
      obtain ⟨h1, h2⟩ := List.mem_filter.mp he
      have hv : v1 = v := mem_unique _ hkeys _ _ _ h1 (cacheFind_mem _ _ _ hfind)
      subst hv
      simp only [isSaved, Bool.and_eq_true, decide_eq_true_eq] at h2
      rcases hbad with hb | hb
      · rw [hb] at h2
        exact absurd h2.2 (by decide)
      · omega

/-- C11 at a dirty cache of three entries: after the round trip the cachable entry
(120,64,48) is back, the failed probe and the entry under a path that is not cachable
are gone. -/
theorem saveImageCache_loadImageCache_roundtrip_witness :
    cacheFind (loadImageCache plainEnv emptyState
      (saveImageCache plainEnv mixedState ⟨none, true⟩)).sizeCache savesPath =
        some ⟨120, 64, 48⟩ ∧
    cacheFind (loadImageCache plainEnv emptyState
      (saveImageCache plainEnv mixedState ⟨none, true⟩)).sizeCache "/userdata/roms/b.png" =
        none ∧
    cacheFind (loadImageCache plainEnv emptyState
      (saveImageCache plainEnv mixedState ⟨none, true⟩)).sizeCache
        "/userdata/saves/tmp/emulationstation.tmp/c.png" = none := by
  obtain ⟨hkept, hgone⟩ :=
    saveImageCache_loadImageCache_roundtrip plainEnv mixedState ⟨none, true⟩ rfl rfl
      (by decide) (by decide)
  exact ⟨hkept savesPath ⟨120, 64, 48⟩ (by decide) (by decide) (by decide),
    hgone "/userdata/roms/b.png" ⟨7, 3, 4⟩ (by decide) (Or.inl (by decide)),
    hgone "/userdata/saves/tmp/emulationstation.tmp/c.png" ⟨-1, -1, -1⟩ (by decide)
      (Or.inr (by decide))⟩

/-- C12. `updateImageCache(fn, sz, x, y)` leaves the dirty flag set exactly when it was
set before or all of these hold: the path had no entry or its stored (byteSize, width,
height) differs from (sz, x, y); sz > 0; x > 0; fn is cachable. So the call turns the
flag on only if all of them hold, sets it when they hold, and never clears it. -/
theorem updateImageCache_dirty_flag (st : State) (fn : String) (sz x y : Int) :
    (updateImageCache st fn sz x y).sizeCacheDirty = true ↔
      (st.sizeCacheDirty = true ∨
        ((cacheFind st.sizeCache fn = none ∨
            ∃ it, cacheFind st.sizeCache fn = some it ∧
              (x ≠ it.x ∨ y ≠ it.y ∨ sz ≠ it.size)) ∧
          0 < sz ∧ 0 < x ∧ _isCachablePath fn = true)) := by
  unfold updateImageCache
  cases hfind : cacheFind st.sizeCache fn with
  | none =>
    by_cases hc : sz > 0 ∧ x > 0 ∧ _isCachablePath fn = true
    · simp [hc]
    · simp only [if_neg hc]
      constructor
      · exact fun h => Or.inl h
      · rintro (h | ⟨-, h⟩)
        · exact h
        · exact absurd h hc
  | some it =>
    by_cases hdiff : x ≠ it.x ∨ y ≠ it.y ∨ sz ≠ it.size
    · by_cases hc : sz > 0 ∧ x > 0 ∧ _isCachablePath fn = true
      · simp only [if_pos hdiff, if_pos hc, true_iff]
        exact Or.inr ⟨Or.inr ⟨it, rfl, hdiff⟩, hc⟩
      · simp only [if_pos hdiff, if_neg hc]
        constructor
        · exact fun h => Or.inl h
        · rintro (h | ⟨-, h⟩)
          · exact h
          · exact absurd h hc
    · simp only [if_neg hdiff]
      constructor
      · exact fun h => Or.inl h
      · rintro (h | ⟨h, -⟩)
        · exact h
        · rcases h with h | ⟨it1, h1, h2⟩
          · exact absurd h (by simp)
          · simp only [Option.some.injEq] at h1
            subst h1
            exact absurd h2 hdiff

/-- C13. `saveImageCache` leaves the store file alone when the dirty flag is clear; when
the flag is set and the file opens for writing, the file holds exactly one record
`path|byteSize|width|height` (the path in its relative form, a newline after the record)
for each cache entry whose byteSize is not negative and whose path is cachable, in the
order of the map, and nothing for any other entry; when the file does not open nothing
is written. -/
theorem saveImageCache_records (env : PathEnv) (st : State) (file : StoreFile) :
    (st.sizeCacheDirty = false → saveImageCache env st file = file) ∧
    (st.sizeCacheDirty = true → file.writable = true →
      saveImageCache env st file =
        { file with
          content := some (((st.sizeCache.filter isSaved).map (recordLine env)).flatten) }) ∧
    (st.sizeCacheDirty = true → file.writable = false → saveImageCache env st file = file) := by
  refine ⟨?_, ?_, ?_⟩
  · intro h
    simp [saveImageCache, h]
  · intro h1 h2
    simp [saveImageCache, h1, h2, flatten_saveEntry]
  · intro h1 h2
    simp [saveImageCache, h1, h2]

/-- C13 at a dirty cache of three entries: the file holds the one record of the cachable
entry with byteSize 120. -/
theorem saveImageCache_records_witness :
    saveImageCache plainEnv mixedState ⟨none, true⟩ =
      ⟨some "/userdata/saves/tmp/emulationstation.tmp/a.png|120|64|48\n".data, true⟩ ∧
    saveImageCache plainEnv { mixedState with sizeCacheDirty := false } ⟨none, true⟩ =
      ⟨none, true⟩ := by
  obtain ⟨hclear, hset, -⟩ := saveImageCache_records plainEnv mixedState ⟨none, true⟩
  obtain ⟨hclear2, -, -⟩ :=
    saveImageCache_records plainEnv { mixedState with sizeCacheDirty := false } ⟨none, true⟩
  refine ⟨?_, hclear2 rfl⟩
  rw [hset rfl rfl]
  decide

theorem hasSubstr_iff (pat : List Char) :
    ∀ l : List Char, hasSubstr pat l = true ↔ ∃ a b : List Char, l = a ++ pat ++ b := by
  intro l
  induction l with
  | nil =>
    simp only [hasSubstr, List.isEmpty_iff]
    constructor
    · intro h
      exact ⟨[], [], by simp [h]⟩
    · rintro ⟨a, b, h⟩
      have := congrArg List.length h
      simp only [List.length_nil, List.length_append] at this
      exact List.length_eq_zero.mp (by omega)
  | cons c cs ih =>
    simp only [hasSubstr, Bool.or_eq_true, List.isPrefixOf_iff_prefix, ih]
    constructor
    · rintro (⟨t, ht⟩ | ⟨a, b, hab⟩)
      · exact ⟨[], t, by simp [ht]⟩
      · exact ⟨c :: a, b, by simp [hab]⟩
    · rintro ⟨a, b, hab⟩
      cases a with
      | nil => exact Or.inl ⟨b, by simpa using hab.symm⟩
      | cons a0 as =>
        right
        simp only [List.cons_append, List.cons.injEq] at hab
        exact ⟨as, b, hab.2⟩

theorem found_iff (path pat : String) : found path pat = true ↔ occursIn pat path := by
  unfold found occursIn
  exact hasSubstr_iff _ _

/-- C14. For every path string, `_isCachablePath` holds exactly when the path does not
contain "/themes/", contains "/tmp/", contains "/emulationstation.tmp/", does not contain
"/pdftmp/" and contains "/saves/". -/
theorem isCachablePath_iff (path : String) :
    _isCachablePath path = true ↔
      (¬ occursIn "/themes/" path ∧ occursIn "/tmp/" path ∧
        occursIn "/emulationstation.tmp/" path ∧ ¬ occursIn "/pdftmp/" path ∧
        occursIn "/saves/" path) := by
  unfold _isCachablePath
  simp only [Bool.and_eq_true, Bool.not_eq_true', ← found_iff]
  constructor
  · rintro ⟨⟨⟨⟨h1, h2⟩, h3⟩, h4⟩, h5⟩
    exact ⟨by simp [h1], h2, h3, by simp [h4], h5⟩
  · rintro ⟨h1, h2, h3, h4, h5⟩
    exact ⟨⟨⟨⟨by simpa using h1, h2⟩, h3⟩, by simpa using h4⟩, h5⟩

end ImageIO

namespace TextureData

/-! ## C16 - C20: the pixel buffer and the GPU handle -/

/-- C18 as stated fails: on a resource that holds neither RAM pixels nor a GPU handle,
`uploadAndBind` calls `bindTexture(0)`, after which the texture 7 that was bound in the
renderer is bound no more. -/
theorem uploadAndBind_unbinds :
    (uploadAndBind (plainWorld (some 9)) (new false false) ⟨some 7, emptyState, []⟩).1 =
      false ∧
    (uploadAndBind (plainWorld (some 9)) (new false false) ⟨some 7, emptyState, []⟩).2.2 =
      ⟨none, emptyState, [Effect.bindTexture none]⟩ := by
  decide

/-- C18, amended. For every TextureData that holds neither RAM pixels nor a GPU handle,
`uploadAndBind` returns false and every field of the resource is unchanged; nothing is
created, updated or destroyed on the renderer and nothing is freed: the only call is
`bindTexture(0)`, which leaves no texture bound. -/
theorem uploadAndBind_unloaded (env : Env) (t : TextureData) (w : World)
    (hram : t.mTextureData = none) (hgpu : t.mTextureID = none) :
    uploadAndBind env t w =
      (false, t, { w with boundTexture := none,
                          effects := w.effects ++ [Effect.bindTexture none] }) := by
  simp [uploadAndBind, hram, hgpu, bindTexture]

/-- C18, amended, at a new resource while texture 7 is bound. -/
theorem uploadAndBind_unloaded_witness :
    uploadAndBind (plainWorld (some 9)) (new false false) ⟨some 7, emptyState, []⟩ =
      (false, new false false, ⟨none, emptyState, [Effect.bindTexture none]⟩) :=
  uploadAndBind_unloaded (plainWorld (some 9)) (new false false) ⟨some 7, emptyState, []⟩
    rfl rfl

/-- C20. `releaseRAM` and `releaseVRAM` are safe on an unloaded resource and idempotent:
for every TextureData with no RAM buffer and no GPU handle, either call changes no field,
destroys nothing and frees nothing; and for every resource, calling one of them a second
time changes nothing more than the first call did. -/
theorem release_idempotent (t : TextureData) (w : World) :
    (t.mTextureData = none → t.mTextureID = none →
      releaseRAM t w = (t, w) ∧ releaseVRAM t w = (t, w)) ∧
    releaseRAM (releaseRAM t w).1 (releaseRAM t w).2 = releaseRAM t w ∧
    releaseVRAM (releaseVRAM t w).1 (releaseVRAM t w).2 = releaseVRAM t w := by
  refine ⟨?_, ?_, ?_⟩
  · intro hram hgpu
    constructor
    · cases t
      simp_all [releaseRAM]
    · simp [releaseVRAM, hgpu]
  · unfold releaseRAM
    cases hdata : t.mTextureData with
    | none => simp
    | some block =>
      by_cases hflag : t.mIsExternalDataRGBA = false
      · simp [hflag]
      · simp [hflag]
  · unfold releaseVRAM
    by_cases hgpu : t.mTextureID.isSome = true
    · simp [hgpu]
    · simp [hgpu]

/-- C20 at a new resource and at a resource holding a RAM buffer of its own. -/
theorem release_idempotent_witness :
    (releaseRAM (new false false) quietWorld = (new false false, quietWorld) ∧
      releaseVRAM (new false false) quietWorld = (new false false, quietWorld)) ∧
    releaseRAM decoded quietWorld =
      ({ decoded with mTextureData := none }, ⟨none, emptyState, [Effect.free ⟨1, Origin.own⟩]⟩) ∧
    releaseRAM (releaseRAM decoded quietWorld).1 (releaseRAM decoded quietWorld).2 =
      releaseRAM decoded quietWorld :=
  ⟨(release_idempotent (new false false) quietWorld).1 rfl rfl, by decide,
    (release_idempotent decoded quietWorld).2.1⟩

/-! ### What the decoding functions do to the buffer, the handle and the flag -/

theorem initFromRGBA_facts (env : Env) (t : TextureData) (dataRGBA : Option Nat)
    (width height : Nat) (copyData : Bool) :
    (initFromRGBA env t dataRGBA width height copyData).2.mTextureID = t.mTextureID ∧
    (flagSound t → flagSound (initFromRGBA env t dataRGBA width height copyData).2) := by
  unfold initFromRGBA flagSound
  by_cases hflag : t.mIsExternalDataRGBA = true
  · cases dataRGBA <;> by_cases hc : copyData = true <;> simp [hflag, hc]
  · cases hdata : t.mTextureData with
    | none => cases dataRGBA <;> by_cases hc : copyData = true <;> simp [hflag, hc, hdata]
    | some b => simp [hflag, hdata]

theorem initFromRGB24_facts (env : Env) (t : TextureData) (dataRGB : Option Nat)
    (width height : Nat) (copyData : Bool) :
    (initFromRGB24 env t dataRGB width height copyData).2.mTextureID = t.mTextureID ∧
    (flagSound t → flagSound (initFromRGB24 env t dataRGB width height copyData).2) := by
  unfold initFromRGB24 flagSound
  by_cases hflag : t.mIsExternalDataRGBA = true
  · cases dataRGB <;> by_cases hc : copyData = true <;> simp [hflag, hc]
  · cases hdata : t.mTextureData with
    | none => cases dataRGB <;> by_cases hc : copyData = true <;> simp [hflag, hc, hdata]
    | some b => simp [hflag, hdata]

theorem svgSourceSize_facts (env : Env) (t : TextureData) (svgWidth svgHeight : ℚ) :
    (svgSourceSize env t svgWidth svgHeight).mTextureID = t.mTextureID ∧
    (svgSourceSize env t svgWidth svgHeight).mTextureData = t.mTextureData ∧
    (svgSourceSize env t svgWidth svgHeight).mIsExternalDataRGBA = t.mIsExternalDataRGBA := by
  simp only [svgSourceSize]
  split_ifs <;> exact ⟨rfl, rfl, rfl⟩

theorem svgBaseSize_facts (env : Env) (t : TextureData) (svgWidth svgHeight : ℚ) :
    (svgBaseSize env t svgWidth svgHeight).mTextureID = t.mTextureID ∧
    (svgBaseSize env t svgWidth svgHeight).mTextureData = t.mTextureData ∧
    (svgBaseSize env t svgWidth svgHeight).mIsExternalDataRGBA = t.mIsExternalDataRGBA :=
  ⟨rfl, rfl, rfl⟩

theorem svgEnlarge_facts (env : Env) (t : TextureData) (svgWidth svgHeight : ℚ) :
    (svgEnlarge env t svgWidth svgHeight).mTextureID = t.mTextureID ∧
    (svgEnlarge env t svgWidth svgHeight).mTextureData = t.mTextureData ∧
    (svgEnlarge env t svgWidth svgHeight).mIsExternalDataRGBA = t.mIsExternalDataRGBA := by
  simp only [svgEnlarge]
  split_ifs <;> exact ⟨rfl, rfl, rfl⟩

theorem svgReduce_facts (env : Env) (t : TextureData) (svgWidth svgHeight : ℚ) :
    (svgReduce env t svgWidth svgHeight).mTextureID = t.mTextureID ∧
    (svgReduce env t svgWidth svgHeight).mTextureData = t.mTextureData ∧
    (svgReduce env t svgWidth svgHeight).mIsExternalDataRGBA = t.mIsExternalDataRGBA := by
  simp only [svgReduce]
  split_ifs <;> exact ⟨rfl, rfl, rfl⟩

theorem svgGeometry_facts (env : Env) (t : TextureData) (svgWidth svgHeight : ℚ) :
    (svgGeometry env t svgWidth svgHeight).mTextureID = t.mTextureID ∧
    (svgGeometry env t svgWidth svgHeight).mTextureData = t.mTextureData ∧
    (svgGeometry env t svgWidth svgHeight).mIsExternalDataRGBA = t.mIsExternalDataRGBA := by
  obtain ⟨a1, a2, a3⟩ := svgSourceSize_facts env t svgWidth svgHeight
  obtain ⟨b1, b2, b3⟩ :=
    svgBaseSize_facts env (svgSourceSize env t svgWidth svgHeight) svgWidth svgHeight
  obtain ⟨c1, c2, c3⟩ := svgEnlarge_facts env
    (svgBaseSize env (svgSourceSize env t svgWidth svgHeight) svgWidth svgHeight)
    svgWidth svgHeight
  obtain ⟨d1, d2, d3⟩ := svgReduce_facts env (svgEnlarge env
    (svgBaseSize env (svgSourceSize env t svgWidth svgHeight) svgWidth svgHeight)
    svgWidth svgHeight) svgWidth svgHeight
  simp only [svgGeometry]
  split_ifs
  · exact ⟨by rw [d1, c1, b1, a1], by rw [d2, c2, b2, a2], by rw [d3, c3, b3, a3]⟩
  · exact ⟨by rw [← a1, ← b1], by rw [← a2, ← b2], by rw [← a3, ← b3]⟩

theorem initSVGFromMemory_facts (env : Env) (t : TextureData) (fileData : List Byte) :
    (initSVGFromMemory env t fileData).2.mTextureID = t.mTextureID ∧
    (flagSound t → flagSound (initSVGFromMemory env t fileData).2) ∧
    ((t.mTextureData.isSome = true ∨ t.mTextureID.isSome = true) →
      initSVGFromMemory env t fileData = (true, t)) := by
  have g := fun a b => svgGeometry_facts env t a b
  refine ⟨?_, ?_, ?_⟩
  · unfold initSVGFromMemory
    split_ifs with h1
    · rfl
    · cases hp : env.nsvgParse fileData with
      | none => rfl
      | some p =>
        obtain ⟨a, b⟩ := p
        simp only []
        split_ifs
        · rfl
        · exact (g a b).1
        · exact (g a b).1
  · intro hs
    unfold initSVGFromMemory
    split_ifs with h1
    · exact hs
    · cases hp : env.nsvgParse fileData with
      | none => exact hs
      | some p =>
        obtain ⟨a, b⟩ := p
        simp only []
        split_ifs
        · exact hs
        · intro blk hb ho
          rw [(g a b).2.2]
          rw [(g a b).2.1] at hb
          exact hs blk hb ho
        · intro blk hb ho
          simp only [Option.some.injEq] at hb
          rw [← hb] at ho
          cases ho
  · intro h
    unfold initSVGFromMemory
    rw [if_pos h]

theorem initJPGFromMemory_facts (env : Env) (t : TextureData) (fileData : List Byte) :
    (initJPGFromMemory env t fileData).2.mTextureID = t.mTextureID ∧
    (flagSound t → flagSound (initJPGFromMemory env t fileData).2) ∧
    (t.mTextureID.isSome = true →
      (initJPGFromMemory env t fileData).2.mTextureData = t.mTextureData) := by
  unfold initJPGFromMemory
  split_ifs with h1
  · exact ⟨rfl, id, fun _ => rfl⟩
  · simp only []
    cases hd : (loadFromMemoryRGB24 env.codec fileData (decodeBudget env t)).bitmap with
    | none => exact ⟨rfl, id, fun _ => rfl⟩
    | some imageRGB =>
      refine ⟨(initFromRGB24_facts env _ _ _ _ _).1, fun hs => (initFromRGB24_facts env _ _ _ _ _).2 hs,
        fun h => absurd (Or.inr h) h1⟩

theorem initImageFromMemory_facts (env : Env) (t : TextureData) (fileData : List Byte) :
    (initImageFromMemory env t fileData).2.mTextureID = t.mTextureID ∧
    (flagSound t → flagSound (initImageFromMemory env t fileData).2) ∧
    (t.mTextureID.isSome = true →
      (initImageFromMemory env t fileData).2.mTextureData = t.mTextureData) := by
  unfold initImageFromMemory
  split_ifs with h1 h2
  · exact ⟨rfl, id, fun _ => rfl⟩
  · simp only []
    cases hd : (loadFromMemoryRGB24 env.codec fileData (decodeBudget env t)).bitmap with
    | none => exact ⟨rfl, id, fun _ => rfl⟩
    | some imageRGB =>
      refine ⟨(initFromRGB24_facts env _ _ _ _ _).1, fun hs => (initFromRGB24_facts env _ _ _ _ _).2 hs,
        fun h => absurd (Or.inr h) h1⟩
  · simp only []
    cases hd : (loadFromMemoryRGBA32 env.codec fileData (decodeBudget env t)).bitmap with
    | none => exact ⟨rfl, id, fun _ => rfl⟩
    | some imageRGBA =>
      refine ⟨(initFromRGBA_facts env _ _ _ _ _).1, fun hs => (initFromRGBA_facts env _ _ _ _ _).2 hs,
        fun h => absurd (Or.inr h) h1⟩

theorem loadFromCbz_facts (env : Env) (t : TextureData) (w : World) :
    (loadFromCbz env t w).2.1.mTextureID = t.mTextureID ∧
    (flagSound t → flagSound (loadFromCbz env t w).2.1) ∧
    (t.mTextureID.isSome = true → (loadFromCbz env t w).2.1.mTextureData = t.mTextureData) ∧
    (loadFromCbz env t w).2.2.effects = w.effects := by
  unfold loadFromCbz
  simp only []
  split
  · split_ifs
    · exact ⟨(initImageFromMemory_facts env t _).1, (initImageFromMemory_facts env t _).2.1,
        (initImageFromMemory_facts env t _).2.2, rfl⟩
    · exact ⟨(initImageFromMemory_facts env t _).1, (initImageFromMemory_facts env t _).2.1,
        (initImageFromMemory_facts env t _).2.2, rfl⟩
    · exact ⟨rfl, id, fun _ => rfl, rfl⟩
  · exact ⟨rfl, id, fun _ => rfl, rfl⟩

theorem load_facts (env : Env) (t : TextureData) (w : World) (updateCache : Bool) :
    (load env t w updateCache).2.1.mTextureID = t.mTextureID ∧
    (flagSound t → flagSound (load env t w updateCache).2.1) ∧
    (t.mTextureID.isSome = true →
      (load env t w updateCache).2.1.mTextureData = t.mTextureData) ∧
    (load env t w updateCache).2.2.effects = w.effects := by
  have hsvg := initSVGFromMemory_facts env { t with mScalable := true }
    (env.getFileData t.mPath)
  have hjpg := initJPGFromMemory_facts env t (env.getFileData t.mPath)
  have himg := initImageFromMemory_facts env t (env.getFileData t.mPath)
  have hcbz := loadFromCbz_facts env t w
  have hsvg3 : t.mTextureID.isSome = true →
      (initSVGFromMemory env { t with mScalable := true }
        (env.getFileData t.mPath)).2.mTextureData = t.mTextureData := by
    intro h
    rw [hsvg.2.2 (Or.inr h)]
  unfold load
  simp only []
  split_ifs
  · exact ⟨rfl, id, fun _ => rfl, rfl⟩
  · exact ⟨rfl, id, fun _ => rfl, rfl⟩
  · exact hcbz
  · exact ⟨hsvg.1, hsvg.2.1, hsvg3, rfl⟩
  · exact ⟨hsvg.1, hsvg.2.1, hsvg3, rfl⟩
  · exact ⟨hjpg.1, hjpg.2.1, hjpg.2.2, rfl⟩
  · exact ⟨hjpg.1, hjpg.2.1, hjpg.2.2, rfl⟩
  · exact ⟨himg.1, himg.2.1, himg.2.2, rfl⟩
  · exact ⟨himg.1, himg.2.1, himg.2.2, rfl⟩

/-! ### The operations on the two invariants -/

theorem own_of_flag (t : TextureData) (b : Block) (hs : flagSound t)
    (hb : t.mTextureData = some b) (hflag : t.mIsExternalDataRGBA = false) :
    b.origin = Origin.own := by
  cases ho : b.origin with
  | own => rfl
  | external =>
    have h := hs b hb ho
    rw [hflag] at h
    cases h

theorem uploadAndBind_oneForm (env : Env) (t : TextureData) (w : World) (h : oneForm t) :
    oneForm (uploadAndBind env t w).2.1 := by
  unfold uploadAndBind
  by_cases h1 : t.mTextureID.isSome = true
  · rw [if_pos h1]
    exact h
  · rw [if_neg h1]
    cases hdata : t.mTextureData with
    | none => exact h
    | some block =>
      simp only []
      by_cases h2 : t.mWidth = 0 ∨ t.mHeight = 0
      · rw [if_pos h2]
        exact h
      · rw [if_neg h2]
        cases hc : env.createTexture w.effects (uploadType t.mTextureFormat) t.mLinear t.mTile
            t.mWidth t.mHeight (some block.addr) with
        | none => simp [oneForm]
        | some id => simp [oneForm]

theorem uploadAndBind_flagSound (env : Env) (t : TextureData) (w : World)
    (hs : flagSound t) :
    flagSound (uploadAndBind env t w).2.1 ∧
    ∃ added, (uploadAndBind env t w).2.2.effects = w.effects ++ added ∧
      ∀ b, Effect.free b ∈ added → b.origin = Origin.own := by
  unfold uploadAndBind
  by_cases h1 : t.mTextureID.isSome = true
  · rw [if_pos h1]
    exact ⟨hs, [Effect.bindTexture t.mTextureID], rfl, by simp⟩
  · rw [if_neg h1]
    cases hdata : t.mTextureData with
    | none => exact ⟨hs, [Effect.bindTexture t.mTextureID], rfl, by simp⟩
    | some block =>
      simp only []
      by_cases h2 : t.mWidth = 0 ∨ t.mHeight = 0
      · rw [if_pos h2]
        exact ⟨hs, [Effect.bindTexture t.mTextureID], rfl, by simp⟩
      · rw [if_neg h2]
        cases hc : env.createTexture w.effects (uploadType t.mTextureFormat) t.mLinear t.mTile
            t.mWidth t.mHeight (some block.addr) with
        | none =>
          refine ⟨fun b hb ho => hs b (hdata ▸ hb) ho,
            [Effect.createTexture (uploadType t.mTextureFormat) t.mLinear t.mTile
              t.mWidth t.mHeight (some block.addr)], rfl, by simp⟩
        | some id =>
          simp only []
          refine ⟨by simp [flagSound], ?_⟩
          by_cases h3 : t.mIsExternalDataRGBA = false
          · rw [if_pos h3]
            refine ⟨[Effect.createTexture (uploadType t.mTextureFormat) t.mLinear t.mTile
              t.mWidth t.mHeight (some block.addr), Effect.free block], by simp, ?_⟩
            intro b hb
            simp only [List.mem_cons, Effect.free.injEq, List.mem_singleton, false_or,
              List.not_mem_nil, or_false, reduceCtorEq] at hb
            rw [hb]
            exact own_of_flag t block hs hdata h3
          · rw [if_neg h3]
            refine ⟨[Effect.createTexture (uploadType t.mTextureFormat) t.mLinear t.mTile
              t.mWidth t.mHeight (some block.addr)], rfl, by simp⟩

theorem releaseRAM_flagSound (t : TextureData) (w : World) (hs : flagSound t) :
    flagSound (releaseRAM t w).1 ∧
    ∃ added, (releaseRAM t w).2.effects = w.effects ++ added ∧
      ∀ b, Effect.free b ∈ added → b.origin = Origin.own := by
  unfold releaseRAM
  cases hdata : t.mTextureData with
  | none => exact ⟨by simp [flagSound], [], by simp, by simp⟩
  | some block =>
    simp only []
    by_cases h3 : t.mIsExternalDataRGBA = false
    · rw [if_pos h3]
      refine ⟨by simp [flagSound], [Effect.free block], rfl, ?_⟩
      intro b hb
      simp only [List.mem_singleton, Effect.free.injEq] at hb
      rw [hb]
      exact own_of_flag t block hs hdata h3
    · rw [if_neg h3]
      exact ⟨by simp [flagSound], [], by simp, by simp⟩

theorem releaseRAM_data (t : TextureData) (w : World) :
    (releaseRAM t w).1.mTextureData = none := by
  unfold releaseRAM
  cases hdata : t.mTextureData with
  | none => rfl
  | some block =>
    simp only []
    split_ifs <;> rfl

theorem releaseVRAM_flagSound (t : TextureData) (w : World) (hs : flagSound t) :
    flagSound (releaseVRAM t w).1 ∧
    ∃ added, (releaseVRAM t w).2.effects = w.effects ++ added ∧
      ∀ b, Effect.free b ∈ added → b.origin = Origin.own := by
  unfold releaseVRAM
  split_ifs with h1
  · exact ⟨hs, [Effect.destroyTexture t.mTextureID], rfl, by simp⟩
  · exact ⟨hs, [], by simp, by simp⟩

theorem releaseVRAM_oneForm (t : TextureData) (w : World) (h : oneForm t) :
    oneForm (releaseVRAM t w).1 := by
  unfold releaseVRAM
  split_ifs with h1
  · simp [oneForm]
  · exact h

theorem updateFromExternalRGBA_flagSound (t : TextureData) (w : World)
    (dataRGBA : Option Nat) (width height : Nat) (hs : flagSound t) :
    flagSound (updateFromExternalRGBA t w dataRGBA width height).2.1 ∧
    ∃ added, (updateFromExternalRGBA t w dataRGBA width height).2.2.effects =
        w.effects ++ added ∧
      ∀ b, Effect.free b ∈ added → b.origin = Origin.own := by
  unfold updateFromExternalRGBA
  cases hdata : t.mTextureData with
  | none =>
    simp only []
    split_ifs with h1
    · exact ⟨by simp [flagSound], _, rfl, by simp⟩
    · exact ⟨by simp [flagSound], [], by simp, by simp⟩
  | some block =>
    simp only []
    by_cases h3 : t.mIsExternalDataRGBA = false
    · have hown := own_of_flag t block hs hdata h3
      simp only [if_pos h3]
      split_ifs with h1
      · refine ⟨by simp [flagSound], [Effect.free block, Effect.updateTexture t.mTextureID
          (updateType t.mTextureFormat) 0 0 width height dataRGBA], by simp, ?_⟩
        intro b hb
        simp only [List.mem_cons, Effect.free.injEq, List.mem_singleton, reduceCtorEq,
          or_false, List.not_mem_nil] at hb
        rw [hb]
        exact hown
      · refine ⟨by simp [flagSound], [Effect.free block], rfl, ?_⟩
        intro b hb
        simp only [List.mem_singleton, Effect.free.injEq] at hb
        rw [hb]
        exact hown
    · simp only [if_neg h3]
      split_ifs with h1
      · exact ⟨by simp [flagSound], _, rfl, by simp⟩
      · exact ⟨by simp [flagSound], [], by simp, by simp⟩

theorem load_oneForm (env : Env) (t : TextureData) (w : World) (updateCache : Bool)
    (h : oneForm t) : oneForm (load env t w updateCache).2.1 := by
  obtain ⟨f1, _, f3, _⟩ := load_facts env t w updateCache
  intro hboth
  obtain ⟨hd, hi⟩ := hboth
  rw [f1] at hi
  rw [f3 hi] at hd
  exact h ⟨hd, hi⟩

theorem setSourceSize_oneForm (env : Env) (t : TextureData) (w : World) (width height : ℚ)
    (h : oneForm t) : oneForm (setSourceSize env t w width height).2.1 := by
  unfold setSourceSize
  split_ifs
  · simp only []
    apply load_oneForm
    intro hboth
    rw [releaseRAM_data] at hboth
    cases hboth.1
  · exact h
  · exact h

theorem setSourceSize_flagSound (env : Env) (t : TextureData) (w : World)
    (width height : ℚ) (hs : flagSound t) :
    flagSound (setSourceSize env t w width height).2.1 ∧
    ∃ added, (setSourceSize env t w width height).2.2.effects = w.effects ++ added ∧
      ∀ b, Effect.free b ∈ added → b.origin = Origin.own := by
  unfold setSourceSize
  split_ifs
  · simp only []
    have hs1 : flagSound { t with mSourceWidth := width, mSourceHeight := height } := hs
    obtain ⟨hs2, a2, he2, ho2⟩ :=
      releaseVRAM_flagSound { t with mSourceWidth := width, mSourceHeight := height } w hs1
    obtain ⟨hs3, a3, he3, ho3⟩ := releaseRAM_flagSound
      (releaseVRAM { t with mSourceWidth := width, mSourceHeight := height } w).1
      (releaseVRAM { t with mSourceWidth := width, mSourceHeight := height } w).2 hs2
    obtain ⟨_, f2, _, f4⟩ := load_facts env
      (releaseRAM (releaseVRAM { t with mSourceWidth := width, mSourceHeight := height } w).1
        (releaseVRAM { t with mSourceWidth := width, mSourceHeight := height } w).2).1
      (releaseRAM (releaseVRAM { t with mSourceWidth := width, mSourceHeight := height } w).1
        (releaseVRAM { t with mSourceWidth := width, mSourceHeight := height } w).2).2
      env.loadDefault
    refine ⟨f2 hs3, a2 ++ a3, ?_, ?_⟩
    · rw [f4, he3, he2, List.append_assoc]
    · intro b hb
      rcases List.mem_append.mp hb with hb | hb
      · exact ho2 b hb
      · exact ho3 b hb
  · exact ⟨hs, [], by simp, by simp⟩
  · exact ⟨hs, [], by simp, by simp⟩

theorem destructor_flagSound (t : TextureData) (w : World) (hs : flagSound t) :
    flagSound (destructor t w).1 ∧
    ∃ added, (destructor t w).2.effects = w.effects ++ added ∧
      ∀ b, Effect.free b ∈ added → b.origin = Origin.own := by
  obtain ⟨hs2, a2, he2, ho2⟩ := releaseVRAM_flagSound t w hs
  obtain ⟨hs3, a3, he3, ho3⟩ := releaseRAM_flagSound (releaseVRAM t w).1 (releaseVRAM t w).2 hs2
  refine ⟨hs3, a2 ++ a3, ?_, ?_⟩
  · show (releaseRAM (releaseVRAM t w).1 (releaseVRAM t w).2).2.effects = _
    rw [he3, he2, List.append_assoc]
  · intro b hb
    rcases List.mem_append.mp hb with hb | hb
    · exact ho2 b hb
    · exact ho3 b hb

theorem setMaxSize_facts (env : Env) (t : TextureData) (maxSize : MaxSizeInfo) :
    (setMaxSize env t maxSize).mTextureID = t.mTextureID ∧
    (setMaxSize env t maxSize).mTextureData = t.mTextureData ∧
    (setMaxSize env t maxSize).mIsExternalDataRGBA = t.mIsExternalDataRGBA := by
  simp only [setMaxSize]
  split_ifs <;> exact ⟨rfl, rfl, rfl⟩

theorem getter_facts (env : Env) (t : TextureData) (w : World) (op : Op)
    (hop : op = Op.width ∨ op = Op.height ∨ op = Op.sourceWidth ∨ op = Op.sourceHeight) :
    step env (t, w) op = (t, w) ∨ step env (t, w) op = (load env t w env.loadDefault).2 := by
  rcases hop with h | h | h | h <;> subst h
  · simp only [step, TextureData.width]
    split_ifs <;> first | exact Or.inr rfl | exact Or.inl rfl
  · simp only [step, TextureData.height]
    split_ifs <;> first | exact Or.inr rfl | exact Or.inl rfl
  · simp only [step, TextureData.sourceWidth]
    split_ifs <;> first | exact Or.inr rfl | exact Or.inl rfl
  · simp only [step, TextureData.sourceHeight]
    split_ifs <;> first | exact Or.inr rfl | exact Or.inl rfl

theorem getter_oneForm (env : Env) (t : TextureData) (w : World) (op : Op)
    (hop : op = Op.width ∨ op = Op.height ∨ op = Op.sourceWidth ∨ op = Op.sourceHeight)
    (h : oneForm t) : oneForm (step env (t, w) op).1 := by
  rcases getter_facts env t w op hop with hg | hg
  · rw [hg]
    exact h
  · rw [hg]
    exact load_oneForm env t w env.loadDefault h

theorem getter_flagSound (env : Env) (t : TextureData) (w : World) (op : Op)
    (hop : op = Op.width ∨ op = Op.height ∨ op = Op.sourceWidth ∨ op = Op.sourceHeight)
    (hs : flagSound t) :
    flagSound (step env (t, w) op).1 ∧
    ∃ added, (step env (t, w) op).2.effects = w.effects ++ added ∧
      ∀ b, Effect.free b ∈ added → b.origin = Origin.own := by
  rcases getter_facts env t w op hop with hg | hg
  · rw [hg]
    exact ⟨hs, [], by simp, by simp⟩
  · rw [hg]
    obtain ⟨_, f2, _, f4⟩ := load_facts env t w env.loadDefault
    exact ⟨f2 hs, [], by simp [f4], by simp⟩

theorem step_oneForm (env : Env) (t : TextureData) (w : World) (op : Op) (h : oneForm t)
    (hop : op.handsBuffer = true → t.mTextureID = none) :
    oneForm (step env (t, w) op).1 := by
  cases op with
  | initFromPath path => exact h
  | load updateCache => exact load_oneForm env t w updateCache h
  | initFromRGBA dataRGBA width height copyData =>
    intro hboth
    have hid := hboth.2
    simp only [step] at hid
    rw [(initFromRGBA_facts env t dataRGBA width height copyData).1, hop rfl] at hid
    cases hid
  | initFromRGB24 dataRGB width height copyData =>
    intro hboth
    have hid := hboth.2
    simp only [step] at hid
    rw [(initFromRGB24_facts env t dataRGB width height copyData).1, hop rfl] at hid
    cases hid
  | updateFromExternalRGBA dataRGBA width height =>
    intro hboth
    have hid := hboth.2
    have hnone : t.mTextureID = none := hop rfl
    simp only [step, updateFromExternalRGBA, hnone] at hid
    simp at hid
  | uploadAndBind => exact uploadAndBind_oneForm env t w h
  | releaseRAM =>
    intro hboth
    have hd := hboth.1
    simp only [step] at hd
    rw [releaseRAM_data] at hd
    cases hd
  | releaseVRAM => exact releaseVRAM_oneForm t w h
  | setSourceSize width height => exact setSourceSize_oneForm env t w width height h
  | width => exact getter_oneForm env t w _ (Or.inl rfl) h
  | height => exact getter_oneForm env t w _ (Or.inr (Or.inl rfl)) h
  | sourceWidth => exact getter_oneForm env t w _ (Or.inr (Or.inr (Or.inl rfl))) h
  | sourceHeight => exact getter_oneForm env t w _ (Or.inr (Or.inr (Or.inr rfl))) h
  | setTemporarySize width height => exact h
  | setMaxSize maxSize =>
    intro hboth
    obtain ⟨m1, m2, _⟩ := setMaxSize_facts env t maxSize
    have hd := hboth.1
    have hi := hboth.2
    simp only [step] at hd hi
    rw [m2] at hd
    rw [m1] at hi
    exact h ⟨hd, hi⟩
  | destructor =>
    intro hboth
    have hd := hboth.1
    simp only [step, TextureData.destructor] at hd
    rw [releaseRAM_data] at hd
    cases hd

theorem step_flagSound (env : Env) (t : TextureData) (w : World) (op : Op)
    (hs : flagSound t) :
    flagSound (step env (t, w) op).1 ∧
    ∃ added, (step env (t, w) op).2.effects = w.effects ++ added ∧
      ∀ b, Effect.free b ∈ added → b.origin = Origin.own := by
  cases op with
  | initFromPath path => exact ⟨hs, [], by simp [step], by simp⟩
  | load updateCache =>
    obtain ⟨_, f2, _, f4⟩ := load_facts env t w updateCache
    exact ⟨f2 hs, [], by simp [step, f4], by simp⟩
  | initFromRGBA dataRGBA width height copyData =>
    exact ⟨(initFromRGBA_facts env t dataRGBA width height copyData).2 hs, [],
      by simp [step], by simp⟩
  | initFromRGB24 dataRGB width height copyData =>
    exact ⟨(initFromRGB24_facts env t dataRGB width height copyData).2 hs, [],
      by simp [step], by simp⟩
  | updateFromExternalRGBA dataRGBA width height =>
    exact updateFromExternalRGBA_flagSound t w dataRGBA width height hs
  | uploadAndBind => exact uploadAndBind_flagSound env t w hs
  | releaseRAM => exact releaseRAM_flagSound t w hs
  | releaseVRAM => exact releaseVRAM_flagSound t w hs
  | setSourceSize width height => exact setSourceSize_flagSound env t w width height hs
  | width => exact getter_flagSound env t w _ (Or.inl rfl) hs
  | height => exact getter_flagSound env t w _ (Or.inr (Or.inl rfl)) hs
  | sourceWidth => exact getter_flagSound env t w _ (Or.inr (Or.inr (Or.inl rfl))) hs
  | sourceHeight => exact getter_flagSound env t w _ (Or.inr (Or.inr (Or.inr rfl))) hs
  | setTemporarySize width height => exact ⟨hs, [], by simp [step], by simp⟩
  | setMaxSize maxSize =>
    obtain ⟨_, m2, m3⟩ := setMaxSize_facts env t maxSize
    refine ⟨?_, [], by simp [step], by simp⟩
    intro b hb ho
    simp only [step] at hb ⊢
    rw [m3]
    rw [m2] at hb
    exact hs b hb ho
  | destructor => exact destructor_flagSound t w hs

theorem run_oneForm (env : Env) (ops : List Op) :
    ∀ s : TextureData × World, oneForm s.1 → withoutHandle env s ops = true →
      oneForm (run env s ops).1 := by
  induction ops with
  | nil => intro s h _; exact h
  | cons op rest ih =>
    intro s h hw
    simp only [withoutHandle, Bool.and_eq_true, Bool.or_eq_true, Bool.not_eq_true',
      Option.isNone_iff_eq_none] at hw
    have hop : op.handsBuffer = true → s.1.mTextureID = none := by
      intro hb
      rcases hw.1 with h1 | h1
      · rw [hb] at h1
        cases h1
      · exact h1
    exact ih (step env s op) (step_oneForm env s.1 s.2 op h hop) hw.2

theorem run_flagSound (env : Env) (ops : List Op) :
    ∀ s : TextureData × World, flagSound s.1 →
      flagSound (run env s ops).1 ∧
      ∃ added, (run env s ops).2.effects = s.2.effects ++ added ∧
        ∀ b, Effect.free b ∈ added → b.origin = Origin.own := by
  induction ops with
  | nil => intro s h; exact ⟨h, [], by simp [run], by simp⟩
  | cons op rest ih =>
    intro s h
    obtain ⟨h1, a1, e1, o1⟩ := step_flagSound env s.1 s.2 op h
    obtain ⟨h2, a2, e2, o2⟩ := ih (step env s op) h1
    refine ⟨h2, a1 ++ a2, ?_, ?_⟩
    · show (run env (step env s op) rest).2.effects = _
      rw [e2, e1, List.append_assoc]
    · intro b hb
      rcases List.mem_append.mp hb with hb | hb
      · exact o1 b hb
      · exact o2 b hb

/-- C16 as stated fails: a resource is given a RAM buffer, uploads it, and is then handed
an external frame by `updateFromExternalRGBA`; it now holds the frame in RAM and the GPU
handle 9 at the same time. -/
theorem run_both_forms_live :
    (run (plainWorld (some 9)) (new false false, quietWorld)
      [Op.initFromRGBA (some 1) 2 2 false, Op.uploadAndBind,
        Op.updateFromExternalRGBA (some 5) 2 2]).1.mTextureData =
      some ⟨5, Origin.external⟩ ∧
    (run (plainWorld (some 9)) (new false false, quietWorld)
      [Op.initFromRGBA (some 1) 2 2 false, Op.uploadAndBind,
        Op.updateFromExternalRGBA (some 5) 2 2]).1.mTextureID = some 9 := by
  decide

/-- C16, amended. In every state reached from a new TextureData by a sequence of its
public operations in which `initFromRGBA`, `initFromRGB24` and `updateFromExternalRGBA`
are only called while the resource holds no GPU handle, the RAM buffer pointer and the
GPU handle are not both non-null. -/
theorem run_one_storage_form (env : Env) (tile linear : Bool) (w : World) (ops : List Op)
    (hops : withoutHandle env (new tile linear, w) ops = true) :
    oneForm (run env (new tile linear, w) ops).1 :=
  run_oneForm env ops (new tile linear, w) (fun hboth => by cases hboth.1) hops

/-- C16, amended, at a resource that is handed a buffer, uploads it, releases the handle,
is handed an external frame, uploads that, and is then pointed at a file and loaded. -/
theorem run_one_storage_form_witness :
    withoutHandle (plainWorld (some 9)) (new false false, quietWorld)
      [Op.initFromRGBA (some 1) 2 2 false, Op.uploadAndBind, Op.releaseVRAM,
        Op.updateFromExternalRGBA (some 5) 2 2, Op.uploadAndBind,
        Op.initFromPath "a.png", Op.load true, Op.releaseRAM] = true ∧
    oneForm (run (plainWorld (some 9)) (new false false, quietWorld)
      [Op.initFromRGBA (some 1) 2 2 false, Op.uploadAndBind, Op.releaseVRAM,
        Op.updateFromExternalRGBA (some 5) 2 2, Op.uploadAndBind,
        Op.initFromPath "a.png", Op.load true, Op.releaseRAM]).1 :=
  ⟨by decide, run_one_storage_form (plainWorld (some 9)) false false quietWorld _
    (by decide)⟩

/-- C19. Across every sequence of public operations on a new TextureData (the destructor
among them), in any environment, every call of `free` made during the sequence is on a
block that the resource obtained itself (decoded, copied, or handed over through
`initFromRGBA` / `initFromRGB24`), never on a block supplied through
`updateFromExternalRGBA`. -/
theorem run_frees_only_own (env : Env) (tile linear : Bool) (w : World) (ops : List Op) :
    ∃ added, (run env (new tile linear, w) ops).2.effects = w.effects ++ added ∧
      ∀ b, Effect.free b ∈ added → b.origin = Origin.own :=
  (run_flagSound env ops (new tile linear, w) (fun b hb => by cases hb)).2

/-- C19 at a resource that is handed a buffer of its own, then an external frame, and is
then released and destroyed: the only block freed is its own, at address 1; the external
frame at address 5 is not freed. -/
theorem run_frees_only_own_witness :
    (run (plainWorld (some 9)) (new false false, quietWorld)
      [Op.initFromRGBA (some 1) 2 2 false, Op.updateFromExternalRGBA (some 5) 2 2,
        Op.releaseRAM, Op.destructor]).2.effects = [Effect.free ⟨1, Origin.own⟩] ∧
    ∀ b, Effect.free b ∈ (run (plainWorld (some 9)) (new false false, quietWorld)
      [Op.initFromRGBA (some 1) 2 2 false, Op.updateFromExternalRGBA (some 5) 2 2,
        Op.releaseRAM, Op.destructor]).2.effects → b.origin = Origin.own := by
  refine ⟨by decide, ?_⟩
  intro b hb
  obtain ⟨added, he, ho⟩ := run_frees_only_own (plainWorld (some 9)) false false quietWorld
    [Op.initFromRGBA (some 1) 2 2 false, Op.updateFromExternalRGBA (some 5) 2 2,
      Op.releaseRAM, Op.destructor]
  rw [he] at hb
  exact ho b (by simpa [quietWorld] using hb)

/-! ## C21 - C28: loading, streaming, budgets -/

theorem initJPGFromMemory_loaded (env : Env) (t : TextureData) (fileData : List Byte)
    (h : t.mTextureData.isSome = true ∨ t.mTextureID.isSome = true) :
    initJPGFromMemory env t fileData = (true, t) := by
  unfold initJPGFromMemory
  rw [if_pos h]

theorem initImageFromMemory_loaded (env : Env) (t : TextureData) (fileData : List Byte)
    (h : t.mTextureData.isSome = true ∨ t.mTextureID.isSome = true) :
    initImageFromMemory env t fileData = (true, t) := by
  unfold initImageFromMemory
  rw [if_pos h]

theorem loadFromCbz_loaded (env : Env) (t : TextureData) (w : World)
    (h : t.mTextureData.isSome = true ∨ t.mTextureID.isSome = true) :
    (loadFromCbz env t w).2.1 = t ∧ (loadFromCbz env t w).2.2.effects = w.effects ∧
    (loadFromCbz env t w).2.2.boundTexture = w.boundTexture := by
  unfold loadFromCbz
  simp only [initImageFromMemory_loaded env t _ h]
  split
  · split_ifs <;> exact ⟨rfl, rfl, rfl⟩
  · exact ⟨rfl, rfl, rfl⟩

theorem load_loaded (env : Env) (t : TextureData) (w : World) (updateCache : Bool)
    (h : t.mTextureData.isSome = true ∨ t.mTextureID.isSome = true) :
    ((load env t w updateCache).2.1 = t ∨
      (load env t w updateCache).2.1 = { t with mScalable := true }) ∧
    (load env t w updateCache).2.2.effects = w.effects ∧
    (load env t w updateCache).2.2.boundTexture = w.boundTexture := by
  have hcbz := loadFromCbz_loaded env t w h
  have hsvg := (initSVGFromMemory_facts env { t with mScalable := true }
    (env.getFileData t.mPath)).2.2 h
  have hjpg := initJPGFromMemory_loaded env t (env.getFileData t.mPath) h
  have himg := initImageFromMemory_loaded env t (env.getFileData t.mPath) h
  unfold load
  simp only [hsvg, hjpg, himg]
  split_ifs
  all_goals first
    | exact ⟨Or.inl rfl, rfl, rfl⟩
    | exact ⟨Or.inr rfl, rfl, rfl⟩
    | exact ⟨Or.inl hcbz.1, hcbz.2.1, hcbz.2.2⟩

theorem insertFile_codec (env : Env) (codec : Codec) (nsvgParse : List Byte → Option (ℚ × ℚ))
    (file : ZipInfo) (files : List ZipInfo) :
    insertFile { env with codec := codec, nsvgParse := nsvgParse } file files =
      insertFile env file files := by
  induction files with
  | nil => rfl
  | cons g rest ih =>
    simp only [insertFile, ih]

theorem sortFiles_codec (env : Env) (codec : Codec) (nsvgParse : List Byte → Option (ℚ × ℚ))
    (files : List ZipInfo) :
    sortFiles { env with codec := codec, nsvgParse := nsvgParse } files =
      sortFiles env files := by
  unfold sortFiles
  induction files with
  | nil => rfl
  | cons g rest ih =>
    rw [List.foldr_cons, List.foldr_cons, ih, insertFile_codec]

theorem load_codec (env : Env) (t : TextureData) (w : World) (updateCache : Bool)
    (codec : Codec) (nsvgParse : List Byte → Option (ℚ × ℚ))
    (h : t.mTextureData.isSome = true ∨ t.mTextureID.isSome = true) :
    load { env with codec := codec, nsvgParse := nsvgParse } t w updateCache =
      load env t w updateCache := by
  have hsvg := fun e : Env => (initSVGFromMemory_facts e { t with mScalable := true }
    (env.getFileData t.mPath)).2.2 h
  have hjpg := fun e : Env => initJPGFromMemory_loaded e t (env.getFileData t.mPath) h
  have himg := fun e : Env => initImageFromMemory_loaded e t (env.getFileData t.mPath) h
  have hcbz : loadFromCbz { env with codec := codec, nsvgParse := nsvgParse } t w =
      loadFromCbz env t w := by
    unfold loadFromCbz
    simp only [initImageFromMemory_loaded _ t _ h, sortFiles_codec, eligibleFiles]
  unfold load
  simp only [hsvg, hjpg, himg, hcbz]

/-- C21. For every TextureData that already holds RAM pixels or a GPU handle, whatever
its path, `load` leaves the pixel buffer, the GPU handle, the pixel format, the width, the
height, the source size, `mBaseSize` and `mPackedSize` unchanged: the resource afterwards is
the resource before, except that `mScalable` is set when the path ends in ".svg". The
call makes no renderer call and frees nothing, and it decodes nothing: its result is the
same whatever the decoding libraries (`codec`, `nsvgParse`) would deliver. -/
theorem load_loaded_noop (env : Env) (t : TextureData) (w : World) (updateCache : Bool)
    (h : t.mTextureData.isSome = true ∨ t.mTextureID.isSome = true) :
    ((load env t w updateCache).2.1 = t ∨
      (load env t w updateCache).2.1 = { t with mScalable := true }) ∧
    ((load env t w updateCache).2.1.mTextureData = t.mTextureData ∧
      (load env t w updateCache).2.1.mTextureID = t.mTextureID ∧
      (load env t w updateCache).2.1.mTextureFormat = t.mTextureFormat ∧
      (load env t w updateCache).2.1.mWidth = t.mWidth ∧
      (load env t w updateCache).2.1.mHeight = t.mHeight ∧
      (load env t w updateCache).2.1.mSourceWidth = t.mSourceWidth ∧
      (load env t w updateCache).2.1.mSourceHeight = t.mSourceHeight ∧
      (load env t w updateCache).2.1.mBaseSize = t.mBaseSize ∧
      (load env t w updateCache).2.1.mPackedSize = t.mPackedSize) ∧
    (load env t w updateCache).2.2.effects = w.effects ∧
    (∀ (codec : Codec) (nsvgParse : List Byte → Option (ℚ × ℚ)),
      load { env with codec := codec, nsvgParse := nsvgParse } t w updateCache =
        load env t w updateCache) := by
  obtain ⟨hstate, heff, _⟩ := load_loaded env t w updateCache h
  refine ⟨hstate, ?_, heff, fun codec nsvgParse => load_codec env t w updateCache codec nsvgParse h⟩
  rcases hstate with hs | hs <;> rw [hs] <;> exact ⟨rfl, rfl, rfl, rfl, rfl, rfl, rfl, rfl, rfl⟩

/-- C21 at a resource that holds a 2x2 RAM buffer and whose path names an SVG file: after
`load` the buffer and the sizes are the same. -/
theorem load_loaded_noop_witness :
    (load (plainWorld none) { decoded with mPath := "a.svg" } quietWorld true).2.1 =
      { decoded with mPath := "a.svg", mScalable := true } ∧
    (load (plainWorld none) { decoded with mPath := "a.svg" } quietWorld true).2.1.mTextureData =
      some ⟨1, Origin.own⟩ ∧
    (load (plainWorld none) { decoded with mPath := "a.svg" } quietWorld true).2.1.mWidth = 2 :=
  ⟨by decide,
    (load_loaded_noop (plainWorld none) { decoded with mPath := "a.svg" } quietWorld true
      (Or.inl rfl)).2.1.1,
    (load_loaded_noop (plainWorld none) { decoded with mPath := "a.svg" } quietWorld true
      (Or.inl rfl)).2.1.2.2.2.1⟩

/-- C22. For every TextureData state and every (pixels, width, height),
`updateFromExternalRGBA` returns true and leaves the resource with the RAM buffer equal
to the supplied pointer, the flag `mIsExternalDataRGBA` set, width and height equal to the
arguments and every other field, the GPU handle among them, unchanged. The calls it makes
are, in order: `free` on the previous buffer, exactly when there was one and the flag was
not set; then `updateTexture` with the supplied pixels on the existing handle, exactly when
the resource holds a GPU handle and width, height and pixels are non-zero. So no texture
is created, bound or destroyed, the only block freed is the previous buffer, and in a state
where the flag is set whenever the held buffer came from the caller no block supplied by
the caller is freed. -/
theorem updateFromExternalRGBA_streams (t : TextureData) (w : World) (dataRGBA : Option Nat)
    (width height : Nat) :
    (updateFromExternalRGBA t w dataRGBA width height).1 = true ∧
    (updateFromExternalRGBA t w dataRGBA width height).2.1 =
      { t with mIsExternalDataRGBA := true,
               mTextureData := dataRGBA.map (fun a => ⟨a, Origin.external⟩),
               mWidth := width, mHeight := height } ∧
    (updateFromExternalRGBA t w dataRGBA width height).2.2 =
      { w with effects := w.effects ++
          (if t.mIsExternalDataRGBA = false then
            (t.mTextureData.map Effect.free).toList else []) ++
          (if t.mTextureID.isSome = true ∧ width ≠ 0 ∧ height ≠ 0 ∧ dataRGBA.isSome = true then
            [Effect.updateTexture t.mTextureID (updateType t.mTextureFormat) 0 0 width height
              dataRGBA]
          else []) } ∧
    (flagSound t → ∀ b, Effect.free b ∈ (updateFromExternalRGBA t w dataRGBA width height).2.2.effects →
      Effect.free b ∈ w.effects ∨ b.origin = Origin.own) := by
  have hret : (updateFromExternalRGBA t w dataRGBA width height).1 = true := by
    unfold updateFromExternalRGBA
    simp only []
    split_ifs <;> rfl
  have hstate : (updateFromExternalRGBA t w dataRGBA width height).2.1 =
      { t with mIsExternalDataRGBA := true,
               mTextureData := dataRGBA.map (fun a => ⟨a, Origin.external⟩),
               mWidth := width, mHeight := height } := by
    unfold updateFromExternalRGBA
    simp only []
    split_ifs <;> rfl
  refine ⟨hret, hstate, ?_, ?_⟩
  · unfold updateFromExternalRGBA
    cases hdata : t.mTextureData with
    | none =>
      by_cases hc : t.mTextureID.isSome = true ∧ width ≠ 0 ∧ height ≠ 0 ∧ dataRGBA.isSome = true
      · by_cases h3 : t.mIsExternalDataRGBA = false <;> simp [hc, h3]
      · by_cases h3 : t.mIsExternalDataRGBA = false <;> simp [hc, h3]
    | some block =>
      by_cases hc : t.mTextureID.isSome = true ∧ width ≠ 0 ∧ height ≠ 0 ∧ dataRGBA.isSome = true
      · by_cases h3 : t.mIsExternalDataRGBA = false <;> simp [hc, h3]
      · by_cases h3 : t.mIsExternalDataRGBA = false <;> simp [hc, h3]
  · intro hs b hb
    obtain ⟨_, added, he, ho⟩ := updateFromExternalRGBA_flagSound t w dataRGBA width height hs
    rw [he] at hb
    rcases List.mem_append.mp hb with hb | hb
    · exact Or.inl hb
    · exact Or.inr (ho b hb)

/-- C22 at a resource that holds a buffer of its own and no GPU handle, and at a resource
that holds the GPU handle 9: the first call frees the previous buffer and stores the frame,
the second pushes the frame to the handle with `updateTexture`. -/
theorem updateFromExternalRGBA_streams_witness :
    (updateFromExternalRGBA decoded quietWorld (some 5) 2 2).2.2.effects =
      [Effect.free ⟨1, Origin.own⟩] ∧
    (updateFromExternalRGBA { new false false with mTextureID := some 9 } quietWorld
      (some 5) 2 2).2.2.effects =
        [Effect.updateTexture (some 9) TextureType.RGBA 0 0 2 2 (some 5)] ∧
    (∀ b, Effect.free b ∈ (updateFromExternalRGBA decoded quietWorld (some 5) 2 2).2.2.effects →
      Effect.free b ∈ quietWorld.effects ∨ b.origin = Origin.own) :=
  ⟨by decide, by decide,
    (updateFromExternalRGBA_streams decoded quietWorld (some 5) 2 2).2.2.2
      (by intro b hb ho; cases hb; cases ho)⟩

theorem load_outcome (env : Env) (t : TextureData) (w : World) (updateCache : Bool) :
    (t.mPath.data = [] → load env t w updateCache = (Outcome.returned false, t, w)) ∧
    (4 ≤ t.mPath.data.length → ∃ b, (load env t w updateCache).1 = Outcome.returned b) ∧
    (t.mPath.data ≠ [] → t.mPath.data.length < 4 →
      load env t w updateCache = (Outcome.threw, t, w)) := by
  refine ⟨?_, ?_, ?_⟩
  · intro h
    simp [load, h]
  · intro h
    have h1 : t.mPath.data.isEmpty = false := by
      cases hd : t.mPath.data with
      | nil => rw [hd] at h; simp at h
      | cons c cs => rfl
    have h2 : ¬ t.mPath.data.length < 4 := by omega
    unfold load
    simp only [h1, Bool.false_eq_true, if_false, h2]
    split_ifs <;> exact ⟨_, rfl⟩
  · intro h h4
    have h1 : t.mPath.data.isEmpty = false := by
      cases hd : t.mPath.data with
      | nil => exact absurd hd h
      | cons c cs => rfl
    simp only [load, h1, Bool.false_eq_true, if_false, if_pos h4]

/-- C26 fails on the code: on a resource whose path is "abc", `load` does not return a
boolean; `mPath.substr(mPath.size() - 4, ...)` raises `std::out_of_range`. -/
theorem load_short_path_throws :
    (load (plainWorld none) (initFromPath (new false false) "abc") quietWorld true).1 =
      Outcome.threw := by
  decide

/-- C28 as stated fails: on a scalable resource of source size 100x100, the request
(100, 200), which is higher, changes nothing; the request (50, 200), which is narrower,
releases the RAM buffer and records the new size. -/
theorem setSourceSize_not_by_size :
    setSourceSize (plainWorld none) scalable quietWorld 100 200 =
      (false, scalable, quietWorld) ∧
    (setSourceSize (plainWorld none) scalable quietWorld 50 200).2.1 =
      { scalable with mSourceWidth := 50, mSourceHeight := 200, mTextureData := none } ∧
    (setSourceSize (plainWorld none) scalable quietWorld 50 200).2.2.effects =
      [Effect.free ⟨1, Origin.own⟩] := by
  refine ⟨?_, ?_, ?_⟩
  · norm_num [setSourceSize, scalable, truncToInt, new]
  · norm_num [setSourceSize, scalable, truncToInt, new, releaseVRAM, releaseRAM, load, plainWorld]
  · norm_num [setSourceSize, scalable, truncToInt, new, releaseVRAM, releaseRAM, load, plainWorld,
      quietWorld]

/-- C28, amended. On a scalable resource, `setSourceSize(width, height)` resets the
resource, records the new size and reloads exactly when the requested height, as an
integer, is strictly larger than the current source height and the requested width, as an
integer, differs from the current source width: the GPU handle is destroyed, the RAM
buffer released, and `load` runs on the resource with the new source size. Every other
request on a scalable resource, and every request on a resource that is not scalable,
leaves the resource and the renderer unchanged. -/
theorem setSourceSize_policy (env : Env) (t : TextureData) (w : World) (width height : ℚ) :
    (t.mScalable = true → truncToInt t.mSourceHeight < truncToInt height →
      truncToInt t.mSourceWidth ≠ truncToInt width →
      (setSourceSize env t w width height).2 =
        (load env (destructor { t with mSourceWidth := width, mSourceHeight := height } w).1
          (destructor { t with mSourceWidth := width, mSourceHeight := height } w).2
          env.loadDefault).2 ∧
      (destructor { t with mSourceWidth := width, mSourceHeight := height } w).1 =
        { t with mSourceWidth := width, mSourceHeight := height, mTextureID := none,
                 mTextureData := none }) ∧
    (t.mScalable = true →
      ¬ (truncToInt t.mSourceHeight < truncToInt height ∧
        truncToInt t.mSourceWidth ≠ truncToInt width) →
      setSourceSize env t w width height = (false, t, w)) ∧
    (t.mScalable = false → setSourceSize env t w width height = (false, t, w)) := by
  refine ⟨?_, ?_, ?_⟩
  · intro hs hh hw
    constructor
    · simp only [setSourceSize, hs, if_true, hh, hw, ne_eq, not_false_eq_true, and_self,
        destructor]
    · unfold destructor releaseVRAM releaseRAM
      by_cases hid : t.mTextureID.isSome = true
      · cases hd : t.mTextureData with
        | none => simp [hid]
        | some b => by_cases hf : t.mIsExternalDataRGBA = false <;> simp [hid, hf]
      · have hnone : t.mTextureID = none := by
          cases h : t.mTextureID with
          | none => rfl
          | some i => rw [h] at hid; simp at hid
        cases hd : t.mTextureData with
        | none => simp [hnone]
        | some b => by_cases hf : t.mIsExternalDataRGBA = false <;> simp [hnone, hf]
  · intro hs hc
    simp only [setSourceSize, hs, if_true, if_neg hc]
  · intro hs
    simp [setSourceSize, hs]

/-- C28, amended, at a scalable resource of source size 100x100: the request (100, 200)
leaves it unchanged, the request (50, 200) reloads it at the new size. -/
theorem setSourceSize_policy_witness :
    setSourceSize (plainWorld none) scalable quietWorld 100 200 =
      (false, scalable, quietWorld) ∧
    (setSourceSize (plainWorld none) scalable quietWorld 50 200).2 =
      (load (plainWorld none)
        (destructor { scalable with mSourceWidth := 50, mSourceHeight := 200 } quietWorld).1
        (destructor { scalable with mSourceWidth := 50, mSourceHeight := 200 } quietWorld).2
        (plainWorld none).loadDefault).2 :=
  ⟨(setSourceSize_policy (plainWorld none) scalable quietWorld 100 200).2.1 rfl
      (by norm_num [scalable, truncToInt, new]),
    ((setSourceSize_policy (plainWorld none) scalable quietWorld 50 200).1 rfl
      (by norm_num [scalable, truncToInt, new]) (by norm_num [scalable, truncToInt, new])).1⟩

theorem mem_insertFile (env : Env) (file x : ZipInfo) (files : List ZipInfo) :
    x ∈ insertFile env file files ↔ x = file ∨ x ∈ files := by
  induction files with
  | nil => simp [insertFile]
  | cons g rest ih =>
    unfold insertFile
    split_ifs
    · simp
    · simp only [List.mem_cons, ih]
      tauto

theorem mem_sortFiles (env : Env) (x : ZipInfo) (files : List ZipInfo) :
    x ∈ sortFiles env files ↔ x ∈ files := by
  unfold sortFiles
  induction files with
  | nil => simp
  | cons g rest ih =>
    rw [List.foldr_cons, mem_insertFile, ih, List.mem_cons]

theorem sortFiles_head_least (env : Env) (files : List ZipInfo) :
    ∀ first rest, sortFiles env files = first :: rest →
      ∀ g ∈ files, ¬ env.toLower g.filename < env.toLower first.filename := by
  induction files with
  | nil => intro first rest h; simp [sortFiles] at h
  | cons f fs ih =>
    intro first rest h g hg
    have hstep : sortFiles env (f :: fs) = insertFile env f (sortFiles env fs) := rfl
    rw [hstep] at h
    cases hs : sortFiles env fs with
    | nil =>
      rw [hs] at h
      simp only [insertFile, List.cons.injEq] at h
      have hfs : fs = [] := by
        cases fs with
        | nil => rfl
        | cons a as =>
          have hmem := (mem_sortFiles env a (a :: as)).mpr (List.mem_cons_self _ _)
          rw [hs] at hmem
          cases hmem
      subst hfs
      rw [← h.1]
      simp only [List.mem_singleton] at hg
      rw [hg]
      exact lt_irrefl _
    | cons h0 hrest =>
      rw [hs] at h
      have ih0 := ih h0 hrest hs
      unfold insertFile at h
      by_cases hlt : env.toLower f.filename < env.toLower h0.filename
      · rw [if_pos hlt] at h
        simp only [List.cons.injEq] at h
        rw [← h.1]
        rcases List.mem_cons.mp hg with hg | hg
        · rw [hg]
          exact lt_irrefl _
        · intro hgf
          exact ih0 g hg (lt_trans hgf hlt)
      · rw [if_neg hlt] at h
        simp only [List.cons.injEq] at h
        rw [← h.1]
        rcases List.mem_cons.mp hg with hg | hg
        · rw [hg]
          exact hlt
        · exact ih0 g hg

theorem sortFiles_head_unique (env : Env) (file : ZipInfo) (files : List ZipInfo)
    (hmem : file ∈ files)
    (hleast : ∀ g ∈ files, g = file ∨ env.toLower file.filename < env.toLower g.filename) :
    ∃ rest, sortFiles env files = file :: rest := by
  cases hs : sortFiles env files with
  | nil =>
    have := (mem_sortFiles env file files).mpr hmem
    rw [hs] at this
    cases this
  | cons first rest =>
    have hfirst : first ∈ files := (mem_sortFiles env first files).mp (by rw [hs]; simp)
    have hno := sortFiles_head_least env files first rest hs file hmem
    rcases hleast first hfirst with h | h
    · exact ⟨rest, by rw [h]⟩
    · exact absurd h hno

theorem mem_eligibleFiles (env : Env) (g : ZipInfo) (infolist : List ZipInfo) :
    g ∈ eligibleFiles env infolist ↔
      g ∈ infolist ∧ env.lowerExtension g.filename = ".jpg" ∧
        env.startsWith g.filename "__" = false := by
  simp [eligibleFiles, List.mem_filter]

theorem loadFromCbz_first (env : Env) (t : TextureData) (w : World) (infolist : List ZipInfo)
    (file : ZipInfo) (rest : List ZipInfo) (hzip : env.zipLoad t.mPath = some infolist)
    (hs : sortFiles env (eligibleFiles env infolist) = file :: rest) :
    (0 < file.file_size →
      (loadFromCbz env t w).1 =
        (initImageFromMemory env t (env.zipRead t.mPath file.filename)).1 ∧
      (loadFromCbz env t w).2.1 =
        (initImageFromMemory env t (env.zipRead t.mPath file.filename)).2) ∧
    (file.file_size = 0 → loadFromCbz env t w = (false, t, w)) := by
  constructor
  · intro hsize
    simp only [loadFromCbz, hzip, hs, gt_iff_lt, hsize, if_true]
    split_ifs <;> exact ⟨rfl, rfl⟩
  · intro hsize
    simp [loadFromCbz, hzip, hs, hsize]

/-- C24. `loadFromCbz` returns false, leaving the resource as it is, when the archive
cannot be opened or holds no entry whose lower-cased extension is ".jpg" and whose name
does not start with "__". Among the entries that qualify it takes one whose lower-cased
name is least: an entry whose lower-cased name is below that of every other qualifying
entry is the one taken, and (for names that tie) the entry taken has no qualifying entry
below it. The bytes of the entry taken are decoded by `initImageFromMemory`, whose result is
the result of the call; an entry of size 0 is not decoded and gives false. -/
theorem loadFromCbz_selects (env : Env) (t : TextureData) (w : World) :
    (env.zipLoad t.mPath = none → loadFromCbz env t w = (false, t, w)) ∧
    (∀ infolist, env.zipLoad t.mPath = some infolist →
      (∀ g ∈ infolist, ¬ (env.lowerExtension g.filename = ".jpg" ∧
        env.startsWith g.filename "__" = false)) →
      loadFromCbz env t w = (false, t, w)) ∧
    (∀ infolist file, env.zipLoad t.mPath = some infolist → file ∈ infolist →
      env.lowerExtension file.filename = ".jpg" → env.startsWith file.filename "__" = false →
      (∀ g ∈ infolist, env.lowerExtension g.filename = ".jpg" →
        env.startsWith g.filename "__" = false →
        g = file ∨ env.toLower file.filename < env.toLower g.filename) →
      (0 < file.file_size →
        (loadFromCbz env t w).1 =
          (initImageFromMemory env t (env.zipRead t.mPath file.filename)).1 ∧
        (loadFromCbz env t w).2.1 =
          (initImageFromMemory env t (env.zipRead t.mPath file.filename)).2) ∧
      (file.file_size = 0 → loadFromCbz env t w = (false, t, w))) ∧
    (∀ infolist g0, env.zipLoad t.mPath = some infolist → g0 ∈ infolist →
      env.lowerExtension g0.filename = ".jpg" → env.startsWith g0.filename "__" = false →
      ∃ file ∈ infolist, env.lowerExtension file.filename = ".jpg" ∧
        env.startsWith file.filename "__" = false ∧
        (∀ g ∈ infolist, env.lowerExtension g.filename = ".jpg" →
          env.startsWith g.filename "__" = false →
          ¬ env.toLower g.filename < env.toLower file.filename) ∧
        (0 < file.file_size →
          (loadFromCbz env t w).1 =
            (initImageFromMemory env t (env.zipRead t.mPath file.filename)).1 ∧
          (loadFromCbz env t w).2.1 =
            (initImageFromMemory env t (env.zipRead t.mPath file.filename)).2) ∧
        (file.file_size = 0 → loadFromCbz env t w = (false, t, w))) := by
  refine ⟨?_, ?_, ?_, ?_⟩
  · intro hzip
    simp [loadFromCbz, hzip]
  · intro infolist hzip hnone
    have hempty : eligibleFiles env infolist = [] := by
      apply List.eq_nil_iff_forall_not_mem.mpr
      intro g hg
      obtain ⟨h1, h2⟩ := (mem_eligibleFiles env g infolist).mp hg
      exact hnone g h1 h2
    simp [loadFromCbz, hzip, hempty, sortFiles]
  · intro infolist file hzip hmem hext hpre hleast
    have hmem1 : file ∈ eligibleFiles env infolist :=
      (mem_eligibleFiles env file infolist).mpr ⟨hmem, hext, hpre⟩
    obtain ⟨rest, hs⟩ := sortFiles_head_unique env file (eligibleFiles env infolist) hmem1
      (fun g hg => by
        obtain ⟨h1, h2, h3⟩ := (mem_eligibleFiles env g infolist).mp hg
        exact hleast g h1 h2 h3)
    exact loadFromCbz_first env t w infolist file rest hzip hs
  · intro infolist g0 hzip hmem hext hpre
    have hmem1 : g0 ∈ eligibleFiles env infolist :=
      (mem_eligibleFiles env g0 infolist).mpr ⟨hmem, hext, hpre⟩
    cases hs : sortFiles env (eligibleFiles env infolist) with
    | nil =>
      have := (mem_sortFiles env g0 _).mpr hmem1
      rw [hs] at this
      cases this
    | cons file rest =>
      have hfile : file ∈ eligibleFiles env infolist :=
        (mem_sortFiles env file _).mp (by rw [hs]; simp)
      obtain ⟨f1, f2, f3⟩ := (mem_eligibleFiles env file infolist).mp hfile
      refine ⟨file, f1, f2, f3, ?_, loadFromCbz_first env t w infolist file rest hzip hs⟩
      intro g hg h2 h3
      exact sortFiles_head_least env _ file rest hs g
        ((mem_eligibleFiles env g infolist).mpr ⟨hg, h2, h3⟩)

/-- C24 at the archive that holds page002.jpg, page001.jpg and __meta.jpg: the bytes of
page001.jpg are the ones decoded, and the call returns true with the decoded 2x2 image. -/
theorem loadFromCbz_selects_witness :
    (loadFromCbz comicWorld (initFromPath (new false false) "comic.cbz") quietWorld).1 =
      (initImageFromMemory comicWorld (initFromPath (new false false) "comic.cbz")
        ("page001.jpg".data.map ch)).1 ∧
    (initImageFromMemory comicWorld (initFromPath (new false false) "comic.cbz")
      ("page001.jpg".data.map ch)).1 = true ∧
    (initImageFromMemory comicWorld (initFromPath (new false false) "comic.cbz")
      ("page001.jpg".data.map ch)).2.mTextureData = some ⟨11, Origin.own⟩ := by
  refine ⟨?_, by decide, by decide⟩
  refine (((loadFromCbz_selects comicWorld (initFromPath (new false false) "comic.cbz")
    quietWorld).2.2.1 _ ⟨"page001.jpg", 4⟩ rfl (by decide) (by decide) (by decide) ?_).1
    (by decide)).1
  intro g hg hext hpre
  simp only [List.mem_cons, List.mem_singleton, List.not_mem_nil, or_false] at hg
  rcases hg with hg | hg | hg
  · right
    rw [hg]
    show lowerName "page001.jpg" < lowerName "page002.jpg"
    rw [String.lt_iff_toList_lt]
    decide
  · exact Or.inl hg
  · rw [hg] at hpre
    exact absurd hpre (by decide)

/-- C23 as stated fails: a resource of source size 128x256 with the budget 128x512 in fit
mode fits to 128x256; the smaller budget 128x257 fits it to 128x257 (the scale 257/256 is a
binary fraction, so no operation rounds), which is higher, so `setMaxSize` stores the
smaller budget. -/
theorem setMaxSize_stores_smaller_budget :
    adjustPictureSizeRounded ⟨128, 256⟩ ⟨128, 512⟩ false = ⟨128, 256⟩ ∧
    adjustPictureSizeRounded ⟨128, 256⟩ ⟨128, 257⟩ false = ⟨128, 257⟩ ∧
    (setMaxSize optimizing portrait ⟨128, 257, false⟩).mMaxSize = ⟨128, 257, false⟩ ∧
    (setMaxSize optimizing portrait ⟨128, 257, false⟩).mMaxSize ≠ portrait.mMaxSize := by
  have a1 : toDouble (1) =
      1 := by
    unfold toDouble
    rw [roundNE_eval 53 (1) (-52) 4503599627370496
      (by norm_num [abs_of_pos]) (by norm_num [abs_of_pos])
      (roundHalfEven_eq _ _ (by norm_num [abs_lt]))]
    norm_num
  have a2 : toDouble (2) =
      2 := by
    unfold toDouble
    rw [roundNE_eval 53 (2) (-51) 4503599627370496
      (by norm_num [abs_of_pos]) (by norm_num [abs_of_pos])
      (roundHalfEven_eq _ _ (by norm_num [abs_lt]))]
    norm_num
  have a3 : toDouble (512) =
      512 := by
    unfold toDouble
    rw [roundNE_eval 53 (512) (-43) 4503599627370496
      (by norm_num [abs_of_pos]) (by norm_num [abs_of_pos])
      (roundHalfEven_eq _ _ (by norm_num [abs_lt]))]
    norm_num
  have a4 : toDouble (256) =
      256 := by
    unfold toDouble
    rw [roundNE_eval 53 (256) (-44) 4503599627370496
      (by norm_num [abs_of_pos]) (by norm_num [abs_of_pos])
      (roundHalfEven_eq _ _ (by norm_num [abs_lt]))]
    norm_num
  have a5 : toDouble (65536) =
      65536 := by
    unfold toDouble
    rw [roundNE_eval 53 (65536) (-36) 4503599627370496
      (by norm_num [abs_of_pos]) (by norm_num [abs_of_pos])
      (roundHalfEven_eq _ _ (by norm_num [abs_lt]))]
    norm_num
  have b1 : toDouble (1) =
      1 := by
    unfold toDouble
    rw [roundNE_eval 53 (1) (-52) 4503599627370496
      (by norm_num [abs_of_pos]) (by norm_num [abs_of_pos])
      (roundHalfEven_eq _ _ (by norm_num [abs_lt]))]
    norm_num
  have b2 : toDouble (257 / 256) =
      257 / 256 := by
    unfold toDouble
    rw [roundNE_eval 53 (257 / 256) (-52) 4521191813414912
      (by norm_num [abs_of_pos]) (by norm_num [abs_of_pos])
      (roundHalfEven_eq _ _ (by norm_num [abs_lt]))]
    norm_num
  have b3 : toDouble (257) =
      257 := by
    unfold toDouble
    rw [roundNE_eval 53 (257) (-44) 4521191813414912
      (by norm_num [abs_of_pos]) (by norm_num [abs_of_pos])
      (roundHalfEven_eq _ _ (by norm_num [abs_lt]))]
    norm_num
  have b4 : toDouble (257 / 2) =
      257 / 2 := by
    unfold toDouble
    rw [roundNE_eval 53 (257 / 2) (-45) 4521191813414912
      (by norm_num [abs_of_pos]) (by norm_num [abs_of_pos])
      (roundHalfEven_eq _ _ (by norm_num [abs_lt]))]
    norm_num
  have e1 : adjustPictureSizeRounded ⟨128, 256⟩ ⟨128, 512⟩ false = ⟨128, 256⟩ := by
    norm_num [adjustPictureSizeRounded, truncToInt, max_def, a1, a2, a3, a4, a5]
  have e2 : adjustPictureSizeRounded ⟨128, 256⟩ ⟨128, 257⟩ false = ⟨128, 257⟩ := by
    norm_num [adjustPictureSizeRounded, truncToInt, max_def, b1, b2, b3, b4]
  have t128 : truncToInt (128 : ℚ) = 128 := by norm_num [truncToInt]
  have t256 : truncToInt (256 : ℚ) = 256 := by norm_num [truncToInt]
  have t512 : truncToInt (512 : ℚ) = 512 := by norm_num [truncToInt]
  have t257 : truncToInt (257 : ℚ) = 257 := by norm_num [truncToInt]
  have e3 : (setMaxSize optimizing portrait ⟨128, 257, false⟩).mMaxSize =
      ⟨128, 257, false⟩ := by
    simp only [setMaxSize, fittedTo, optimizing, plainWorld, portrait, new, t128, t256, t512,
      t257, e1, e2]
    norm_num
  refine ⟨e1, e2, e3, ?_⟩
  rw [e3]
  decide

/-- C23, amended. For every TextureData whose source dimensions are non-zero, with
OptimizeVRAM enabled, `setMaxSize` leaves the stored budget (and the whole resource)
unchanged exactly when the source size fitted to the new budget by `adjustPictureSize`, in
the mode of the current budget, is no larger on either axis than the source size fitted to
the current budget; otherwise it stores the new budget. When the current budget is in fit
mode and the source dimensions and the new budget lie between 1 and 32768, a new budget
that is no larger on either axis than the source size fitted to the current budget is
never stored: there, decreasing the budget is a no-op. -/
theorem setMaxSize_keeps_budget (env : Env) (t : TextureData) (maxSize : MaxSizeInfo)
    (hopt : env.OptimizeVRAM = true) (hw : t.mSourceWidth ≠ 0) (hh : t.mSourceHeight ≠ 0) :
    (((fittedTo t maxSize).x ≤ (fittedTo t t.mMaxSize).x ∧
      (fittedTo t maxSize).y ≤ (fittedTo t t.mMaxSize).y) →
      setMaxSize env t maxSize = t) ∧
    (¬ ((fittedTo t maxSize).x ≤ (fittedTo t t.mMaxSize).x ∧
      (fittedTo t maxSize).y ≤ (fittedTo t t.mMaxSize).y) →
      setMaxSize env t maxSize = { t with mMaxSize := maxSize }) ∧
    (t.mMaxSize.externalZoom = false →
      1 ≤ truncToInt t.mSourceWidth → truncToInt t.mSourceWidth ≤ 32768 →
      1 ≤ truncToInt t.mSourceHeight → truncToInt t.mSourceHeight ≤ 32768 →
      1 ≤ truncToInt maxSize.x → truncToInt maxSize.x ≤ 32768 →
      1 ≤ truncToInt maxSize.y → truncToInt maxSize.y ≤ 32768 →
      truncToInt maxSize.x ≤ (fittedTo t t.mMaxSize).x →
      truncToInt maxSize.y ≤ (fittedTo t t.mMaxSize).y →
      setMaxSize env t maxSize = t) := by
  have hsrc : ¬ (t.mSourceWidth = 0 ∨ t.mSourceHeight = 0) := by
    push_neg
    exact ⟨hw, hh⟩
  have hkeep : ((fittedTo t maxSize).x ≤ (fittedTo t t.mMaxSize).x ∧
      (fittedTo t maxSize).y ≤ (fittedTo t t.mMaxSize).y) →
      setMaxSize env t maxSize = t := by
    intro hle
    have hno : ¬ ((fittedTo t maxSize).x > (fittedTo t t.mMaxSize).x ∨
        (fittedTo t maxSize).y > (fittedTo t t.mMaxSize).y) := by
      push_neg
      exact hle
    simp only [setMaxSize, hopt, Bool.true_eq_false, if_false, if_neg hsrc, if_neg hno]
  refine ⟨hkeep, ?_, ?_⟩
  · intro hgrow
    have hyes : (fittedTo t maxSize).x > (fittedTo t t.mMaxSize).x ∨
        (fittedTo t maxSize).y > (fittedTo t t.mMaxSize).y := by
      by_contra hcon
      push_neg at hcon
      exact hgrow hcon
    simp only [setMaxSize, hopt, Bool.true_eq_false, if_false, if_neg hsrc, if_pos hyes]
  · intro hfit hw1 hw2 hh1 hh2 hx1 hx2 hy1 hy2 hx hy
    apply hkeep
    have hbox := adjustPictureSizeRounded_within_box (truncToInt t.mSourceWidth)
      (truncToInt t.mSourceHeight) (truncToInt maxSize.x) (truncToInt maxSize.y)
      hw1 hh1 hx1 hy1 hw2 hh2 hx2 hy2
    have hnew : fittedTo t maxSize = adjustPictureSizeRounded
        ⟨truncToInt t.mSourceWidth, truncToInt t.mSourceHeight⟩
        ⟨truncToInt maxSize.x, truncToInt maxSize.y⟩ false := by
      unfold fittedTo
      rw [hfit]
    rw [hnew]
    exact ⟨le_trans hbox.1 hx, le_trans hbox.2 hy⟩

/-- C23, amended, at a resource of source size 128x256 whose budget is 128x512 in fit
mode: the smaller budget 64x128 fits the source to 64x128, below the 128x256 of the current
budget, and is not stored; the budget 100x200, below the fitted size 128x256 on both axes,
is not stored either. -/
theorem setMaxSize_keeps_budget_witness :
    fittedTo portrait ⟨64, 128, false⟩ = ⟨64, 128⟩ ∧
    fittedTo portrait portrait.mMaxSize = ⟨128, 256⟩ ∧
    setMaxSize optimizing portrait ⟨64, 128, false⟩ = portrait ∧
    setMaxSize optimizing portrait ⟨100, 200, false⟩ = portrait := by
  have a1 : toDouble (1) =
      1 := by
    unfold toDouble
    rw [roundNE_eval 53 (1) (-52) 4503599627370496
      (by norm_num [abs_of_pos]) (by norm_num [abs_of_pos])
      (roundHalfEven_eq _ _ (by norm_num [abs_lt]))]
    norm_num
  have a2 : toDouble (2) =
      2 := by
    unfold toDouble
    rw [roundNE_eval 53 (2) (-51) 4503599627370496
      (by norm_num [abs_of_pos]) (by norm_num [abs_of_pos])
      (roundHalfEven_eq _ _ (by norm_num [abs_lt]))]
    norm_num
  have a3 : toDouble (512) =
      512 := by
    unfold toDouble
    rw [roundNE_eval 53 (512) (-43) 4503599627370496
      (by norm_num [abs_of_pos]) (by norm_num [abs_of_pos])
      (roundHalfEven_eq _ _ (by norm_num [abs_lt]))]
    norm_num
  have a4 : toDouble (256) =
      256 := by
    unfold toDouble
    rw [roundNE_eval 53 (256) (-44) 4503599627370496
      (by norm_num [abs_of_pos]) (by norm_num [abs_of_pos])
      (roundHalfEven_eq _ _ (by norm_num [abs_lt]))]
    norm_num
  have a5 : toDouble (65536) =
      65536 := by
    unfold toDouble
    rw [roundNE_eval 53 (65536) (-36) 4503599627370496
      (by norm_num [abs_of_pos]) (by norm_num [abs_of_pos])
      (roundHalfEven_eq _ _ (by norm_num [abs_lt]))]
    norm_num
  have c1 : toDouble (1 / 2) =
      1 / 2 := by
    unfold toDouble
    rw [roundNE_eval 53 (1 / 2) (-53) 4503599627370496
      (by norm_num [abs_of_pos]) (by norm_num [abs_of_pos])
      (roundHalfEven_eq _ _ (by norm_num [abs_lt]))]
    norm_num
  have c2 : toDouble (128) =
      128 := by
    unfold toDouble
    rw [roundNE_eval 53 (128) (-45) 4503599627370496
      (by norm_num [abs_of_pos]) (by norm_num [abs_of_pos])
      (roundHalfEven_eq _ _ (by norm_num [abs_lt]))]
    norm_num
  have c3 : toDouble (64) =
      64 := by
    unfold toDouble
    rw [roundNE_eval 53 (64) (-46) 4503599627370496
      (by norm_num [abs_of_pos]) (by norm_num [abs_of_pos])
      (roundHalfEven_eq _ _ (by norm_num [abs_lt]))]
    norm_num
  have e1 : adjustPictureSizeRounded ⟨128, 256⟩ ⟨128, 512⟩ false = ⟨128, 256⟩ := by
    norm_num [adjustPictureSizeRounded, truncToInt, max_def, a1, a2, a3, a4, a5]
  have e2 : adjustPictureSizeRounded ⟨128, 256⟩ ⟨64, 128⟩ false = ⟨64, 128⟩ := by
    norm_num [adjustPictureSizeRounded, truncToInt, max_def, c1, c2, c3]
  have t128 : truncToInt (128 : ℚ) = 128 := by norm_num [truncToInt]
  have t256 : truncToInt (256 : ℚ) = 256 := by norm_num [truncToInt]
  have t512 : truncToInt (512 : ℚ) = 512 := by norm_num [truncToInt]
  have t64 : truncToInt (64 : ℚ) = 64 := by norm_num [truncToInt]
  have f1 : fittedTo portrait ⟨64, 128, false⟩ = ⟨64, 128⟩ := by
    simp only [fittedTo, portrait, new, t128, t256, t64, e2]
  have f2 : fittedTo portrait portrait.mMaxSize = ⟨128, 256⟩ := by
    simp only [fittedTo, portrait, new, t128, t256, t512, e1]
  have t100 : truncToInt (100 : ℚ) = 100 := by norm_num [truncToInt]
  have t200 : truncToInt (200 : ℚ) = 200 := by norm_num [truncToInt]
  refine ⟨f1, f2, (setMaxSize_keeps_budget optimizing portrait ⟨64, 128, false⟩ rfl
    (by decide) (by decide)).1 ?_,
    (setMaxSize_keeps_budget optimizing portrait ⟨100, 200, false⟩ rfl
      (by decide) (by decide)).2.2 rfl ?_ ?_ ?_ ?_ ?_ ?_ ?_ ?_ ?_ ?_⟩
  · rw [f1, f2]
    decide
  · show 1 ≤ truncToInt (128 : ℚ)
    rw [t128]
    decide
  · show truncToInt (128 : ℚ) ≤ 32768
    rw [t128]
    decide
  · show 1 ≤ truncToInt (256 : ℚ)
    rw [t256]
    decide
  · show truncToInt (256 : ℚ) ≤ 32768
    rw [t256]
    decide
  · show 1 ≤ truncToInt (100 : ℚ)
    rw [t100]
    decide
  · show truncToInt (100 : ℚ) ≤ 32768
    rw [t100]
    decide
  · show 1 ≤ truncToInt (200 : ℚ)
    rw [t200]
    decide
  · show truncToInt (200 : ℚ) ≤ 32768
    rw [t200]
    decide
  · show truncToInt (100 : ℚ) ≤ (fittedTo portrait portrait.mMaxSize).x
    rw [t100, f2]
    decide
  · show truncToInt (200 : ℚ) ≤ (fittedTo portrait portrait.mMaxSize).y
    rw [t200, f2]
    decide

end TextureData

namespace ImageIO

/-! ## C25: sizes with a zero axis -/

theorem divChecked_some (rd : ℚ → ℚ) (a b q : ℚ) (h : divChecked rd a b = some q) :
    q = rd (a / b) ∧ b ≠ 0 := by
  unfold divChecked at h
  split_ifs at h with hb
  simp only [Option.some.injEq] at h
  exact ⟨h.symm, hb⟩

theorem getPictureMinSizeChecked_sound (imageSize maxSize r : Vector2f)
    (h : getPictureMinSizeChecked imageSize maxSize = some r) :
    getPictureMinSizeRounded imageSize maxSize = r := by
  unfold getPictureMinSizeChecked at h
  unfold getPictureMinSizeRounded
  by_cases hz : imageSize.x = 0 ∨ imageSize.y = 0
  · rw [if_pos hz] at h ⊢
    simpa using h
  · rw [if_neg hz] at h ⊢
    push_neg at hz
    simp only [divChecked, if_neg hz.1, if_neg hz.2] at h
    by_cases hc : toFloat (imageSize.x * toFloat (maxSize.y / imageSize.y)) < maxSize.x
    · simp only [if_pos hc] at h ⊢
      simpa using h
    · simp only [if_neg hc] at h ⊢
      simpa using h

theorem adjustPictureSizeChecked_sound (imageSize maxSize r : Vector2i) (externSize : Bool)
    (h : adjustPictureSizeChecked imageSize maxSize externSize = some r) :
    adjustPictureSizeRounded imageSize maxSize externSize = r := by
  unfold adjustPictureSizeChecked at h
  unfold adjustPictureSizeRounded
  cases externSize with
  | true =>
    simp only [if_true] at h ⊢
    cases hg : getPictureMinSizeChecked ⟨toFloat imageSize.x, toFloat imageSize.y⟩
        ⟨toFloat maxSize.x, toFloat maxSize.y⟩ with
    | none => rw [hg] at h; simp at h
    | some szf =>
      rw [hg] at h
      rw [getPictureMinSizeChecked_sound _ _ _ hg]
      simpa using h
  | false =>
    simp only [Bool.false_eq_true, if_false] at h ⊢
    by_cases hz : imageSize.x = 0 ∨ imageSize.y = 0
    · rw [if_pos hz] at h ⊢
      simpa using h
    · rw [if_neg hz] at h ⊢
      push_neg at hz
      have hx : (imageSize.x : ℚ) ≠ 0 := by exact_mod_cast hz.1
      have hy : (imageSize.y : ℚ) ≠ 0 := by exact_mod_cast hz.2
      simp only [divChecked, if_neg hx, if_neg hy] at h
      generalize truncToInt (toDouble ((imageSize.x : ℚ) *
        max (toDouble ((maxSize.x : ℚ) / imageSize.x))
          (toDouble ((maxSize.y : ℚ) / imageSize.y)))) = cx1 at h ⊢
      generalize truncToInt (toDouble ((imageSize.y : ℚ) *
        max (toDouble ((maxSize.x : ℚ) / imageSize.x))
          (toDouble ((maxSize.y : ℚ) / imageSize.y)))) = cy1 at h ⊢
      by_cases h1 : cx1 > maxSize.x
      · simp only [if_pos h1] at h ⊢
        by_cases hd : (cx1 : ℚ) = 0
        · simp [hd] at h
        · simp only [if_neg hd] at h
          generalize truncToInt (toDouble (toDouble ((cy1 : ℚ) * (maxSize.x : ℚ)) /
            (cx1 : ℚ))) = cy2 at h ⊢
          by_cases h2 : cy2 > maxSize.y
          · simp only [if_pos h2] at h ⊢
            by_cases hd2 : (cy2 : ℚ) = 0
            · simp [hd2] at h
            · simp only [if_neg hd2] at h
              simpa using h
          · simp only [if_neg h2] at h ⊢
            simpa using h
      · simp only [if_neg h1] at h ⊢
        by_cases h2 : cy1 > maxSize.y
        · simp only [if_pos h2] at h ⊢
          by_cases hd2 : (cy1 : ℚ) = 0
          · simp [hd2] at h
          · simp only [if_neg hd2] at h
            simpa using h
        · simp only [if_neg h2] at h ⊢
          simpa using h

/-- C25 as stated fails: in cover mode `adjustPictureSize` passes the image size through
`float`, and the size (0, 16777217) comes back as (0, 16777216), the conversion of
`2 ^ 24 + 1` to `float` rounding to the even neighbour. -/
theorem adjustPictureSize_zero_width_changed :
    adjustPictureSizeRounded ⟨0, 16777217⟩ ⟨5, 5⟩ true = ⟨0, 16777216⟩ ∧
    adjustPictureSizeRounded ⟨0, 16777217⟩ ⟨5, 5⟩ true ≠ ⟨0, 16777217⟩ := by
  have h1 : toFloat 16777217 = 16777216 := by
    unfold toFloat
    rw [roundNE_eval 24 16777217 1 8388608 (by norm_num [abs_of_pos])
      (by norm_num [abs_of_pos]) (by
        have h := roundHalfEven_tie 8388608 (by norm_num)
        norm_num at h ⊢
        exact h)]
    norm_num
  have h0 : toFloat 0 = 0 := by simp [toFloat, roundNE]
  have e : adjustPictureSizeRounded ⟨0, 16777217⟩ ⟨5, 5⟩ true = ⟨0, 16777216⟩ := by
    norm_num [adjustPictureSizeRounded, getPictureMinSizeRounded, truncToInt, h0, h1]
  rw [e]
  exact ⟨rfl, by decide⟩

/-- C25, amended. For every box and every image size whose width or height is 0:
`adjustPictureSize` in fit mode and `getPictureMinSize` return the image size unchanged;
`adjustPictureSize` in cover mode returns the image size converted to `float` and back,
which is the image size unchanged when neither component exceeds `2 ^ 24` in absolute
value; and no division by zero is evaluated: the functions with their divisions checked
return the same sizes, not the failure of a division. -/
theorem zero_size_unchanged (imageSize maxSize : Vector2i) (floatSize floatMax : Vector2f) :
    ((imageSize.x = 0 ∨ imageSize.y = 0) →
      adjustPictureSizeRounded imageSize maxSize false = imageSize ∧
      adjustPictureSizeChecked imageSize maxSize false = some imageSize ∧
      adjustPictureSizeRounded imageSize maxSize true =
        ⟨truncToInt (toFloat imageSize.x), truncToInt (toFloat imageSize.y)⟩ ∧
      adjustPictureSizeChecked imageSize maxSize true =
        some ⟨truncToInt (toFloat imageSize.x), truncToInt (toFloat imageSize.y)⟩ ∧
      (|imageSize.x| ≤ 2 ^ 24 → |imageSize.y| ≤ 2 ^ 24 →
        adjustPictureSizeRounded imageSize maxSize true = imageSize ∧
        adjustPictureSizeChecked imageSize maxSize true = some imageSize)) ∧
    ((floatSize.x = 0 ∨ floatSize.y = 0) →
      getPictureMinSizeRounded floatSize floatMax = floatSize ∧
      getPictureMinSizeChecked floatSize floatMax = some floatSize) := by
  have hfloat : ∀ s m : Vector2f, (s.x = 0 ∨ s.y = 0) → getPictureMinSizeChecked s m = some s := by
    intro s m hz
    unfold getPictureMinSizeChecked
    rw [if_pos hz]
  have h0 : toFloat 0 = 0 := by simp [toFloat, roundNE]
  constructor
  · intro hz
    have hfit : adjustPictureSizeChecked imageSize maxSize false = some imageSize := by
      unfold adjustPictureSizeChecked
      simp only [Bool.false_eq_true, if_false]
      rw [if_pos hz]
    have hz1 : toFloat (imageSize.x : ℚ) = 0 ∨ toFloat (imageSize.y : ℚ) = 0 := by
      rcases hz with hz | hz
      · left
        rw [hz]
        exact_mod_cast h0
      · right
        rw [hz]
        exact_mod_cast h0
    have hcover : adjustPictureSizeChecked imageSize maxSize true =
        some ⟨truncToInt (toFloat imageSize.x), truncToInt (toFloat imageSize.y)⟩ := by
      unfold adjustPictureSizeChecked
      simp only [if_true]
      rw [hfloat ⟨toFloat imageSize.x, toFloat imageSize.y⟩
        ⟨toFloat maxSize.x, toFloat maxSize.y⟩ hz1]
    refine ⟨adjustPictureSizeChecked_sound _ _ _ _ hfit, hfit,
      adjustPictureSizeChecked_sound _ _ _ _ hcover, hcover, ?_⟩
    intro hx hy
    have hsame : (⟨truncToInt (toFloat imageSize.x), truncToInt (toFloat imageSize.y)⟩ :
        Vector2i) = imageSize := by
      rw [toFloat_intCast _ hx, toFloat_intCast _ hy, truncToInt_intCast, truncToInt_intCast]
    rw [hsame] at hcover
    exact ⟨adjustPictureSizeChecked_sound _ _ _ _ hcover, hcover⟩
  · intro hz
    exact ⟨getPictureMinSizeChecked_sound _ _ _ (hfloat _ _ hz), hfloat _ _ hz⟩

/-- C25, amended, at the sizes (0,50) and (50,0) in the box 100x100. -/
theorem zero_size_unchanged_witness :
    adjustPictureSizeRounded ⟨0, 50⟩ ⟨100, 100⟩ false = ⟨0, 50⟩ ∧
    adjustPictureSizeChecked ⟨0, 50⟩ ⟨100, 100⟩ true = some ⟨0, 50⟩ ∧
    getPictureMinSizeRounded ⟨50, 0⟩ ⟨0, 0⟩ = ⟨50, 0⟩ :=
  ⟨((zero_size_unchanged ⟨0, 50⟩ ⟨100, 100⟩ ⟨50, 0⟩ ⟨0, 0⟩).1 (Or.inl rfl)).1,
    (((zero_size_unchanged ⟨0, 50⟩ ⟨100, 100⟩ ⟨50, 0⟩ ⟨0, 0⟩).1 (Or.inl rfl)).2.2.2.2
      (by decide) (by decide)).2,
    ((zero_size_unchanged ⟨0, 50⟩ ⟨100, 100⟩ ⟨50, 0⟩ ⟨0, 0⟩).2 (Or.inr rfl)).1⟩

/-! ## C27: the decoded size and the screen -/

theorem scanLoop_fuel (f : FileData) :
    ∀ (fuel : Nat) (buf : Buf) (pos : Nat) (ops : List FileOp) (r : Buf × List FileOp),
      scanLoop f fuel buf pos ops = some r → scanLoop f (fuel + 1) buf pos ops = some r := by
  intro fuel
  induction fuel with
  | zero => intro buf pos ops r h; simp [scanLoop] at h
  | succ n ih =>
    intro buf pos ops r h
    unfold scanLoop at h ⊢
    by_cases h2 : (buf 2 == 0xFF) = true
    · rw [if_pos h2] at h ⊢
      by_cases h3 : isSOF (buf 3) = true
      · rw [if_pos h3] at h ⊢
        exact h
      · rw [if_neg h3] at h ⊢
        simp only [] at h ⊢
        by_cases h4 : f.seekOk (pos + (2 + ((buf 4).val <<< 8) + (buf 5).val)) = false
        · rw [if_pos h4] at h ⊢
          exact h
        · rw [if_neg h4] at h ⊢
          by_cases h5 : (freadBytes f (pos + (2 + ((buf 4).val <<< 8) + (buf 5).val)) 12).length ≠ 12
          · rw [if_pos h5] at h ⊢
            exact h
          · rw [if_neg h5] at h ⊢
            exact ih _ _ _ _ h
    · rw [if_neg h2] at h ⊢
      exact h

theorem scanLoop_more_fuel (f : FileData) (fuel : Nat) (buf : Buf) (pos : Nat)
    (ops : List FileOp) (r : Buf × List FileOp) (h : scanLoop f fuel buf pos ops = some r) :
    ∀ k, scanLoop f (fuel + k) buf pos ops = some r := by
  intro k
  induction k with
  | zero => exact h
  | succ k ih => exact scanLoop_fuel f (fuel + k) buf pos ops r ih

theorem seekPositions_append (a b : List FileOp) :
    seekPositions (a ++ b) = seekPositions a ++ seekPositions b := by
  induction a with
  | nil => rfl
  | cons op rest ih =>
    cases op <;> simp [seekPositions, ih]

theorem scanLoop_trace (f : FileData) :
    ∀ (fuel : Nat) (buf : Buf) (pos : Nat) (ops : List FileOp) (r : Buf × List FileOp),
      scanLoop f fuel buf pos ops = some r →
      ∃ added, r.2 = ops ++ added ∧
        List.Chain (fun a b => a + 2 ≤ b) pos (seekPositions added) ∧
        ((r.1 2 == 0xFF) = false ∨ isSOF (r.1 3) = true ∨
          (∃ pre p, added = pre ++ [FileOp.fseek p] ∧ f.seekOk p = false) ∨
          (∃ pre p, added = pre ++ [FileOp.fseek p, FileOp.fread 12] ∧
            (freadBytes f p 12).length ≠ 12)) := by
  intro fuel
  induction fuel with
  | zero => intro buf pos ops r h; simp [scanLoop] at h
  | succ n ih =>
    intro buf pos ops r h
    unfold scanLoop at h
    by_cases h2 : (buf 2 == 0xFF) = true
    · rw [if_pos h2] at h
      by_cases h3 : isSOF (buf 3) = true
      · rw [if_pos h3] at h
        simp only [Option.some.injEq] at h
        subst h
        exact ⟨[], by simp, List.Chain.nil, Or.inr (Or.inl h3)⟩
      · rw [if_neg h3] at h
        simp only [] at h
        by_cases h4 : f.seekOk (pos + (2 + ((buf 4).val <<< 8) + (buf 5).val)) = false
        · rw [if_pos h4] at h
          simp only [Option.some.injEq] at h
          subst h
          refine ⟨[FileOp.fseek (pos + (2 + ((buf 4).val <<< 8) + (buf 5).val))], rfl, ?_,
            Or.inr (Or.inr (Or.inl ⟨[], _, rfl, h4⟩))⟩
          simp only [seekPositions]
          exact List.Chain.cons (by omega) List.Chain.nil
        · rw [if_neg h4] at h
          by_cases h5 : (freadBytes f (pos + (2 + ((buf 4).val <<< 8) + (buf 5).val)) 12).length ≠ 12
          · rw [if_pos h5] at h
            simp only [Option.some.injEq] at h
            subst h
            refine ⟨[FileOp.fseek (pos + (2 + ((buf 4).val <<< 8) + (buf 5).val)),
              FileOp.fread 12], rfl, ?_, Or.inr (Or.inr (Or.inr ⟨[], _, rfl, h5⟩))⟩
            simp only [seekPositions]
            exact List.Chain.cons (by omega) List.Chain.nil
          · rw [if_neg h5] at h
            obtain ⟨added, e1, e2, e3⟩ := ih _ _ _ _ h
            refine ⟨[FileOp.fseek (pos + (2 + ((buf 4).val <<< 8) + (buf 5).val)),
              FileOp.fread 12] ++ added, ?_, ?_, ?_⟩
            · rw [e1, List.append_assoc]
            · rw [seekPositions_append]
              simp only [seekPositions, List.singleton_append]
              exact List.Chain.cons (by omega) e2
            · rcases e3 with e3 | e3 | ⟨pre, p, e3, e4⟩ | ⟨pre, p, e3, e4⟩
              · exact Or.inl e3
              · exact Or.inr (Or.inl e3)
              · exact Or.inr (Or.inr (Or.inl ⟨_ ++ pre, p, by rw [e3, List.append_assoc], e4⟩))
              · exact Or.inr (Or.inr (Or.inr ⟨_ ++ pre, p, by rw [e3, List.append_assoc], e4⟩))
    · rw [if_neg h2] at h
      simp only [Option.some.injEq] at h
      subst h
      exact ⟨[], by simp, List.Chain.nil, Or.inl (by simpa using h2)⟩

theorem loadImageSize_returns (fs : FileSystem) (st : State) (fn : String) (x y : Nat) :
    ∃ r, loadImageSize fs st fn x y = some r := by
  unfold loadImageSize
  cases hfind : cacheFind st.sizeCache fn with
  | some it =>
    simp only []
    split_ifs <;> exact ⟨_, rfl⟩
  | none =>
    simp only []
    by_cases hext : fs.lowerExtension fn ≠ ".jpg" ∧ fs.lowerExtension fn ≠ ".png" ∧
        fs.lowerExtension fn ≠ ".jpeg" ∧ fs.lowerExtension fn ≠ ".gif"
    · rw [if_pos hext]
      exact ⟨_, rfl⟩
    · rw [if_neg hext]
      cases hopen : fs.fopen fn with
      | none => exact ⟨_, rfl⟩
      | some f =>
        simp only []
        by_cases hread : (freadBytes f 0 24).length ≠ 24
        · rw [if_pos hread]
          exact ⟨_, rfl⟩
        · rw [if_neg hread]
          push_neg at hread
          have hlen : 24 ≤ f.bytes.length := by
            rw [freadBytes_length] at hread
            omega
          obtain ⟨⟨jfif, buf, ops⟩, hr⟩ := jpegScan_returns f (firstRead f) hlen
          rw [hr]
          exact ⟨_, rfl⟩

/-- C29. `loadImageSize` returns for every file system, cache and path; and for every
file of at least 24 bytes (the scan runs only after 24 bytes were read), every content of
the buffer and every behaviour of `fseek`, the marker scan ends: it gives the same buffer
and the same calls for every bound on the number of iterations from the file length on.
Each iteration seeks at least 2 bytes beyond the position before it (the first position
being 2), and the scan ends with a buffer whose segment does not start with FF, or on a
Start-Of-Frame marker, or with a failed `fseek`, or with an `fread` that delivered fewer
than 12 bytes. -/
theorem jpegScan_terminates :
    (∀ (fs : FileSystem) (st : State) (fn : String) (x y : Nat),
      ∃ r, loadImageSize fs st fn x y = some r) ∧
    (∀ (f : FileData) (buf : Buf), 24 ≤ f.bytes.length →
      ∃ buf1 ops,
        (∀ fuel, f.bytes.length ≤ fuel → scanLoop f fuel buf 2 [] = some (buf1, ops)) ∧
        List.Chain (fun a b => a + 2 ≤ b) 2 (seekPositions ops) ∧
        ((buf1 2 == 0xFF) = false ∨ isSOF (buf1 3) = true ∨
          (∃ pre p, ops = pre ++ [FileOp.fseek p] ∧ f.seekOk p = false) ∨
          (∃ pre p, ops = pre ++ [FileOp.fseek p, FileOp.fread 12] ∧
            (freadBytes f p 12).length ≠ 12))) := by
  refine ⟨loadImageSize_returns, ?_⟩
  intro f buf hlen
  obtain ⟨⟨buf1, ops⟩, hr⟩ := scanLoop_returns f f.bytes.length buf 2 [] (by omega) (by omega)
  obtain ⟨added, e1, e2, e3⟩ := scanLoop_trace f _ _ _ _ _ hr
  simp only [List.nil_append] at e1
  subst e1
  refine ⟨buf1, ops, ?_, e2, e3⟩
  intro fuel hfuel
  obtain ⟨k, rfl⟩ := Nat.exists_eq_add_of_le hfuel
  exact scanLoop_more_fuel f _ buf 2 [] _ hr k

/-- C29 at a JFIF file cut off after 32 bytes: the scan seeks to 20 and to 89 and ends
with the read at 89, which delivers nothing. -/
theorem jpegScan_terminates_witness :
    (scanLoop ⟨truncatedJfif, fun _ => true⟩ 32 (firstRead ⟨truncatedJfif, fun _ => true⟩)
      2 []).map (fun r => r.2) =
      some [FileOp.fseek 20, FileOp.fread 12, FileOp.fseek 89, FileOp.fread 12] ∧
    ∃ buf1 ops,
      (∀ fuel, 32 ≤ fuel →
        scanLoop ⟨truncatedJfif, fun _ => true⟩ fuel
          (firstRead ⟨truncatedJfif, fun _ => true⟩) 2 [] = some (buf1, ops)) ∧
      List.Chain (fun a b => a + 2 ≤ b) 2 (seekPositions ops) ∧
      ((buf1 2 == 0xFF) = false ∨ isSOF (buf1 3) = true ∨
        (∃ pre p, ops = pre ++ [FileOp.fseek p] ∧
          (⟨truncatedJfif, fun _ => true⟩ : FileData).seekOk p = false) ∨
        (∃ pre p, ops = pre ++ [FileOp.fseek p, FileOp.fread 12] ∧
          (freadBytes ⟨truncatedJfif, fun _ => true⟩ p 12).length ≠ 12)) :=
  ⟨by decide,
    jpegScan_terminates.2 ⟨truncatedJfif, fun _ => true⟩
      (firstRead ⟨truncatedJfif, fun _ => true⟩) (by decide)⟩

/-- C30 fails on the code: on a JFIF file cut off after 32 bytes, whose marker walk
reaches no Start-Of-Frame segment and whose scan ends with a read that delivers nothing,
`loadImageSize` returns true and reports the width 3086 and the height 4107, which are
bytes of the quantization table left in the buffer, and records them in the cache. -/
theorem loadImageSize_truncated_jfif_succeeds :
    walkToSOF truncatedJfif 32 2 = none ∧
    (loadImageSize (oneFile ".jpg" truncatedJfif) emptyState "a.jpg" 0 0).map
      (fun r => (r.ret, r.x, r.y, r.state)) =
      some (true, 3086, 4107, ⟨[("a.jpg", ⟨32, 3086, 4107⟩)], false⟩) := by
  decide

end ImageIO
